import Mathlib

/-!
# AudioDeconstructor: breakpoint store and feature extractors

A shallow embedding of `Source/PluginProcessor.cpp` and `Source/FeatureExtractors.cpp`.

Conventions of the embedding.

* `float` and `double` values are rationals, the finite values of the formats. An operation
  of the source whose rounding is modelled is the exact operation followed by `binary32` (for
  `float`) or `binary64` (for `double`): rounding to nearest, ties to even, subnormal values
  included, no overflow. Rounding is modelled, one rounding for each operation, in
  `AmplitudeExtractor::extract` (window, hop, sum of squares, mean, normalisation), in the
  window and hop of `PanningExtractor::extract`, in `calculateFlatness` (sums, quotients) and
  in the sums and the threshold of `calculateRolloff`.
* The remaining arithmetic is exact: the frame sums and the quotients of
  `PanningExtractor::extract`, `calculateCentroid`, `calculateFlux`, the Hann window, the pitch
  and transient detectors, and the frequency `i * sampleRate / 4096` that `calculateRolloff`
  returns. The quotients `start / sampleRate` and `sampleRate / peakLag` are exact quotients.
  The quotient `*maxIt / correlation[0]` of `detectPitch`, whose outcome for a zero divisor the
  source feeds into comparisons, goes through `ieeeDiv`, which keeps NaN and the infinities
  apart from a finite quotient.
* The library routines `std::sqrt`, `std::log`, `std::exp`, `std::cos` and the FFT are the
  fields of a parameter `Numerics`; a theorem states what it assumes of them. `sqrt32` is the
  correctly rounded `float` square root.
* `int` is `Int` and `size_t` is `Nat`, with exact arithmetic (no signed overflow occurs in the
  executions described); the implicit `int` to `size_t` conversion of a mixed comparison is
  `toSizeT` (reduction modulo `2^64`).
* `std::map<juce::String, ...>` is a function from names to optional entries.
* A step of the source that is undefined behaviour (dereferencing `end()`, reading past a
  buffer, indexing a channel that does not exist) makes the embedded function return `none`.
-/

namespace AudioDeconstructor

/-! ## Data model -/

/-- A breakpoint, `std::pair<double, double>`: `.1` is the time (`first`), `.2` the value
(`second`). -/
abbrev Breakpoint := ℚ × ℚ

/-- One output curve, `std::vector<std::pair<double, double>>`. -/
abbrev Series := List Breakpoint

/-- All output curves of one feature, `std::vector<std::vector<std::pair<double, double>>>`. -/
abbrev FeatureResult := List Series

/-- The member `featureBreakpoints`: a map from feature name to its curves. -/
abbrev Store := String → Option FeatureResult

/-- Conversion of an `int` to `size_t` as performed by `outputIndex < it->second.size()`
and by `operator[]`: the value modulo `2^64`. -/
def toSizeT (i : Int) : Nat := (i % (2 : Int) ^ 64).toNat

/-- The function `juce::jmax (a, b)`, which is `a < b ? b : a`. -/
def jmax (a b : ℚ) : ℚ := if a < b then b else a

/-- The comparator handed to `std::sort` in `sortBreakpoints`:
`[](const auto& a, const auto& b) { return a.first < b.first; }`. -/
def timeLess (a b : Breakpoint) : Prop := a.1 < b.1

instance : DecidableRel timeLess := fun a b => inferInstanceAs (Decidable (a.1 < b.1))

/-- The library call `std::sort (begin, end, comp)` on one series. The standard fixes its result
only up to the order of elements that compare equivalent; the embedding inserts each element
before the first one that `comp` places strictly after it. -/
def stdSort (s : Series) : Series :=
  s.insertionSort (fun a b => ¬ timeLess b a)

/-! ## Breakpoint store: `PluginProcessor.cpp` -/

/-- Models `AudioDeconstructorProcessor::isFeatureExtracted`. -/
def isFeatureExtracted (fb : Store) (featureName : String) : Bool :=
  (fb featureName).isSome

/-- Models `AudioDeconstructorProcessor::getBreakpointsForDisplay`. -/
def getBreakpointsForDisplay (fb : Store) (featureName : String) (outputIndex : Int) : Series :=
  match fb featureName with
  | some outputs =>
    if h : toSizeT outputIndex < outputs.length then outputs[toSizeT outputIndex] else []
  | none => []

/-- Models `AudioDeconstructorProcessor::sortBreakpoints`. -/
def sortBreakpoints (fb : Store) (featureName : String) (outputIndex : Int) : Store :=
  match fb featureName with
  | some outputs =>
    if h : toSizeT outputIndex < outputs.length then
      Function.update fb featureName
        (some (outputs.set (toSizeT outputIndex) (stdSort outputs[toSizeT outputIndex])))
    else fb
  | none => fb

/-- Models `AudioDeconstructorProcessor::addBreakpoint`: `emplace_back (time, value)` on the selected
series, then `sortBreakpoints`. -/
def addBreakpoint (fb : Store) (featureName : String) (outputIndex : Int) (time value : ℚ) :
    Store :=
  match fb featureName with
  | some outputs =>
    if h : toSizeT outputIndex < outputs.length then
      sortBreakpoints
        (Function.update fb featureName
          (some (outputs.set (toSizeT outputIndex)
            (outputs[toSizeT outputIndex] ++ [(time, value)]))))
        featureName outputIndex
    else fb
  | none => fb

/-- Models `AudioDeconstructorProcessor::updateBreakpoint`: when `pointIndex < points.size()`,
`points[pointIndex] = { jmax (0.0, time), value }`, then `sortBreakpoints`. -/
def updateBreakpoint (fb : Store) (featureName : String) (outputIndex : Int) (pointIndex : Nat)
    (time value : ℚ) : Store :=
  match fb featureName with
  | some outputs =>
    if h : toSizeT outputIndex < outputs.length then
      if pointIndex < outputs[toSizeT outputIndex].length then
        sortBreakpoints
          (Function.update fb featureName
            (some (outputs.set (toSizeT outputIndex)
              (outputs[toSizeT outputIndex].set pointIndex (jmax 0 time, value)))))
          featureName outputIndex
      else fb
    else fb
  | none => fb

/-- Models `AudioDeconstructorProcessor::removeBreakpoint`: when `pointIndex < points.size()`,
`points.erase (points.begin() + pointIndex)`; no sort follows. -/
def removeBreakpoint (fb : Store) (featureName : String) (outputIndex : Int) (pointIndex : Nat) :
    Store :=
  match fb featureName with
  | some outputs =>
    if h : toSizeT outputIndex < outputs.length then
      if pointIndex < outputs[toSizeT outputIndex].length then
        Function.update fb featureName
          (some (outputs.set (toSizeT outputIndex)
            (outputs[toSizeT outputIndex].eraseIdx pointIndex)))
      else fb
    else fb
  | none => fb

/-! ## Extractor registry: `FeatureExtractors.h`, `FeatureExtractorFactory` -/

/-- The five classes derived from `FeatureExtractor`. -/
inductive ExtractorKind
  | amplitude
  | panning
  | spectral
  | pitch
  | transient
deriving DecidableEq, Repr

/-- The member `FeatureExtractor::Settings`. -/
structure Settings where
  windowSizeMs : ℚ
  hopSizePct : ℚ
  normalizeOutput : Bool
  minValue : ℚ
  maxValue : ℚ
  smoothOutput : Bool
  smoothTimeMs : ℚ
deriving DecidableEq

/-- The default member initialisers of `FeatureExtractor::Settings`. -/
def Settings.default : Settings :=
  { windowSizeMs := 15, hopSizePct := 50, normalizeOutput := true, minValue := -1,
    maxValue := 1, smoothOutput := false, smoothTimeMs := 10 }

/-- An extractor object: its dynamic class and its `settings` member. -/
structure FeatureExtractor where
  kind : ExtractorKind
  settings : Settings
deriving DecidableEq

/-- The overrides of `getName()`. -/
def ExtractorKind.getName : ExtractorKind → String
  | .amplitude => "Amplitude"
  | .panning => "Panning"
  | .spectral => "Spectral"
  | .pitch => "Pitch"
  | .transient => "Transients"

/-- The overrides of `getNumOutputs()`. -/
def ExtractorKind.getNumOutputs : ExtractorKind → Nat
  | .amplitude => 2
  | .panning => 3
  | .spectral => 4
  | .pitch => 2
  | .transient => 1

/-- The overrides of `getOutputName (int index)`. -/
def ExtractorKind.getOutputName : ExtractorKind → Int → String
  | .amplitude, index => if index = 0 then "RMS" else "Peak"
  | .panning, index =>
    if index = 0 then "Pan Position" else if index = 1 then "Stereo Width"
    else if index = 2 then "Balance" else "Output"
  | .spectral, index =>
    if index = 0 then "Centroid" else if index = 1 then "Flux"
    else if index = 2 then "Flatness" else if index = 3 then "Rolloff" else "Output"
  | .pitch, index => if index = 0 then "Frequency" else "Confidence"
  | .transient, _ => "Onset Strength"

/-- Models `FeatureExtractorFactory::createExtractor`; `none` is the `nullptr` result. -/
def FeatureExtractorFactory.createExtractor (name : String) : Option FeatureExtractor :=
  if name = "Amplitude" then some ⟨.amplitude, Settings.default⟩
  else if name = "Panning" then some ⟨.panning, Settings.default⟩
  else if name = "Spectral" then some ⟨.spectral, Settings.default⟩
  else if name = "Pitch" then some ⟨.pitch, Settings.default⟩
  else if name = "Transients" then some ⟨.transient, Settings.default⟩
  else none

/-- Models `FeatureExtractorFactory::getAvailableFeatures`. -/
def FeatureExtractorFactory.getAvailableFeatures : List String :=
  ["Amplitude", "Panning", "Spectral", "Pitch", "Transients"]

/-- The member `extractors` as left by `initializeExtractors`: one entry for each of the five
names, holding what `createExtractor` returned for it. -/
def initializeExtractors : String → Option FeatureExtractor := fun name =>
  if name ∈ ["Amplitude", "Panning", "Spectral", "Pitch", "Transients"] then
    FeatureExtractorFactory.createExtractor name
  else none

/-- Models `AudioDeconstructorProcessor::getNumOutputsForFeature`. -/
def getNumOutputsForFeature (extractors : String → Option FeatureExtractor)
    (featureName : String) : Nat :=
  match extractors featureName with
  | some e => e.kind.getNumOutputs
  | none => 0

/-! ## Breakpoint files: `saveBreakpoints`, `loadBreakpoints` -/

/-- A line of a breakpoint file, as `loadBreakpoints` classifies it after
`upToFirstOccurrenceOf ("#")`, `trim` and `fromTokens (trimmed, "\t ", "")`.
* `comment text`: the line starts with `#`; nothing is left of it.
* `blank`: nothing but white space.
* `short`: one token only; the line is skipped.
* `point time value`: two tokens or more; `time` and `value` are what `getDoubleValue` reads
  from the first two. -/
inductive Line
  | comment (text : String)
  | blank
  | short
  | point (time value : ℚ)
deriving DecidableEq

/-- The numeral `juce::String (x, 6)` read back by `getDoubleValue`: `x` rounded to six
decimal places. Both are JUCE library routines. -/
def roundTo6 (x : ℚ) : ℚ := (round (x * 1000000) : ℚ) / 1000000

/-- The line written by
`stream.writeText (juce::String (time, 6) + "\t" + juce::String (value, 6) + "\n", ...)`. -/
def pointLine (p : Breakpoint) : Line := Line.point (roundTo6 p.1) (roundTo6 p.2)

/-- The block that `saveBreakpoints` writes for output `i`: the `# name` line, one line for each
point, one empty line. -/
def outputBlock (extractors : String → Option FeatureExtractor) (featureName : String)
    (i : Nat) (series : Series) : List Line :=
  let outputName :=
    match extractors featureName with
    | some e => e.kind.getOutputName (i : Int)
    | none => "Output " ++ toString (i + 1)
  [Line.comment ("# " ++ outputName)] ++ series.map pointLine ++ [Line.blank]

/-- The loop `for (size_t i = 0; i < outputs.size(); ++i)` of `saveBreakpoints`, from index `i`
on. -/
def outputBlocks (extractors : String → Option FeatureExtractor) (featureName : String) :
    Nat → FeatureResult → List Line
  | _, [] => []
  | i, series :: rest =>
    outputBlock extractors featureName i series ++
      outputBlocks extractors featureName (i + 1) rest

/-- Models `AudioDeconstructorProcessor::saveBreakpoints`: the lines written to a file that opens and
is empty, or `none` when the feature has no stored result and nothing is written.
`sampleRateText` and `generatedText` stand for the renderings `juce::String (loadedSampleRate)`
and `juce::Time::getCurrentTime().toString (true, true)`. -/
def saveBreakpoints (fb : Store) (extractors : String → Option FeatureExtractor)
    (loadedFileName sampleRateText generatedText : String) (featureName : String) :
    Option (List Line) :=
  match fb featureName with
  | none => none
  | some outputs =>
    some ([Line.comment "# Audio Deconstructor Breakpoint File",
        Line.comment ("# Feature: " ++ featureName),
        Line.comment ("# Source: " ++ loadedFileName),
        Line.comment ("# Sample Rate: " ++ sampleRateText ++ " Hz"),
        Line.comment ("# Generated: " ++ generatedText),
        Line.comment "# Format: time(seconds) value",
        Line.blank] ++ outputBlocks extractors featureName 0 outputs)

/-- The loop over `lines` in `loadBreakpoints`: every line with two tokens or more contributes
one point, in file order; all other lines are skipped. -/
def parseLines : List Line → Series
  | [] => []
  | Line.point time value :: rest => (time, value) :: parseLines rest
  | _ :: rest => parseLines rest

/-- The loop `while (outputs.size() <= outputIndex) outputs.emplace_back();` with the index
already converted to `size_t`; one unit of fuel per iteration. -/
def growOutputs : Nat → FeatureResult → Nat → FeatureResult
  | 0, outputs, _ => outputs
  | fuel + 1, outputs, index =>
    if outputs.length ≤ index then growOutputs fuel (outputs ++ [[]]) index else outputs

/-- Models `AudioDeconstructorProcessor::loadBreakpoints`. `file` is `none` when the stream does not
open. The `while` loop runs on `toSizeT outputIndex + 1` units of fuel, which it never exhausts
(`growOutputs_length`); the memory the vector needs is not part of the embedding. -/
def loadBreakpoints (fb : Store) (extractors : String → Option FeatureExtractor)
    (featureName : String) (outputIndex : Int) (file : Option (List Line)) : Store :=
  match file with
  | none => fb
  | some lines =>
    let points := parseLines lines
    let created : Option FeatureResult :=
      match fb featureName with
      | some outputs => some outputs
      | none =>
        match extractors featureName with
        | some e => some (List.replicate e.kind.getNumOutputs [])
        | none => none
    match created with
    | none => fb
    | some outputs =>
      let grown := growOutputs (toSizeT outputIndex + 1) outputs (toSizeT outputIndex)
      sortBreakpoints
        (Function.update fb featureName (some (grown.set (toSizeT outputIndex) points)))
        featureName outputIndex

/-- The number of series `loadBreakpoints` starts from for a feature whose extractor is `e`: the
number stored, or `e.getNumOutputs()` when the feature has no stored result. -/
def outputCountBefore (fb : Store) (e : FeatureExtractor) (f : String) : Nat :=
  match fb f with
  | some outputs => outputs.length
  | none => e.kind.getNumOutputs

/-! ## Numeric helpers -/

/-- The conversion `static_cast<int> (x)`: truncation toward zero. -/
def truncToInt (x : ℚ) : Int := if 0 ≤ x then ⌊x⌋ else ⌈x⌉

/-- Rounding of a rational to the nearest integer, a tie going to the even neighbour: the rule
`roundTiesToEven` of IEEE 754. -/
def roundHalfEven (x : ℚ) : Int :=
  if 2 * Int.fract x < 1 then ⌊x⌋
  else if 1 < 2 * Int.fract x then ⌊x⌋ + 1
  else if ⌊x⌋ % 2 = 0 then ⌊x⌋ else ⌊x⌋ + 1

/-- The exponent of the binade in which a binary format with smallest normal exponent `emin`
rounds `x`: `⌊log₂ |x|⌋`, and `emin` for the subnormal range. -/
def binaryExponent (emin : Int) (x : ℚ) : Int :=
  if x = 0 then emin else max (Int.log 2 |x|) emin

/-- Rounding of a rational to the nearest value of the IEEE 754 binary format with `p`
significand bits and smallest normal exponent `emin`, subnormal values included and ties
going to the even significand. The exponent range has no upper end here: a value beyond the
largest finite one is rounded on its own binade instead of becoming an infinity. -/
def roundBinary (p : Nat) (emin : Int) (x : ℚ) : ℚ :=
  (roundHalfEven (x / 2 ^ (binaryExponent emin x - ((p : Int) - 1))) : ℚ)
    * 2 ^ (binaryExponent emin x - ((p : Int) - 1))

/-- Rounding to `float` (IEEE 754 binary32): the result of one `float` operation on the exact
value `x`. -/
def binary32 (x : ℚ) : ℚ := roundBinary 24 (-126) x

/-- Rounding to `double` (IEEE 754 binary64). -/
def binary64 (x : ℚ) : ℚ := roundBinary 53 (-1022) x

/-- The outcome of a floating-point division: a finite quotient, an infinity, or NaN. -/
inductive IeeeVal
  | finite (q : ℚ)
  | posInf
  | negInf
  | nan
deriving DecidableEq

/-- IEEE division `a / b` of two finite values, the divisor being `+0` when it is zero:
`0 / 0` is NaN, a non-zero value over zero is the infinity of its sign. -/
def ieeeDiv (a b : ℚ) : IeeeVal :=
  if b = 0 then
    if a = 0 then IeeeVal.nan else if 0 < a then IeeeVal.posInf else IeeeVal.negInf
  else IeeeVal.finite (a / b)

/-- The expression `std::max (0.0f, std::min (1.0f, c))`, with `std::min (a, b)` being
`(b < a) ? b : a` and `std::max (a, b)` being `(a < b) ? b : a`. Every comparison with NaN is
false, so `std::min (1.0f, NaN)` is `1.0f`; `+inf < 1` is false and `-inf < 1` is true. -/
def clampUnit : IeeeVal → ℚ
  | IeeeVal.finite c =>
    let m := if c < 1 then c else 1
    if 0 < m then m else 0
  | IeeeVal.posInf => 1
  | IeeeVal.negInf => 0
  | IeeeVal.nan => 1

/-- The value `*std::max_element (v.begin(), v.end())`: the first largest element. On an empty
vector `max_element` returns `end()`, whose dereference is undefined: `none`. -/
def maxElement : List ℚ → Option ℚ
  | [] => none
  | x :: xs => some (xs.foldl (fun best y => if best < y then y else best) x)

/-- The index and value that `std::max_element` designates: the first largest element; `none`
on an empty vector. -/
def argMaxElement : List ℚ → Option (Nat × ℚ)
  | [] => none
  | x :: xs =>
    some ((xs.foldl (fun (acc : (Nat × ℚ) × Nat) y =>
      if acc.1.2 < y then ((acc.2, y), acc.2 + 1) else (acc.1, acc.2 + 1)) ((0, x), 1)).1)

/-- The real-valued library routines the extractors call, taken as parameters: `std::sqrt`,
`std::log`, `std::exp`, `std::cos`, the constant `juce::MathConstants<float>::pi`, and
`juce::dsp::FFT::performFrequencyOnlyForwardTransform`, which rewrites an array in place. -/
structure Numerics where
  sqrt : ℚ → ℚ
  log : ℚ → ℚ
  exp : ℚ → ℚ
  cos : ℚ → ℚ
  pi : ℚ
  frequencyOnlyForwardTransform : (Nat → ℚ) → (Nat → ℚ)

/-! ## Audio buffer and loops -/

/-- The class `juce::AudioBuffer<float>`: `sample c i` is sample `i` of channel `c`, for
`c < numChannels` and `i < numSamples`. -/
structure AudioBuffer where
  numChannels : Nat
  numSamples : Nat
  sample : Nat → Nat → ℚ

/-- The call `buffer.getReadPointer (channel)`: the pointer is modelled by the read `data[i]` it allows,
which is `none` outside `[0, numSamples)`. A channel number outside `[0, numChannels)` has no
pointer: `none`. -/
def AudioBuffer.getReadPointer (buffer : AudioBuffer) (channel : Int) :
    Option (Int → Option ℚ) :=
  if 0 ≤ channel ∧ channel < buffer.numChannels then
    some (fun i =>
      if 0 ≤ i ∧ i < buffer.numSamples then some (buffer.sample channel.toNat i.toNat)
      else none)
  else none

/-- The loop `for (int start = first; start < limit; start += hop) body`, one unit of fuel for
each iteration. The result is `none` when the body faults, and when the fuel is used up with the
guard still true. -/
def forLoop {σ : Type} (body : Int → σ → Option σ) (limit hop : Int) :
    Nat → Int → σ → Option σ
  | 0, start, s => if start < limit then none else some s
  | fuel + 1, start, s =>
    if start < limit then
      match body start s with
      | some s' => forLoop body limit hop fuel (start + hop) s'
      | none => none
    else some s

/-- The loop `for (int i = lo; i < hi; ++i) acc = step (acc, i)`, whose step may fault. -/
def foldRange {σ : Type} (lo hi : Int) (step : σ → Int → Option σ) (init : σ) : Option σ :=
  ((List.range (hi - lo).toNat).map (fun (j : Nat) => lo + (j : Int))).foldlM step init

/-- The number of iterations of `for (int start = 0; start < limit; start += hop)` for a hop of
at least 1: the number of multiples of `hop` below `limit`. -/
def frameCount (limit hop : Int) : Nat := ((limit + hop - 1) / hop).toNat

/-- The values taken by `start` in `for (int start = 0; start < limit; start += hop)`:
`0`, `hop`, `2 * hop`, ... below `limit`. -/
def frameStarts (limit hop : Int) : List Int :=
  (List.range (frameCount limit hop)).map (fun (k : Nat) => (k : Int) * hop)

/-- The samples `data[start]`, ..., `data[stop - 1]` of channel `channel` of a buffer. -/
def AudioBuffer.frameSamples (buffer : AudioBuffer) (channel : Nat) (start stop : Int) :
    List ℚ :=
  (List.range (stop - start).toNat).map
    (fun (j : Nat) => buffer.sample channel (start + (j : Int)).toNat)

/-! ## Extractors: `FeatureExtractors.cpp` -/

/-- The vectors `times`, `rmsValues`, `peakValues` of `AmplitudeExtractor::extract`. -/
structure AmplitudeFrames where
  times : List ℚ
  rmsValues : List ℚ
  peakValues : List ℚ

/-- The body of the frame loop of `AmplitudeExtractor::extract` at `start`. The `float`
operations `sample * sample`, `sumSquares += ...` and `sumSquares / length` round to binary32
one by one; `std::abs` and the comparison with `peak` are exact. -/
def AmplitudeExtractor.frame (m : Numerics) (data : Int → Option ℚ) (sampleRate : ℚ)
    (windowSamples numSamples : Int) (start : Int) (acc : AmplitudeFrames) :
    Option AmplitudeFrames :=
  let stop := min (start + windowSamples) numSamples
  let length := stop - start
  if length = 0 then some acc
  else
    match foldRange start stop (fun (st : ℚ × ℚ) i =>
        match data i with
        | some sample =>
          let absSample := |sample|
          some (binary32 (st.1 + binary32 (sample * sample)),
            if absSample > st.2 then absSample else st.2)
        | none => none) (0, 0) with
    | some (sumSquares, peak) =>
      let rms := m.sqrt (binary32 (sumSquares / binary32 (length : ℚ)))
      some { times := acc.times ++ [(start : ℚ) / sampleRate],
             rmsValues := acc.rmsValues ++ [rms],
             peakValues := acc.peakValues ++ [peak] }
    | none => none

/-- The block `if (settings.normalizeOutput) { ... }` of `AmplitudeExtractor::extract`: each
vector is divided by its own largest element when that is positive, each `v /= max` being one
`float` division. -/
def AmplitudeExtractor.normalize (acc : AmplitudeFrames) : Option AmplitudeFrames :=
  match maxElement acc.rmsValues, maxElement acc.peakValues with
  | some maxRms, some maxPeak =>
    some { times := acc.times,
           rmsValues := if maxRms > 0 then acc.rmsValues.map (fun v => binary32 (v / maxRms))
             else acc.rmsValues,
           peakValues := if maxPeak > 0 then acc.peakValues.map (fun v => binary32 (v / maxPeak))
             else acc.peakValues }
  | _, _ => none

/-- Models `AmplitudeExtractor::extract`. The window is computed in `double`
(`windowSizeMs * sampleRate / 1000.0f`, two operations) and the hop in `float`
(`windowSamples * hopSizePct / 100.0f`, the conversion of the `int` and two operations), each
operation rounding its exact result; `static_cast<int>` then truncates. The time
`start / sampleRate` is the exact quotient. -/
def AmplitudeExtractor.extract (m : Numerics) (settings : Settings) (buffer : AudioBuffer)
    (sampleRate : ℚ) (channel : Int) : Option FeatureResult :=
  let windowSamples0 : Int :=
    truncToInt (binary64 (binary64 (settings.windowSizeMs * sampleRate) / 1000))
  let hopSamples : Int :=
    max 1 (truncToInt
      (binary32 (binary32 (binary32 (windowSamples0 : ℚ) * settings.hopSizePct) / 100)))
  let windowSamples : Int := if windowSamples0 = 0 then 1 else windowSamples0
  match buffer.getReadPointer channel with
  | none => none
  | some data =>
    let numSamples : Int := buffer.numSamples
    match forLoop (AmplitudeExtractor.frame m data sampleRate windowSamples numSamples)
        numSamples hopSamples buffer.numSamples 0 ⟨[], [], []⟩ with
    | none => none
    | some frames =>
      match (if settings.normalizeOutput then AmplitudeExtractor.normalize frames
          else some frames) with
      | none => none
      | some final =>
        some [final.times.zip final.rmsValues, final.times.zip final.peakValues]

/-- The local `windowSamples` of `AmplitudeExtractor::extract` as the frame loop uses it, after
the statement `if (windowSamples == 0) windowSamples = 1;`. -/
def AmplitudeExtractor.windowSamples (settings : Settings) (sampleRate : ℚ) : Int :=
  if truncToInt (binary64 (binary64 (settings.windowSizeMs * sampleRate) / 1000)) = 0 then 1
  else truncToInt (binary64 (binary64 (settings.windowSizeMs * sampleRate) / 1000))

/-- The local `hopSamples` of `AmplitudeExtractor::extract`; it is computed from `windowSamples`
before that is set to 1 when it is 0. -/
def AmplitudeExtractor.hopSamples (settings : Settings) (sampleRate : ℚ) : Int :=
  max 1 (truncToInt
    (binary32 (binary32 (binary32
      (truncToInt (binary64 (binary64 (settings.windowSizeMs * sampleRate) / 1000)) : ℚ)
        * settings.hopSizePct) / 100)))

/-- The pair (`sumSquares`, `peak`) that the sample loop of `AmplitudeExtractor::extract`
leaves after running over the samples of one frame. -/
def AmplitudeExtractor.frameSums (samples : List ℚ) : ℚ × ℚ :=
  samples.foldl (fun (st : ℚ × ℚ) sample =>
    (binary32 (st.1 + binary32 (sample * sample)),
      if |sample| > st.2 then |sample| else st.2)) (0, 0)

/-- The triple (`start / sampleRate`, `rms`, `peak`) that the frame at `start` pushes onto
`times`, `rmsValues`, `peakValues`, from the samples of channel `channel`. -/
def AmplitudeExtractor.framePoint (m : Numerics) (buffer : AudioBuffer) (channel : Nat)
    (sampleRate : ℚ) (windowSamples : Int) (start : Int) : ℚ × ℚ × ℚ :=
  let stop := min (start + windowSamples) (buffer.numSamples : Int)
  let sums := AmplitudeExtractor.frameSums (buffer.frameSamples channel start stop)
  ((start : ℚ) / sampleRate,
    m.sqrt (binary32 (sums.1 / binary32 ((stop - start : Int) : ℚ))), sums.2)

/-- The vectors `times`, `rmsValues`, `peakValues` of `AmplitudeExtractor::extract` when the
frame loop over channel `channel` ends: one entry for each frame start, in order. -/
def AmplitudeExtractor.loopResult (m : Numerics) (settings : Settings) (buffer : AudioBuffer)
    (sampleRate : ℚ) (channel : Nat) : AmplitudeFrames :=
  { times := (frameStarts buffer.numSamples
        (AmplitudeExtractor.hopSamples settings sampleRate)).map
      (fun st => (AmplitudeExtractor.framePoint m buffer channel sampleRate
        (AmplitudeExtractor.windowSamples settings sampleRate) st).1),
    rmsValues := (frameStarts buffer.numSamples
        (AmplitudeExtractor.hopSamples settings sampleRate)).map
      (fun st => (AmplitudeExtractor.framePoint m buffer channel sampleRate
        (AmplitudeExtractor.windowSamples settings sampleRate) st).2.1),
    peakValues := (frameStarts buffer.numSamples
        (AmplitudeExtractor.hopSamples settings sampleRate)).map
      (fun st => (AmplitudeExtractor.framePoint m buffer channel sampleRate
        (AmplitudeExtractor.windowSamples settings sampleRate) st).2.2) }

/-- The running sums of one frame of `PanningExtractor::extract`. -/
structure PanningSums where
  leftSum : ℚ
  rightSum : ℚ
  leftSq : ℚ
  rightSq : ℚ
  correlation : ℚ

/-- The body of the frame loop of `PanningExtractor::extract` at `start`; the state holds
`results[0]`, `results[1]`, `results[2]`. -/
def PanningExtractor.frame (m : Numerics) (left right : Int → Option ℚ) (sampleRate : ℚ)
    (windowSamples numSamples : Int) (start : Int) (acc : Series × Series × Series) :
    Option (Series × Series × Series) :=
  let stop := min (start + windowSamples) numSamples
  let length := stop - start
  if length = 0 then some acc
  else
    let time := (start : ℚ) / sampleRate
    match foldRange start stop (fun (st : PanningSums) i =>
        match left i, right i with
        | some l, some r =>
          some { leftSum := st.leftSum + |l|, rightSum := st.rightSum + |r|,
                 leftSq := st.leftSq + l * l, rightSq := st.rightSq + r * r,
                 correlation := st.correlation + l * r }
        | _, _ => none) ⟨0, 0, 0, 0, 0⟩ with
    | some sums =>
      let totalSum := sums.leftSum + sums.rightSum
      let pan := if totalSum > 0 then (sums.rightSum - sums.leftSum) / totalSum else 0
      let leftRMS := m.sqrt (sums.leftSq / (length : ℚ))
      let rightRMS := m.sqrt (sums.rightSq / (length : ℚ))
      let denom := leftRMS * rightRMS
      let corr := if denom > 0 then sums.correlation / ((length : ℚ) * denom) else 0
      let width := 1 - (corr * (1 / 2) + 1 / 2)
      let totalRMS := leftRMS + rightRMS
      let balance := if totalRMS > 0 then (rightRMS - leftRMS) / totalRMS else 0
      some (acc.1 ++ [(time, pan)], acc.2.1 ++ [(time, width)], acc.2.2 ++ [(time, balance)])
    | none => none

/-- Models `PanningExtractor::extract`. The parameter `channel` is not used by the source. -/
def PanningExtractor.extract (m : Numerics) (settings : Settings) (buffer : AudioBuffer)
    (sampleRate : ℚ) (_channel : Int) : Option FeatureResult :=
  if buffer.numChannels < 2 then some [[(0, 0)], [(0, 0)], [(0, 0)]]
  else
    match buffer.getReadPointer 0, buffer.getReadPointer 1 with
    | some left, some right =>
      let numSamples : Int := buffer.numSamples
      let windowSamples : Int :=
        truncToInt (binary64 (binary64 (settings.windowSizeMs * sampleRate) / 1000))
      let hopSamples : Int :=
        max 1 (truncToInt
          (binary32 (binary32 (binary32 (windowSamples : ℚ) * settings.hopSizePct) / 100)))
      match forLoop (PanningExtractor.frame m left right sampleRate windowSamples numSamples)
          numSamples hopSamples buffer.numSamples 0 ([], [], []) with
      | some results => some [results.1, results.2.1, results.2.2]
      | none => none
    | _, _ => none

/-- The sums that the sample loop of `PanningExtractor::extract` leaves after running over the
sample pairs of one frame. -/
def PanningExtractor.frameSums (samples : List (ℚ × ℚ)) : PanningSums :=
  samples.foldl (fun (st : PanningSums) lr =>
    { leftSum := st.leftSum + |lr.1|, rightSum := st.rightSum + |lr.2|,
      leftSq := st.leftSq + lr.1 * lr.1, rightSq := st.rightSq + lr.2 * lr.2,
      correlation := st.correlation + lr.1 * lr.2 }) ⟨0, 0, 0, 0, 0⟩

/-- The local `windowSamples` of `PanningExtractor::extract`. -/
def PanningExtractor.windowSamples (settings : Settings) (sampleRate : ℚ) : Int :=
  truncToInt (binary64 (binary64 (settings.windowSizeMs * sampleRate) / 1000))

/-- The local `hopSamples` of `PanningExtractor::extract`. -/
def PanningExtractor.hopSamples (settings : Settings) (sampleRate : ℚ) : Int :=
  max 1 (truncToInt
    (binary32 (binary32 (binary32
      (truncToInt (binary64 (binary64 (settings.windowSizeMs * sampleRate) / 1000)) : ℚ)
        * settings.hopSizePct) / 100)))

/-- The member `fftSize` of `SpectralExtractor`, set to `1 << 11` by the constructor. -/
def SpectralExtractor.fftSize : Nat := 2048

/-- Models `SpectralExtractor::calculateCentroid`. -/
def SpectralExtractor.calculateCentroid (magnitudes : List ℚ) (sampleRate : ℚ) : ℚ :=
  let sums := magnitudes.enum.foldl (fun (st : ℚ × ℚ) (e : Nat × ℚ) =>
    let freq := (e.1 : ℚ) * sampleRate / ((SpectralExtractor.fftSize : ℚ) * 2)
    (st.1 + freq * e.2, st.2 + e.2)) (0, 0)
  if sums.2 > 0 then sums.1 / sums.2 else 0

/-- Models `SpectralExtractor::calculateFlux`; `previous[i]` is read for every index of `current`. -/
def SpectralExtractor.calculateFlux (m : Numerics) (current previous : List ℚ) : Option ℚ :=
  match (List.range current.length).foldlM (fun (sum : ℚ) i =>
      match current[i]?, previous[i]? with
      | some c, some p => some (sum + (c - p) * (c - p))
      | _, _ => none) 0 with
  | some sum => some (m.sqrt (sum / (current.length : ℚ)))
  | none => none

/-- The `float` sums `geometricMean` and `arithmeticMean` and the `count` that the loop of
`SpectralExtractor::calculateFlatness` ends with; each `+=` rounds once. -/
def SpectralExtractor.flatnessSums (m : Numerics) (magnitudes : List ℚ) : ℚ × ℚ × Int :=
  magnitudes.foldl (fun (st : ℚ × ℚ × Int) mag =>
    if mag > 0 then (binary32 (st.1 + m.log mag), binary32 (st.2.1 + mag), st.2.2 + 1)
    else st) (0, 0, 0)

/-- Models `SpectralExtractor::calculateFlatness`, in `float` arithmetic. -/
def SpectralExtractor.calculateFlatness (m : Numerics) (magnitudes : List ℚ) : ℚ :=
  let acc := SpectralExtractor.flatnessSums m magnitudes
  if acc.2.2 = 0 then 0
  else
    let geometricMean := m.exp (binary32 (acc.1 / binary32 (acc.2.2 : ℚ)))
    let arithmeticMean := binary32 (acc.2.1 / binary32 (acc.2.2 : ℚ))
    if arithmeticMean > 0 then binary32 (geometricMean / arithmeticMean) else 0

/-- The second loop of `SpectralExtractor::calculateRolloff`, from bin `i` on with the energy
accumulated so far in the `float` `cumulativeEnergy`; it returns from inside at the first bin
that reaches the threshold, and falls through to `sampleRate / 2.0f`. -/
def SpectralExtractor.rolloffFrom (sampleRate threshold : ℚ) : Nat → ℚ → List ℚ → ℚ
  | _, _, [] => sampleRate / 2
  | i, cumulativeEnergy, mag :: rest =>
    if binary32 (cumulativeEnergy + mag) ≥ threshold then
      (i : ℚ) * sampleRate / ((SpectralExtractor.fftSize : ℚ) * 2)
    else SpectralExtractor.rolloffFrom sampleRate threshold (i + 1)
      (binary32 (cumulativeEnergy + mag)) rest

/-- Models `SpectralExtractor::calculateRolloff`: `totalEnergy` is the `float` sum of the
magnitudes and `threshold` the `float` product `totalEnergy * 0.85f`, where `0.85f` is the
`float` nearest to `85 / 100`. -/
def SpectralExtractor.calculateRolloff (magnitudes : List ℚ) (sampleRate : ℚ) : ℚ :=
  let totalEnergy := magnitudes.foldl (fun t mag => binary32 (t + mag)) 0
  let threshold := binary32 (totalEnergy * binary32 (85 / 100))
  SpectralExtractor.rolloffFrom sampleRate threshold 0 0 magnitudes

/-- The local `threshold` of `SpectralExtractor::calculateRolloff`: the `float` product of the
`float` sum of the magnitudes and `0.85f`. -/
def SpectralExtractor.rolloffThreshold (magnitudes : List ℚ) : ℚ :=
  binary32 (magnitudes.foldl (fun t mag => binary32 (t + mag)) 0 * binary32 (85 / 100))

/-- The bin at which the second loop of `SpectralExtractor::calculateRolloff` executes its
`return`, from bin `i` on with the energy accumulated so far; `none` when the loop runs to its
end, after which the function returns `sampleRate / 2.0f`. -/
def SpectralExtractor.rolloffBinFrom (threshold : ℚ) : Nat → ℚ → List ℚ → Option Nat
  | _, _, [] => none
  | i, cumulativeEnergy, mag :: rest =>
    if binary32 (cumulativeEnergy + mag) ≥ threshold then some i
    else SpectralExtractor.rolloffBinFrom threshold (i + 1)
      (binary32 (cumulativeEnergy + mag)) rest

/-- The bin at which `SpectralExtractor::calculateRolloff` returns from inside its loop, `none`
when it reaches the final `return sampleRate / 2.0f`. -/
def SpectralExtractor.rolloffBin (magnitudes : List ℚ) : Option Nat :=
  let totalEnergy := magnitudes.foldl (fun t mag => binary32 (t + mag)) 0
  let threshold := binary32 (totalEnergy * binary32 (85 / 100))
  SpectralExtractor.rolloffBinFrom threshold 0 0 magnitudes

/-- The state of the frame loop of `SpectralExtractor::extract`: the member `fftData`, the local
`previousMagnitudes`, and `results[0..3]`. -/
structure SpectralState where
  fftData : Nat → ℚ
  previousMagnitudes : List ℚ
  centroid : Series
  flux : Series
  flatness : Series
  rolloff : Series

/-- The body of the frame loop of `SpectralExtractor::extract` at `start`. -/
def SpectralExtractor.frame (m : Numerics) (data : Int → Option ℚ) (sampleRate : ℚ)
    (start : Int) (st : SpectralState) : Option SpectralState :=
  let time := (start : ℚ) / sampleRate
  match foldRange 0 (SpectralExtractor.fftSize : Int) (fun (fd : Nat → ℚ) i =>
      match data (start + i) with
      | some x =>
        let window := (1 / 2 : ℚ) *
          (1 - m.cos (2 * m.pi * (i : ℚ) / (SpectralExtractor.fftSize : ℚ)))
        some (Function.update fd i.toNat (x * window))
      | none => none) st.fftData with
  | none => none
  | some filled =>
    let fd := m.frequencyOnlyForwardTransform filled
    let magnitudes := (List.range (SpectralExtractor.fftSize / 2)).map (fun i =>
      m.sqrt (fd (i * 2) * fd (i * 2) + fd (i * 2 + 1) * fd (i * 2 + 1)))
    let centroid := SpectralExtractor.calculateCentroid magnitudes sampleRate
    match (if st.previousMagnitudes.isEmpty then some 0
        else SpectralExtractor.calculateFlux m magnitudes st.previousMagnitudes) with
    | none => none
    | some flux =>
      let flatness := SpectralExtractor.calculateFlatness m magnitudes
      let rolloff := SpectralExtractor.calculateRolloff magnitudes sampleRate
      some { fftData := fd, previousMagnitudes := magnitudes,
             centroid := st.centroid ++ [(time, centroid)],
             flux := st.flux ++ [(time, flux)],
             flatness := st.flatness ++ [(time, flatness)],
             rolloff := st.rolloff ++ [(time, rolloff)] }

/-- Models `SpectralExtractor::extract`, from the content `fftData` of the member of that name; the
guard `start <= numSamples - fftSize` is `start < numSamples - fftSize + 1`. The result pairs
the returned series with the content the member is left with. -/
def SpectralExtractor.extract (m : Numerics) (fftData : Nat → ℚ) (buffer : AudioBuffer)
    (sampleRate : ℚ) (channel : Int) : Option (FeatureResult × (Nat → ℚ)) :=
  match buffer.getReadPointer channel with
  | none => none
  | some data =>
    let numSamples : Int := buffer.numSamples
    let hopSamples : Int := (SpectralExtractor.fftSize : Int) / 2
    match forLoop (SpectralExtractor.frame m data sampleRate)
        (numSamples - (SpectralExtractor.fftSize : Int) + 1) hopSamples buffer.numSamples 0
        ⟨fftData, [], [], [], [], []⟩ with
    | none => none
    | some st => some ([st.centroid, st.flux, st.flatness, st.rolloff], st.fftData)

/-- The inner loop of `PitchExtractor::detectPitch` for one `lag`:
`for (int i = 0; i < numSamples - lag; ++i) sum += data[i] * data[i + lag];`. -/
def PitchExtractor.correlationAt (data : Int → Option ℚ) (numSamples lag : Int) : Option ℚ :=
  foldRange 0 (numSamples - lag) (fun (sum : ℚ) i =>
    match data i, data (i + lag) with
    | some a, some b => some (sum + a * b)
    | _, _ => none) 0

/-- Models `PitchExtractor::detectPitch`. A negative size of the vector `correlation` throws, and an
empty one makes `*maxIt` a dereference of `end()`: both are `none`. The quotient
`*maxIt / correlation[0]` has no guard in the source and goes through `ieeeDiv`. -/
def PitchExtractor.detectPitch (data : Int → Option ℚ) (numSamples : Int) (sampleRate : ℚ) :
    Option (ℚ × ℚ) :=
  let minLag : Int := truncToInt (sampleRate / 1000)
  let maxLag : Int := truncToInt (sampleRate / 50)
  if maxLag - minLag < 0 then none
  else
    match (List.range (maxLag - minLag).toNat).mapM (fun (j : Nat) =>
        PitchExtractor.correlationAt data numSamples (minLag + (j : Int))) with
    | none => none
    | some correlation =>
      match argMaxElement correlation, correlation[0]? with
      | some (maxIdx, maxVal), some first =>
        let peakLag : Int := (maxIdx : Int) + minLag
        let freq := sampleRate / (peakLag : ℚ)
        let confidence := ieeeDiv maxVal first
        some (freq, clampUnit confidence)
      | _, _ => none

/-- The body of the frame loop of `PitchExtractor::extract` at `start`; `data + start` is the
read shifted by `start`. -/
def PitchExtractor.frame (data : Int → Option ℚ) (sampleRate : ℚ) (windowSamples : Int)
    (start : Int) (acc : Series × Series) : Option (Series × Series) :=
  let time := (start : ℚ) / sampleRate
  match PitchExtractor.detectPitch (fun i => data (start + i)) windowSamples sampleRate with
  | some (freq, confidence) => some (acc.1 ++ [(time, freq)], acc.2 ++ [(time, confidence)])
  | none => none

/-- Models `PitchExtractor::extract`; `windowSamples / 2` is the truncating division of `int`. -/
def PitchExtractor.extract (buffer : AudioBuffer) (sampleRate : ℚ) (channel : Int) :
    Option FeatureResult :=
  match buffer.getReadPointer channel with
  | none => none
  | some data =>
    let numSamples : Int := buffer.numSamples
    let windowSamples : Int := truncToInt ((5 / 100 : ℚ) * sampleRate)
    let hopSamples : Int := Int.tdiv windowSamples 2
    match forLoop (PitchExtractor.frame data sampleRate windowSamples)
        (numSamples - windowSamples) hopSamples buffer.numSamples 0 ([], []) with
    | some results => some [results.1, results.2]
    | none => none

/-- The body of the frame loop of `TransientExtractor::extract` at `start`; the state is
`results[0]` and `previousEnergy`. -/
def TransientExtractor.frame (m : Numerics) (data : Int → Option ℚ) (sampleRate : ℚ)
    (windowSamples : Int) (start : Int) (acc : Series × ℚ) : Option (Series × ℚ) :=
  let time := (start : ℚ) / sampleRate
  match foldRange 0 windowSamples (fun (energy : ℚ) i =>
      match data (start + i) with
      | some sample => some (energy + sample * sample)
      | none => none) 0 with
  | none => none
  | some sumSquares =>
    let energy := m.sqrt (sumSquares / (windowSamples : ℚ))
    let onsetStrength := if (0 : ℚ) < energy - acc.2 then energy - acc.2 else 0
    some (acc.1 ++ [(time, onsetStrength)], energy)

/-- Models `TransientExtractor::extract`. -/
def TransientExtractor.extract (m : Numerics) (buffer : AudioBuffer) (sampleRate : ℚ)
    (channel : Int) : Option FeatureResult :=
  match buffer.getReadPointer channel with
  | none => none
  | some data =>
    let numSamples : Int := buffer.numSamples
    let windowSamples : Int := 1024
    let hopSamples : Int := 512
    match forLoop (TransientExtractor.frame m data sampleRate windowSamples)
        (numSamples - windowSamples) hopSamples buffer.numSamples 0 ([], 0) with
    | some results => some [results.1]
    | none => none

/-- The virtual call `extractor->extract (buffer, sampleRate, channel)`; `fftData` is the member
of the `SpectralExtractor` object, which the other classes do not have. -/
def FeatureExtractor.extract (m : Numerics) (e : FeatureExtractor) (fftData : Nat → ℚ)
    (buffer : AudioBuffer) (sampleRate : ℚ) (channel : Int) :
    Option (FeatureResult × (Nat → ℚ)) :=
  match e.kind with
  | .amplitude =>
    (AmplitudeExtractor.extract m e.settings buffer sampleRate channel).map (fun r => (r, fftData))
  | .panning =>
    (PanningExtractor.extract m e.settings buffer sampleRate channel).map (fun r => (r, fftData))
  | .spectral => SpectralExtractor.extract m fftData buffer sampleRate channel
  | .pitch => (PitchExtractor.extract buffer sampleRate channel).map (fun r => (r, fftData))
  | .transient =>
    (TransientExtractor.extract m buffer sampleRate channel).map (fun r => (r, fftData))

/-! ## Processor: loading and extraction -/

/-- The values of the five parameters read by `extractFeature` through
`params.getRawParameterValue (...)->load()`. -/
structure Parameters where
  windowSize : ℚ
  hopSize : ℚ
  normalize : ℚ
  smooth : ℚ
  smoothTime : ℚ

/-- The data members of `AudioDeconstructorProcessor` that extraction and editing use;
`spectralFftData` is the member `fftData` of the `SpectralExtractor` held in `extractors`. -/
structure Processor where
  loadedAudio : AudioBuffer
  loadedSampleRate : ℚ
  loadedFileName : String
  params : Parameters
  extractors : String → Option FeatureExtractor
  spectralFftData : Nat → ℚ
  featureBreakpoints : Store

/-- Models `AudioDeconstructorProcessor::hasLoadedAudio`. -/
def Processor.hasLoadedAudio (p : Processor) : Bool := decide (0 < p.loadedAudio.numSamples)

/-- The function `juce::jlimit (lowerLimit, upperLimit, valueToConstrain)`. -/
def jlimit (lowerLimit upperLimit valueToConstrain : Int) : Int :=
  if valueToConstrain < lowerLimit then lowerLimit
  else if upperLimit < valueToConstrain then upperLimit else valueToConstrain

/-- Models `AudioDeconstructorProcessor::extractFeature`; `none` when the call of `extract` faults. -/
def Processor.extractFeature (m : Numerics) (p : Processor) (featureName : String)
    (channel : Int) : Option Processor :=
  match p.extractors featureName with
  | none => some p
  | some extractor =>
    if !p.hasLoadedAudio then some p
    else
      let updated : FeatureExtractor :=
        { kind := extractor.kind,
          settings :=
            { windowSizeMs := p.params.windowSize,
              hopSizePct := p.params.hopSize,
              normalizeOutput := decide (p.params.normalize > 1 / 2),
              minValue := extractor.settings.minValue,
              maxValue := extractor.settings.maxValue,
              smoothOutput := decide (p.params.smooth > 1 / 2),
              smoothTimeMs := p.params.smoothTime } }
      let channelToUse :=
        jlimit 0 ((p.loadedAudio.numChannels : Int) - 1) (if channel < 0 then 0 else channel)
      match updated.extract m p.spectralFftData p.loadedAudio p.loadedSampleRate
          channelToUse with
      | none => none
      | some (results, fftData) =>
        some { p with
          extractors := Function.update p.extractors featureName (some updated),
          spectralFftData := fftData,
          featureBreakpoints := Function.update p.featureBreakpoints featureName (some results) }

/-- What `loadAudioFile` uses of the `juce::AudioFormatReader` that
`formatManager.createReaderFor (file)` returns: the members `sampleRate`, `numChannels`,
`lengthInSamples` (both within the range of `int`), and the samples that `read` copies into
the buffer. -/
structure AudioFormatReader where
  sampleRate : ℚ
  numChannels : Nat
  lengthInSamples : Nat
  sample : Nat → Nat → ℚ

/-- Models `AudioDeconstructorProcessor::loadAudioFile`: `reader` is the outcome of
`createReaderFor (file)`, `none` for `nullptr`, and `fileName` is
`file.getFileNameWithoutExtension()`. The result pairs the processor with the returned flag. -/
def Processor.loadAudioFile (p : Processor) (reader : Option AudioFormatReader)
    (fileName : String) : Processor × Bool :=
  match reader with
  | some r =>
    ({ p with
        loadedSampleRate := r.sampleRate,
        loadedAudio :=
          { numChannels := r.numChannels, numSamples := r.lengthInSamples, sample := r.sample },
        loadedFileName := fileName,
        featureBreakpoints := fun _ => none }, true)
  | none => (p, false)

/-- Models `AudioDeconstructorProcessor::clearLoadedAudio`: `loadedAudio.setSize (0, 0)`, the file
name emptied, `featureBreakpoints.clear()`. -/
def Processor.clearLoadedAudio (p : Processor) : Processor :=
  { p with
      loadedAudio := { numChannels := 0, numSamples := 0, sample := p.loadedAudio.sample },
      loadedFileName := "",
      featureBreakpoints := fun _ => none }

/-- A stand-in for the library routines in the examples, whose outcomes do not depend on it. -/
def sampleNumerics : Numerics :=
  { sqrt := fun x => x, log := fun x => x, exp := fun x => x, cos := fun _ => 1, pi := 3,
    frequencyOnlyForwardTransform := fun a => a }

/-- A silent mono buffer of `n` samples. -/
def silentBuffer (n : Nat) : AudioBuffer :=
  { numChannels := 1, numSamples := n, sample := fun _ _ => 0 }

/-- A buffer of `channels` channels and `n` samples, every sample being `x`. -/
def constantBuffer (channels n : Nat) (x : ℚ) : AudioBuffer :=
  { numChannels := channels, numSamples := n, sample := fun _ _ => x }

/-- The pair (feature, output index) passes the guard
`it != featureBreakpoints.end() && outputIndex < it->second.size()`. -/
def ValidOutput (fb : Store) (f : String) (k : Int) : Prop :=
  ∃ outs, fb f = some outs ∧ toSizeT k < outs.length

/-- Every breakpoint held by the store has a time that is at least zero. -/
def AllTimesNonneg (fb : Store) : Prop :=
  ∀ (f : String) (outs : FeatureResult), fb f = some outs →
    ∀ s ∈ outs, ∀ b ∈ s, (0 : ℚ) ≤ b.1

/-- A series is ordered by time: `series[i].time ≤ series[i+1].time` at every index `i`. -/
def SortedByTime (s : Series) : Prop :=
  ∀ (i : Nat) (a b : Breakpoint), s[i]? = some a → s[i + 1]? = some b → a.1 ≤ b.1

/-- A concrete store used in the examples: `Transients` holds one series of two points,
`Amplitude` two series of one point each. -/
def sampleStore : Store := fun name =>
  if name = "Transients" then some [[(0, 1), (1, 2)]]
  else if name = "Amplitude" then some [[(0, 3)], [(0, 4)]]
  else none

/-- A processor used in the examples: four samples of one channel loaded at 1000 Hz, the five
extractors registered, and `sampleStore` as the breakpoints extracted so far. -/
def sampleProcessor : Processor :=
  { loadedAudio := constantBuffer 1 4 1,
    loadedSampleRate := 1000,
    loadedFileName := "take",
    params := { windowSize := 15, hopSize := 50, normalize := 1, smooth := 0, smoothTime := 10 },
    extractors := initializeExtractors,
    spectralFftData := fun _ => 0,
    featureBreakpoints := sampleStore }

/-! # Theorems -/

theorem roundHalfEven_sub_le (x : ℚ) : |((roundHalfEven x : Int) : ℚ) - x| ≤ 1 / 2 := by
  have h0 : 0 ≤ Int.fract x := Int.fract_nonneg x
  have h1 : Int.fract x < 1 := Int.fract_lt_one x
  have hx : x = (⌊x⌋ : ℚ) + Int.fract x := (Int.floor_add_fract x).symm
  unfold roundHalfEven
  rw [abs_le]
  split
  · constructor <;> linarith
  · split
    · push_cast
      constructor <;> linarith
    · split
      · constructor <;> linarith
      · push_cast
        constructor <;> linarith

theorem roundHalfEven_eq_of_near (x : ℚ) (n : Int) (h : |x - (n : ℚ)| < 1 / 2) :
    roundHalfEven x = n := by
  have h1 := roundHalfEven_sub_le x
  rw [abs_le] at h1
  rw [abs_lt] at h
  have h2 : ((roundHalfEven x : Int) : ℚ) - (n : ℚ) < 1 := by linarith
  have h3 : (-1 : ℚ) < ((roundHalfEven x : Int) : ℚ) - (n : ℚ) := by linarith
  have h4 : roundHalfEven x - n < 1 := by exact_mod_cast h2
  have h5 : -1 < roundHalfEven x - n := by exact_mod_cast h3
  omega

theorem roundHalfEven_intCast (n : Int) : roundHalfEven (n : ℚ) = n :=
  roundHalfEven_eq_of_near _ n (by simp)

theorem roundHalfEven_mono {x y : ℚ} (h : x ≤ y) : roundHalfEven x ≤ roundHalfEven y := by
  by_contra hcon
  rw [not_le] at hcon
  have hx := roundHalfEven_sub_le x
  have hy := roundHalfEven_sub_le y
  rw [abs_le] at hx hy
  have h1 : roundHalfEven y + 1 ≤ roundHalfEven x := hcon
  have h2 : ((roundHalfEven y : Int) : ℚ) + 1 ≤ ((roundHalfEven x : Int) : ℚ) := by
    exact_mod_cast h1
  have hxy : x = y := by linarith
  rw [hxy] at hcon
  exact lt_irrefl _ hcon

theorem two_zpow_pos (e : Int) : (0 : ℚ) < 2 ^ e := zpow_pos (by norm_num) e

theorem two_zpow_le {a b : Int} (h : a ≤ b) : (2 : ℚ) ^ a ≤ 2 ^ b :=
  zpow_le_zpow_right₀ (by norm_num) h

theorem two_zpow_sub (a b : Int) : (2 : ℚ) ^ (a - b) = 2 ^ a / 2 ^ b :=
  zpow_sub₀ (by norm_num) a b

theorem two_zpow_add (a b : Int) : (2 : ℚ) ^ (a + b) = 2 ^ a * 2 ^ b :=
  zpow_add₀ (by norm_num) a b

theorem binaryExponent_ge (emin : Int) (x : ℚ) : emin ≤ binaryExponent emin x := by
  unfold binaryExponent
  split
  · exact le_refl _
  · exact le_max_right _ _

theorem abs_lt_zpow_binaryExponent (emin : Int) (x : ℚ) :
    |x| < 2 ^ (binaryExponent emin x + 1) := by
  unfold binaryExponent
  split
  · rename_i h
    rw [h, abs_zero]
    exact two_zpow_pos _
  · have h := Int.lt_zpow_succ_log_self (by norm_num : 1 < 2) |x|
    simp only [Nat.cast_ofNat] at h
    refine lt_of_lt_of_le h (two_zpow_le ?_)
    have := le_max_left (Int.log 2 |x|) emin
    omega

theorem binaryExponent_eq (emin e : Int) (x : ℚ) (he : emin ≤ e)
    (h1 : (2 : ℚ) ^ e ≤ |x| ∨ e = emin) (h2 : |x| < (2 : ℚ) ^ (e + 1)) :
    binaryExponent emin x = e := by
  unfold binaryExponent
  by_cases hx : x = 0
  · rw [if_pos hx]
    rcases h1 with h1 | h1
    · rw [hx, abs_zero] at h1
      exact absurd h1 (not_le.mpr (two_zpow_pos e))
    · exact h1.symm
  · rw [if_neg hx]
    have hpos : 0 < |x| := abs_pos.mpr hx
    have hlt : Int.log 2 |x| < e + 1 := by
      rw [← Int.lt_zpow_iff_log_lt (by norm_num) hpos]
      simpa using h2
    rcases h1 with h1 | h1
    · have hle : e ≤ Int.log 2 |x| := by
        rw [← Int.zpow_le_iff_le_log (by norm_num) hpos]
        simpa using h1
      have : Int.log 2 |x| = e := by omega
      rw [this]
      exact max_eq_left he
    · rw [h1] at hlt ⊢
      apply max_eq_right
      omega

theorem zpow_binaryExponent_le (emin : Int) (x : ℚ)
    (h : (2 : ℚ) ^ emin ≤ |x| ∨ emin < binaryExponent emin x) :
    (2 : ℚ) ^ binaryExponent emin x ≤ |x| := by
  have hx : x ≠ 0 := by
    intro hx
    rcases h with h | h
    · rw [hx, abs_zero] at h
      exact absurd h (not_le.mpr (two_zpow_pos emin))
    · unfold binaryExponent at h
      rw [if_pos hx] at h
      exact lt_irrefl _ h
  have hpos : 0 < |x| := abs_pos.mpr hx
  have hlog : emin ≤ Int.log 2 |x| := by
    rcases h with h | h
    · rw [← Int.zpow_le_iff_le_log (by norm_num) hpos]
      simpa using h
    · unfold binaryExponent at h
      rw [if_neg hx] at h
      by_contra hcon
      rw [max_eq_right (by omega)] at h
      exact lt_irrefl _ h
  unfold binaryExponent
  rw [if_neg hx, max_eq_left hlog]
  have := Int.zpow_log_le_self (by norm_num : 1 < 2) hpos
  simpa using this

theorem binaryExponent_mono (emin : Int) {x y : ℚ} (hx : 0 ≤ x) (h : x ≤ y) :
    binaryExponent emin x ≤ binaryExponent emin y := by
  by_cases hx0 : x = 0
  · have : binaryExponent emin x = emin := by
      unfold binaryExponent
      rw [if_pos hx0]
    rw [this]
    exact binaryExponent_ge emin y
  · have hxpos : 0 < x := lt_of_le_of_ne hx (Ne.symm hx0)
    have hy0 : y ≠ 0 := ne_of_gt (lt_of_lt_of_le hxpos h)
    unfold binaryExponent
    rw [if_neg hx0, if_neg hy0, abs_of_pos hxpos, abs_of_pos (lt_of_lt_of_le hxpos h)]
    exact max_le_max (Int.log_mono_right hxpos h) (le_refl _)

theorem roundBinary_zero (p : Nat) (emin : Int) : roundBinary p emin 0 = 0 := by
  unfold roundBinary
  rw [zero_div]
  have := roundHalfEven_intCast 0
  simp only [Int.cast_zero] at this
  rw [this]
  simp

theorem roundBinary_nonneg (p : Nat) (emin : Int) {x : ℚ} (hx : 0 ≤ x) :
    0 ≤ roundBinary p emin x := by
  unfold roundBinary
  apply mul_nonneg _ (le_of_lt (two_zpow_pos _))
  have h := roundHalfEven_mono (div_nonneg hx (le_of_lt (two_zpow_pos
    (binaryExponent emin x - ((p : Int) - 1)))))
  have h0 := roundHalfEven_intCast 0
  simp only [Int.cast_zero] at h0
  rw [h0] at h
  exact_mod_cast h

/-- A value `n * 2 ^ k` whose significand `n` fits in `p` bits, on a binade the format has, is
a value of the format: rounding leaves it as it is. -/
theorem roundBinary_grid (p : Nat) (emin : Int) (n k : Int) (hn : |n| < 2 ^ p)
    (hk : emin - ((p : Int) - 1) ≤ k) :
    roundBinary p emin ((n : ℚ) * 2 ^ k) = (n : ℚ) * 2 ^ k := by
  by_cases hn0 : n = 0
  · rw [hn0]
    simp [roundBinary_zero]
  have hx0 : (n : ℚ) * 2 ^ k ≠ 0 :=
    mul_ne_zero (by exact_mod_cast hn0) (ne_of_gt (two_zpow_pos k))
  have hpos : 0 < |(n : ℚ) * 2 ^ k| := abs_pos.mpr hx0
  have habs : |(n : ℚ) * 2 ^ k| < 2 ^ ((p : Int) + k) := by
    rw [abs_mul, abs_of_pos (two_zpow_pos k), two_zpow_add]
    apply mul_lt_mul_of_pos_right _ (two_zpow_pos k)
    have : ((|n| : Int) : ℚ) < ((2 ^ p : Int) : ℚ) := by exact_mod_cast hn
    rw [zpow_natCast]
    simpa using this
  have hlog : Int.log 2 |(n : ℚ) * 2 ^ k| < (p : Int) + k := by
    rw [← Int.lt_zpow_iff_log_lt (by norm_num) hpos]
    simpa using habs
  have he : binaryExponent emin ((n : ℚ) * 2 ^ k) - ((p : Int) - 1) ≤ k := by
    unfold binaryExponent
    rw [if_neg hx0]
    have : max (Int.log 2 |(n : ℚ) * 2 ^ k|) emin ≤ (p : Int) + k - 1 :=
      max_le (by omega) (by omega)
    omega
  unfold roundBinary
  generalize binaryExponent emin ((n : ℚ) * 2 ^ k) - ((p : Int) - 1) = g at he
  obtain ⟨d, hd⟩ : ∃ d : Nat, k = g + (d : Int) := ⟨(k - g).toNat, by omega⟩
  have hdiv : (n : ℚ) * 2 ^ k / 2 ^ g = ((n * 2 ^ d : Int) : ℚ) := by
    rw [hd, two_zpow_add, zpow_natCast]
    push_cast
    field_simp
    ring
  rw [hdiv, roundHalfEven_intCast, ← hdiv]
  field_simp

theorem roundBinary_grid_le (p : Nat) (emin : Int) (hp : 1 ≤ p) (n k : Int)
    (hn : |n| ≤ 2 ^ p) (hk : emin - ((p : Int) - 1) ≤ k) :
    roundBinary p emin ((n : ℚ) * 2 ^ k) = (n : ℚ) * 2 ^ k := by
  rcases lt_or_eq_of_le hn with h | h
  · exact roundBinary_grid p emin n k h hk
  · obtain ⟨r, hr⟩ : ∃ r : Nat, p = r + 1 := ⟨p - 1, by omega⟩
    have hpow : (2 : Int) ^ p = 2 * 2 ^ r := by rw [hr, pow_succ]; ring
    have hcases : n = 2 * 2 ^ r ∨ n = -(2 * 2 ^ r) := by
      rw [hpow] at h
      rcases abs_eq (by positivity : (0 : Int) ≤ 2 * 2 ^ r) |>.mp h with h1 | h1
      · exact Or.inl h1
      · exact Or.inr h1
    have hsmall : |(2 : Int) ^ r| < 2 ^ p := by
      rw [abs_of_pos (by positivity), hr]
      exact pow_lt_pow_right₀ (by norm_num) (by omega)
    have hsmall2 : |-(2 : Int) ^ r| < 2 ^ p := by
      rw [abs_neg]
      exact hsmall
    rcases hcases with h1 | h1
    · have e : (n : ℚ) * 2 ^ k = (((2 : Int) ^ r : Int) : ℚ) * 2 ^ (k + 1) := by
        rw [h1, two_zpow_add, zpow_one]
        push_cast
        ring
      rw [e]
      exact roundBinary_grid p emin _ (k + 1) hsmall (by omega)
    · have e : (n : ℚ) * 2 ^ k = ((-(2 : Int) ^ r : Int) : ℚ) * 2 ^ (k + 1) := by
        rw [h1, two_zpow_add, zpow_one]
        push_cast
        ring
      rw [e]
      exact roundBinary_grid p emin _ (k + 1) hsmall2 (by omega)

/-- Rounding is monotone on values that are at least 0. -/
theorem roundBinary_mono (p : Nat) (emin : Int) (hp : 1 ≤ p) {x y : ℚ} (hx : 0 ≤ x)
    (h : x ≤ y) : roundBinary p emin x ≤ roundBinary p emin y := by
  have hy : 0 ≤ y := le_trans hx h
  have hexp := binaryExponent_mono emin hx h
  rcases eq_or_lt_of_le hexp with heq | hlt
  · unfold roundBinary
    rw [heq]
    have hq := two_zpow_pos (binaryExponent emin y - ((p : Int) - 1))
    apply mul_le_mul_of_nonneg_right _ (le_of_lt hq)
    have := roundHalfEven_mono (div_le_div_of_nonneg_right h (le_of_lt hq))
    exact_mod_cast this
  · have hqx := two_zpow_pos (binaryExponent emin x - ((p : Int) - 1))
    have hqy := two_zpow_pos (binaryExponent emin y - ((p : Int) - 1))
    have h1 : roundBinary p emin x ≤ 2 ^ (binaryExponent emin x + 1) := by
      have hlt' := abs_lt_zpow_binaryExponent emin x
      rw [abs_of_nonneg hx] at hlt'
      have hdiv : x / 2 ^ (binaryExponent emin x - ((p : Int) - 1))
          ≤ (((2 : Int) ^ p : Int) : ℚ) := by
        rw [div_le_iff₀ hqx]
        push_cast
        rw [← zpow_natCast, ← two_zpow_add]
        have : (p : Int) + (binaryExponent emin x - ((p : Int) - 1))
            = binaryExponent emin x + 1 := by ring
        rw [this]
        exact le_of_lt hlt'
      have := roundHalfEven_mono hdiv
      rw [roundHalfEven_intCast] at this
      unfold roundBinary
      have h3 : ((roundHalfEven (x / 2 ^ (binaryExponent emin x - ((p : Int) - 1))) : Int) : ℚ)
          ≤ (((2 : Int) ^ p : Int) : ℚ) := by exact_mod_cast this
      have h4 := mul_le_mul_of_nonneg_right h3 (le_of_lt hqx)
      refine le_trans h4 (le_of_eq ?_)
      push_cast
      rw [← zpow_natCast, ← two_zpow_add]
      congr 1
      ring
    have h2 : (2 : ℚ) ^ binaryExponent emin y ≤ roundBinary p emin y := by
      have hle := zpow_binaryExponent_le emin y (Or.inr (by
        have := binaryExponent_ge emin x
        omega))
      rw [abs_of_nonneg hy] at hle
      obtain ⟨r, hr⟩ : ∃ r : Nat, p = r + 1 := ⟨p - 1, by omega⟩
      have hdiv : (((2 : Int) ^ r : Int) : ℚ)
          ≤ y / 2 ^ (binaryExponent emin y - ((p : Int) - 1)) := by
        rw [le_div_iff₀ hqy]
        push_cast
        rw [← zpow_natCast, ← two_zpow_add]
        have : (r : Int) + (binaryExponent emin y - ((p : Int) - 1))
            = binaryExponent emin y := by
          rw [hr]
          push_cast
          ring
        rw [this]
        exact hle
      have := roundHalfEven_mono hdiv
      rw [roundHalfEven_intCast] at this
      unfold roundBinary
      have h3 : (((2 : Int) ^ r : Int) : ℚ)
          ≤ ((roundHalfEven (y / 2 ^ (binaryExponent emin y - ((p : Int) - 1))) : Int) : ℚ) := by
        exact_mod_cast this
      have h4 := mul_le_mul_of_nonneg_right h3 (le_of_lt hqy)
      refine le_trans (le_of_eq ?_) h4
      push_cast
      rw [← zpow_natCast, ← two_zpow_add]
      congr 1
      rw [hr]
      push_cast
      ring
    exact le_trans h1 (le_trans (two_zpow_le (by omega)) h2)

/-- The rounding of `x` is `n * 2 ^ (e - (p - 1))` when `x` lies in the binade of exponent `e`
(or below the normal range, with `e = emin`) and `n` is the integer within one half of
`x / 2 ^ (e - (p - 1))`. -/
theorem roundBinary_eval (p : Nat) (emin e n : Int) (x : ℚ) (he : emin ≤ e)
    (h1 : (2 : ℚ) ^ e ≤ |x| ∨ e = emin) (h2 : |x| < (2 : ℚ) ^ (e + 1))
    (h3 : |x / 2 ^ (e - ((p : Int) - 1)) - (n : ℚ)| < 1 / 2) :
    roundBinary p emin x = (n : ℚ) * 2 ^ (e - ((p : Int) - 1)) := by
  unfold roundBinary
  rw [binaryExponent_eq emin e x he h1 h2, roundHalfEven_eq_of_near _ n h3]

theorem binary32_zero : binary32 0 = 0 := roundBinary_zero 24 (-126)

theorem binary32_grid (n k : Int) (hn : |n| ≤ 2 ^ 24) (hk : -149 ≤ k) :
    binary32 ((n : ℚ) * 2 ^ k) = (n : ℚ) * 2 ^ k :=
  roundBinary_grid_le 24 (-126) (by norm_num) n k hn (by norm_num; omega)

theorem binary32_intCast (n : Int) (hn : |n| ≤ 2 ^ 24) : binary32 (n : ℚ) = n := by
  have := binary32_grid n 0 hn (by norm_num)
  simpa using this

theorem binary32_eval (e n : Int) (x : ℚ) (he : -126 ≤ e)
    (h1 : (2 : ℚ) ^ e ≤ |x| ∨ e = -126) (h2 : |x| < (2 : ℚ) ^ (e + 1))
    (h3 : |x / 2 ^ (e - 23) - (n : ℚ)| < 1 / 2) :
    binary32 x = (n : ℚ) * 2 ^ (e - 23) :=
  roundBinary_eval 24 (-126) e n x he h1 h2 h3

theorem binary64_nonneg {x : ℚ} (hx : 0 ≤ x) : 0 ≤ binary64 x :=
  roundBinary_nonneg 53 (-1022) hx

theorem binary64_grid (n k : Int) (hn : |n| ≤ 2 ^ 53) (hk : -1074 ≤ k) :
    binary64 ((n : ℚ) * 2 ^ k) = (n : ℚ) * 2 ^ k :=
  roundBinary_grid_le 53 (-1022) (by norm_num) n k hn (by norm_num; omega)

theorem binary64_intCast (n : Int) (hn : |n| ≤ 2 ^ 53) : binary64 (n : ℚ) = n := by
  have := binary64_grid n 0 hn (by norm_num)
  simpa using this

theorem binary64_eval (e n : Int) (x : ℚ) (he : -1022 ≤ e)
    (h1 : (2 : ℚ) ^ e ≤ |x| ∨ e = -1022) (h2 : |x| < (2 : ℚ) ^ (e + 1))
    (h3 : |x / 2 ^ (e - 52) - (n : ℚ)| < 1 / 2) :
    binary64 x = (n : ℚ) * 2 ^ (e - 52) :=
  roundBinary_eval 53 (-1022) e n x he h1 h2 h3

theorem binary64_mono {x y : ℚ} (hx : 0 ≤ x) (h : x ≤ y) : binary64 x ≤ binary64 y :=
  roundBinary_mono 53 (-1022) (by norm_num) hx h

theorem binary64_zero : binary64 0 = 0 := roundBinary_zero 53 (-1022)

theorem truncToInt_eq_zero {x : ℚ} (h0 : 0 ≤ x) (h1 : x < 1) : truncToInt x = 0 := by
  unfold truncToInt
  rw [if_pos h0, Int.floor_eq_iff]
  exact ⟨by simpa using h0, by simpa using h1⟩

theorem stdSort_sorted (s : Series) : (stdSort s).Sorted (fun a b => a.1 ≤ b.1) := by
  have h : (fun a b : Breakpoint => ¬ timeLess b a) = (fun a b => a.1 ≤ b.1) := by
    funext a b
    simp [timeLess]
  unfold stdSort
  have : IsTotal Breakpoint (fun a b => ¬ timeLess b a) := by
    rw [h]; exact ⟨fun a b => le_total a.1 b.1⟩
  have : IsTrans Breakpoint (fun a b => ¬ timeLess b a) := by
    rw [h]; exact ⟨fun a b c hab hbc => le_trans hab hbc⟩
  have hs := List.sorted_insertionSort (fun a b : Breakpoint => ¬ timeLess b a) s
  simpa [timeLess] using hs

theorem stdSort_perm (s : Series) : (stdSort s).Perm s :=
  List.perm_insertionSort _ s

theorem sortedByTime_iff (s : Series) :
    SortedByTime s ↔ s.Sorted (fun a b => a.1 ≤ b.1) := by
  have htr : IsTrans Breakpoint (fun a b => a.1 ≤ b.1) :=
    ⟨fun a b c hab hbc => le_trans hab hbc⟩
  unfold List.Sorted
  rw [← List.chain'_iff_pairwise]
  unfold SortedByTime
  induction s with
  | nil => simp
  | cons x xs ih =>
    cases xs with
    | nil =>
      simp only [List.chain'_singleton, iff_true]
      intro i a b h1 h2
      simp at h2
    | cons y ys =>
      rw [List.chain'_cons]
      constructor
      · intro h
        refine ⟨h 0 x y (by simp) (by simp), ih.mp (fun i a b h1 h2 => h (i + 1) a b ?_ ?_)⟩
        · simpa using h1
        · simpa using h2
      · rintro ⟨hxy, hc⟩ i a b h1 h2
        have h := ih.mpr hc
        cases i with
        | zero =>
          simp at h1 h2
          subst h1; subst h2; exact hxy
        | succ j =>
          apply h j a b
          · simpa using h1
          · simpa using h2

theorem sortBreakpoints_of_valid {fb : Store} {f : String} {k : Int} (outs : FeatureResult)
    (h1 : fb f = some outs) (h2 : toSizeT k < outs.length) :
    sortBreakpoints fb f k =
      Function.update fb f (some (outs.set (toSizeT k) (stdSort (outs.get ⟨toSizeT k, h2⟩)))) := by
  unfold sortBreakpoints
  rw [h1]
  simp [h2]

theorem addBreakpoint_of_valid {fb : Store} {f : String} {k : Int} {outs : FeatureResult}
    (h1 : fb f = some outs) (h2 : toSizeT k < outs.length) (t v : ℚ) :
    addBreakpoint fb f k t v =
      Function.update fb f
        (some (outs.set (toSizeT k) (stdSort (outs.get ⟨toSizeT k, h2⟩ ++ [(t, v)])))) := by
  unfold addBreakpoint
  rw [h1]
  simp only [h2, dite_true]
  rw [sortBreakpoints_of_valid (outs.set (toSizeT k) (outs[toSizeT k] ++ [(t, v)]))
    (by simp) (by simpa using h2)]
  simp

theorem updateBreakpoint_of_valid {fb : Store} {f : String} {k : Int} {outs : FeatureResult}
    (h1 : fb f = some outs) (h2 : toSizeT k < outs.length) (p : Nat)
    (h3 : p < (outs.get ⟨toSizeT k, h2⟩).length) (t v : ℚ) :
    updateBreakpoint fb f k p t v =
      Function.update fb f
        (some (outs.set (toSizeT k)
          (stdSort ((outs.get ⟨toSizeT k, h2⟩).set p (jmax 0 t, v))))) := by
  unfold updateBreakpoint
  rw [h1]
  simp only [List.get_eq_getElem] at h3
  simp only [h2, h3, dite_true, if_true]
  rw [sortBreakpoints_of_valid
    (outs.set (toSizeT k) (outs[toSizeT k].set p (jmax 0 t, v)))
    (by simp) (by simpa using h2)]
  simp

theorem removeBreakpoint_of_valid {fb : Store} {f : String} {k : Int} {outs : FeatureResult}
    (h1 : fb f = some outs) (h2 : toSizeT k < outs.length) (p : Nat)
    (h3 : p < (outs.get ⟨toSizeT k, h2⟩).length) :
    removeBreakpoint fb f k p =
      Function.update fb f
        (some (outs.set (toSizeT k) ((outs.get ⟨toSizeT k, h2⟩).eraseIdx p))) := by
  unfold removeBreakpoint
  rw [h1]
  simp only [List.get_eq_getElem] at h3
  simp only [h2, h3, dite_true, if_true, List.get_eq_getElem]

theorem getBreakpointsForDisplay_update (fb : Store) (f : String) (k : Int)
    (outs : FeatureResult) (s : Series) (h2 : toSizeT k < outs.length) :
    getBreakpointsForDisplay (Function.update fb f (some (outs.set (toSizeT k) s))) f k = s := by
  unfold getBreakpointsForDisplay
  simp [h2]

theorem getBreakpointsForDisplay_of_valid {fb : Store} {f : String} {k : Int}
    {outs : FeatureResult} (h1 : fb f = some outs) (h2 : toSizeT k < outs.length) :
    getBreakpointsForDisplay fb f k = outs.get ⟨toSizeT k, h2⟩ := by
  unfold getBreakpointsForDisplay
  rw [h1]
  simp [h2]

theorem getBreakpointsForDisplay_of_invalid {fb : Store} {f : String} {k : Int}
    (h : ∀ outs, fb f = some outs → ¬ toSizeT k < outs.length) :
    getBreakpointsForDisplay fb f k = [] := by
  unfold getBreakpointsForDisplay
  cases hfb : fb f with
  | none => rfl
  | some outs => simp [h outs hfb]

theorem display_of_not_valid {fb : Store} {f : String} {k : Int} (h : ¬ ValidOutput fb f k) :
    getBreakpointsForDisplay fb f k = [] :=
  getBreakpointsForDisplay_of_invalid (fun outs h1 h2 => h ⟨outs, h1, h2⟩)

theorem addBreakpoint_of_not_valid {fb : Store} {f : String} {k : Int}
    (h : ¬ ValidOutput fb f k) (t v : ℚ) : addBreakpoint fb f k t v = fb := by
  unfold addBreakpoint
  cases hfb : fb f with
  | none => rfl
  | some outs =>
    have : ¬ toSizeT k < outs.length := fun h2 => h ⟨outs, hfb, h2⟩
    simp [this]

theorem updateBreakpoint_of_not_valid {fb : Store} {f : String} {k : Int}
    (h : ¬ ValidOutput fb f k) (p : Nat) (t v : ℚ) : updateBreakpoint fb f k p t v = fb := by
  unfold updateBreakpoint
  cases hfb : fb f with
  | none => rfl
  | some outs =>
    have : ¬ toSizeT k < outs.length := fun h2 => h ⟨outs, hfb, h2⟩
    simp [this]

theorem removeBreakpoint_of_not_valid {fb : Store} {f : String} {k : Int}
    (h : ¬ ValidOutput fb f k) (p : Nat) : removeBreakpoint fb f k p = fb := by
  unfold removeBreakpoint
  cases hfb : fb f with
  | none => rfl
  | some outs =>
    have : ¬ toSizeT k < outs.length := fun h2 => h ⟨outs, hfb, h2⟩
    simp [this]

theorem updateBreakpoint_of_point_out_of_range (fb : Store) (f : String) (k : Int) (p : Nat)
    (t v : ℚ) (hp : (getBreakpointsForDisplay fb f k).length ≤ p) :
    updateBreakpoint fb f k p t v = fb := by
  by_cases hv : ValidOutput fb f k
  · obtain ⟨outs, h1, h2⟩ := hv
    rw [getBreakpointsForDisplay_of_valid h1 h2] at hp
    unfold updateBreakpoint
    rw [h1]
    simp only [List.get_eq_getElem] at hp
    simp [h2, Nat.not_lt.mpr hp]
  · exact updateBreakpoint_of_not_valid hv p t v

theorem removeBreakpoint_of_point_out_of_range (fb : Store) (f : String) (k : Int) (p : Nat)
    (hp : (getBreakpointsForDisplay fb f k).length ≤ p) :
    removeBreakpoint fb f k p = fb := by
  by_cases hv : ValidOutput fb f k
  · obtain ⟨outs, h1, h2⟩ := hv
    rw [getBreakpointsForDisplay_of_valid h1 h2] at hp
    unfold removeBreakpoint
    rw [h1]
    simp only [List.get_eq_getElem] at hp
    simp [h2, Nat.not_lt.mpr hp]
  · exact removeBreakpoint_of_not_valid hv p

theorem display_addBreakpoint {fb : Store} {f : String} {k : Int} (hv : ValidOutput fb f k)
    (t v : ℚ) :
    getBreakpointsForDisplay (addBreakpoint fb f k t v) f k =
      stdSort (getBreakpointsForDisplay fb f k ++ [(t, v)]) := by
  obtain ⟨outs, h1, h2⟩ := hv
  rw [addBreakpoint_of_valid h1 h2, getBreakpointsForDisplay_update _ _ _ _ _ h2,
    getBreakpointsForDisplay_of_valid h1 h2]

theorem display_updateBreakpoint (fb : Store) (f : String) (k : Int) (p : Nat) (t v : ℚ)
    (hp : p < (getBreakpointsForDisplay fb f k).length) :
    getBreakpointsForDisplay (updateBreakpoint fb f k p t v) f k =
      stdSort ((getBreakpointsForDisplay fb f k).set p (jmax 0 t, v)) := by
  by_cases hv : ValidOutput fb f k
  · obtain ⟨outs, h1, h2⟩ := hv
    rw [getBreakpointsForDisplay_of_valid h1 h2] at hp ⊢
    rw [updateBreakpoint_of_valid h1 h2 p hp, getBreakpointsForDisplay_update _ _ _ _ _ h2]
  · rw [display_of_not_valid hv] at hp
    simp at hp

theorem display_removeBreakpoint (fb : Store) (f : String) (k : Int) (p : Nat) :
    getBreakpointsForDisplay (removeBreakpoint fb f k p) f k =
      (getBreakpointsForDisplay fb f k).eraseIdx p := by
  by_cases hp : p < (getBreakpointsForDisplay fb f k).length
  · by_cases hv : ValidOutput fb f k
    · obtain ⟨outs, h1, h2⟩ := hv
      rw [getBreakpointsForDisplay_of_valid h1 h2] at hp ⊢
      rw [removeBreakpoint_of_valid h1 h2 p hp, getBreakpointsForDisplay_update _ _ _ _ _ h2]
    · rw [display_of_not_valid hv] at hp
      simp at hp
  · rw [removeBreakpoint_of_point_out_of_range fb f k p (Nat.not_lt.mp hp),
      List.eraseIdx_of_length_le (Nat.not_lt.mp hp)]

theorem jmax_zero_eq_max (t : ℚ) : jmax 0 t = max 0 t := by
  unfold jmax
  split
  · rename_i h; exact (max_eq_right (le_of_lt h)).symm
  · rename_i h; exact (max_eq_left (not_lt.mp h)).symm

theorem toSizeT_of_nonneg {k : Int} (h0 : 0 ≤ k) (h1 : k < 2 ^ 31) : toSizeT k = k.toNat := by
  unfold toSizeT
  rw [Int.emod_eq_of_lt h0 (by omega)]

theorem toSizeT_of_neg {k : Int} (h0 : k < 0) (h1 : -(2 ^ 31) ≤ k) :
    2 ^ 63 ≤ toSizeT k := by
  unfold toSizeT
  have h : k % (2 : Int) ^ 64 = k + 2 ^ 64 := by
    rw [← @Int.add_mul_emod_self k 1 (2 ^ 64)]
    rw [one_mul]
    exact Int.emod_eq_of_lt (by omega) (by omega)
  rw [h]
  omega

theorem sampleStore_valid : ValidOutput sampleStore "Transients" 0 :=
  ⟨[[(0, 1), (1, 2)]], by simp [sampleStore], by simp [toSizeT]⟩

theorem sampleStore_display :
    getBreakpointsForDisplay sampleStore "Transients" 0 = [(0, 1), (1, 2)] := by
  simp [getBreakpointsForDisplay, sampleStore, toSizeT]

/-- C1: after `addBreakpoint`, and after `updateBreakpoint` with an in-bounds point index, the
affected series is ordered by time (neighbouring entries have non-decreasing times), whatever its
order was before; `removeBreakpoint` on a series ordered by time leaves it ordered. -/
theorem C1_edits_keep_series_sorted (fb : Store) (f : String) (k : Int) (p : Nat) (t v : ℚ) :
    SortedByTime (getBreakpointsForDisplay (addBreakpoint fb f k t v) f k) ∧
    (p < (getBreakpointsForDisplay fb f k).length →
      SortedByTime (getBreakpointsForDisplay (updateBreakpoint fb f k p t v) f k)) ∧
    (SortedByTime (getBreakpointsForDisplay fb f k) →
      SortedByTime (getBreakpointsForDisplay (removeBreakpoint fb f k p) f k)) := by
  refine ⟨?_, ?_, ?_⟩
  · by_cases hv : ValidOutput fb f k
    · rw [display_addBreakpoint hv, sortedByTime_iff]
      exact stdSort_sorted _
    · rw [addBreakpoint_of_not_valid hv, display_of_not_valid hv, sortedByTime_iff]
      exact List.sorted_nil
  · intro hp
    rw [display_updateBreakpoint fb f k p t v hp, sortedByTime_iff]
    exact stdSort_sorted _
  · intro hs
    rw [display_removeBreakpoint, sortedByTime_iff]
    rw [sortedByTime_iff] at hs
    exact hs.sublist (List.eraseIdx_sublist _ _)

/-- Witness for C1 on `sampleStore`: the series of `Transients` has two points, so point index 1
is in bounds, and it is ordered by time. -/
theorem C1_edits_keep_series_sorted_witness :
    SortedByTime (getBreakpointsForDisplay (addBreakpoint sampleStore "Transients" 0 (1/2) 7)
      "Transients" 0) ∧
    SortedByTime (getBreakpointsForDisplay (updateBreakpoint sampleStore "Transients" 0 1 (-3) 7)
      "Transients" 0) ∧
    SortedByTime (getBreakpointsForDisplay (removeBreakpoint sampleStore "Transients" 0 1)
      "Transients" 0) :=
  have h := C1_edits_keep_series_sorted sampleStore "Transients" 0 1 (1/2) 7
  have h2 := C1_edits_keep_series_sorted sampleStore "Transients" 0 1 (-3) 7
  ⟨h.1, h2.2.1 (by rw [sampleStore_display]; decide),
    h.2.2 (by
      rw [sampleStore_display, sortedByTime_iff]
      simp)⟩

theorem sampleStore_allTimesNonneg : AllTimesNonneg sampleStore := by
  intro f outs h s hs b hb
  unfold sampleStore at h
  split at h
  · simp only [Option.some.injEq] at h
    subst h
    simp only [List.mem_singleton] at hs
    subst hs
    simp only [List.mem_cons, List.mem_singleton, List.not_mem_nil, or_false] at hb
    rcases hb with rfl | rfl <;> norm_num
  · split at h
    · simp only [Option.some.injEq] at h
      subst h
      simp only [List.mem_cons, List.mem_singleton, List.not_mem_nil, or_false] at hs
      rcases hs with rfl | rfl
      · simp only [List.mem_singleton] at hb
        subst hb; norm_num
      · simp only [List.mem_singleton] at hb
        subst hb; norm_num
    · simp at h

theorem allTimesNonneg_display {fb : Store} (h : AllTimesNonneg fb) (f : String) (k : Int) :
    ∀ b ∈ getBreakpointsForDisplay fb f k, (0 : ℚ) ≤ b.1 := by
  intro b hb
  by_cases hv : ValidOutput fb f k
  · obtain ⟨outs, h1, h2⟩ := hv
    rw [getBreakpointsForDisplay_of_valid h1 h2] at hb
    exact h f outs h1 _ (List.get_mem outs _ _) b hb
  · rw [display_of_not_valid hv] at hb
    simp at hb

/-- C3 (the code at the failing input): `sampleStore` has only times that are at least zero, and
`addBreakpoint ("Transients", 0, -1.0, 5.0)` stores the point with time `-1` unclamped at the
head of the series, so the store no longer has that property. -/
theorem C3_addBreakpoint_stores_negative_time :
    AllTimesNonneg sampleStore ∧
    getBreakpointsForDisplay (addBreakpoint sampleStore "Transients" 0 (-1) 5) "Transients" 0
      = [(-1, 5), (0, 1), (1, 2)] ∧
    ¬ AllTimesNonneg (addBreakpoint sampleStore "Transients" 0 (-1) 5) := by
  have hd : getBreakpointsForDisplay (addBreakpoint sampleStore "Transients" 0 (-1) 5)
      "Transients" 0 = [(-1, 5), (0, 1), (1, 2)] := by
    rw [display_addBreakpoint sampleStore_valid, sampleStore_display]
    norm_num [stdSort, timeLess]
  refine ⟨sampleStore_allTimesNonneg, hd, ?_⟩
  intro hall
  have hmem := allTimesNonneg_display hall "Transients" 0 (-1, 5) (by rw [hd]; simp)
  norm_num at hmem

/-- C4: `addBreakpoint`, `updateBreakpoint` and `removeBreakpoint` return the store unchanged
when the feature name has no stored result or the `int` output index is negative or not below
the number of stored outputs; `updateBreakpoint` and `removeBreakpoint` also return it unchanged
when the point index is not below the length of the series. (A `std::vector` holds fewer than
`2^63` elements, and an `int` lies in `[-2^31, 2^31)`.) -/
theorem C4_invalid_edits_are_noops (fb : Store) (f : String) (k : Int) (p : Nat) (t v : ℚ)
    (hlo : -(2 ^ 31) ≤ k) (hhi : k < 2 ^ 31)
    (hsize : ∀ outs, fb f = some outs → outs.length < 2 ^ 63) :
    ((fb f = none ∨ ∃ outs, fb f = some outs ∧ (k < 0 ∨ (outs.length : Int) ≤ k)) →
      addBreakpoint fb f k t v = fb ∧ updateBreakpoint fb f k p t v = fb ∧
        removeBreakpoint fb f k p = fb) ∧
    ((getBreakpointsForDisplay fb f k).length ≤ p →
      updateBreakpoint fb f k p t v = fb ∧ removeBreakpoint fb f k p = fb) := by
  constructor
  · intro hbad
    have hv : ¬ ValidOutput fb f k := by
      rintro ⟨outs, h1, h2⟩
      rcases hbad with hnone | ⟨outs2, h3, hk⟩
      · rw [hnone] at h1; cases h1
      · obtain rfl : outs2 = outs := Option.some.inj (h3.symm.trans h1)
        rcases hk with hneg | hge
        · have := toSizeT_of_neg hneg hlo
          have := hsize outs2 h3
          omega
        · have h0 : 0 ≤ k := le_trans (Int.ofNat_nonneg _) hge
          rw [toSizeT_of_nonneg h0 hhi] at h2
          omega
    exact ⟨addBreakpoint_of_not_valid hv t v, updateBreakpoint_of_not_valid hv p t v,
      removeBreakpoint_of_not_valid hv p⟩
  · intro hp
    exact ⟨updateBreakpoint_of_point_out_of_range fb f k p t v hp,
      removeBreakpoint_of_point_out_of_range fb f k p hp⟩

/-- Witness for C4 on `sampleStore`: output index `-1` of `Transients` (one stored output) is
out of range, and point index 2 is past the end of its two-point series at output 0. -/
theorem C4_invalid_edits_are_noops_witness :
    (addBreakpoint sampleStore "Transients" (-1) 3 4 = sampleStore ∧
      updateBreakpoint sampleStore "Transients" (-1) 2 3 4 = sampleStore ∧
      removeBreakpoint sampleStore "Transients" (-1) 2 = sampleStore) ∧
    (updateBreakpoint sampleStore "Transients" 0 2 3 4 = sampleStore ∧
      removeBreakpoint sampleStore "Transients" 0 2 = sampleStore) :=
  have hsz : ∀ outs, sampleStore "Transients" = some outs → outs.length < 2 ^ 63 := by
    intro outs h
    simp only [sampleStore, if_true, Option.some.injEq] at h
    subst h
    simp
  ⟨(C4_invalid_edits_are_noops sampleStore "Transients" (-1) 2 3 4 (by decide) (by decide)
      hsz).1 (Or.inr ⟨[[(0, 1), (1, 2)]], by simp [sampleStore], Or.inl (by decide)⟩),
   (C4_invalid_edits_are_noops sampleStore "Transients" 0 2 3 4 (by decide) (by decide)
      hsz).2 (by rw [sampleStore_display]; decide)⟩

/-- C5: for a feature and output index that pass the guard, `addBreakpoint` leaves a permutation
of the old series with `(time, value)` appended; `updateBreakpoint` with an in-bounds point index
leaves a permutation of the old series with that entry replaced by `(max 0 time, value)`;
`removeBreakpoint` with an in-bounds point index leaves the entries before the index followed by
the entries after it, in their old order. -/
theorem C5_edits_change_exactly_one_point (fb : Store) (f : String) (k : Int) (p : Nat)
    (t v : ℚ) (hv : ValidOutput fb f k) :
    (getBreakpointsForDisplay (addBreakpoint fb f k t v) f k).Perm
      (getBreakpointsForDisplay fb f k ++ [(t, v)]) ∧
    (p < (getBreakpointsForDisplay fb f k).length →
      (getBreakpointsForDisplay (updateBreakpoint fb f k p t v) f k).Perm
        ((getBreakpointsForDisplay fb f k).set p (max 0 t, v)) ∧
      getBreakpointsForDisplay (removeBreakpoint fb f k p) f k =
        (getBreakpointsForDisplay fb f k).take p ++
          (getBreakpointsForDisplay fb f k).drop (p + 1)) := by
  refine ⟨?_, fun hp => ⟨?_, ?_⟩⟩
  · rw [display_addBreakpoint hv]
    exact stdSort_perm _
  · rw [display_updateBreakpoint fb f k p t v hp, jmax_zero_eq_max]
    exact stdSort_perm _
  · rw [display_removeBreakpoint, List.eraseIdx_eq_take_drop_succ]

/-- Witness for C5 on `sampleStore`, feature `Transients`, output 0, point index 1. -/
theorem C5_edits_change_exactly_one_point_witness :
    (getBreakpointsForDisplay (addBreakpoint sampleStore "Transients" 0 (1/2) 7)
        "Transients" 0).Perm
      (getBreakpointsForDisplay sampleStore "Transients" 0 ++ [(1/2, 7)]) ∧
    (1 < (getBreakpointsForDisplay sampleStore "Transients" 0).length →
      (getBreakpointsForDisplay (updateBreakpoint sampleStore "Transients" 0 1 (1/2) 7)
          "Transients" 0).Perm
        ((getBreakpointsForDisplay sampleStore "Transients" 0).set 1 (max 0 (1/2), 7)) ∧
      getBreakpointsForDisplay (removeBreakpoint sampleStore "Transients" 0 1) "Transients" 0 =
        (getBreakpointsForDisplay sampleStore "Transients" 0).take 1 ++
          (getBreakpointsForDisplay sampleStore "Transients" 0).drop (1 + 1)) :=
  C5_edits_change_exactly_one_point sampleStore "Transients" 0 1 (1/2) 7 sampleStore_valid

theorem growOutputs_eq (fuel : Nat) (outputs : FeatureResult) (index : Nat)
    (h : index + 1 - outputs.length ≤ fuel) :
    growOutputs fuel outputs index =
      outputs ++ List.replicate (index + 1 - outputs.length) [] := by
  induction fuel generalizing outputs with
  | zero =>
    have h0 : index + 1 - outputs.length = 0 := Nat.le_zero.mp h
    simp [growOutputs, h0]
  | succ n ih =>
    unfold growOutputs
    split
    · rename_i hle
      rw [ih (outputs ++ [[]]) (by simp only [List.length_append, List.length_singleton]; omega)]
      have e : index + 1 - outputs.length = (index + 1 - (outputs ++ [[]]).length) + 1 := by
        simp only [List.length_append, List.length_singleton]; omega
      rw [e, List.replicate_succ, List.append_assoc]
      rfl
    · rename_i hgt
      have h0 : index + 1 - outputs.length = 0 := by omega
      simp [h0]

/-- The `while` loop of `loadBreakpoints` ends within its fuel: on exit the guard
`outputs.size() <= outputIndex` is false, and the length is the larger of the old length and
`outputIndex + 1`. -/
theorem growOutputs_length (outputs : FeatureResult) (index : Nat) :
    (growOutputs (index + 1) outputs index).length = max outputs.length (index + 1) := by
  rw [growOutputs_eq _ _ _ (Nat.sub_le _ _)]
  simp only [List.length_append, List.length_replicate]
  omega

theorem loadBreakpoints_of_created {fb : Store} {extractors : String → Option FeatureExtractor}
    {f : String} (outs : FeatureResult) (k : Int) (lines : List Line)
    (h : (match fb f with
      | some outputs => some outputs
      | none =>
        match extractors f with
        | some e => some (List.replicate e.kind.getNumOutputs [])
        | none => none) = some outs) :
    loadBreakpoints fb extractors f k (some lines) =
      Function.update fb f
        (some ((growOutputs (toSizeT k + 1) outs (toSizeT k)).set (toSizeT k)
          (stdSort (parseLines lines)))) := by
  have hlen : toSizeT k < (growOutputs (toSizeT k + 1) outs (toSizeT k)).length := by
    rw [growOutputs_length]; omega
  unfold loadBreakpoints
  simp only [h]
  rw [sortBreakpoints_of_valid
    ((growOutputs (toSizeT k + 1) outs (toSizeT k)).set (toSizeT k) (parseLines lines))
    (by simp) (by simpa using hlen)]
  simp

theorem parseLines_append (a b : List Line) :
    parseLines (a ++ b) = parseLines a ++ parseLines b := by
  induction a with
  | nil => rfl
  | cons x xs ih =>
    cases x <;> simp [parseLines, ih]

theorem parseLines_map_pointLine (s : Series) :
    parseLines (s.map pointLine) = s.map (fun p => (roundTo6 p.1, roundTo6 p.2)) := by
  induction s with
  | nil => rfl
  | cons x xs ih => simp [pointLine, parseLines, ih]

theorem parseLines_outputBlocks (extractors : String → Option FeatureExtractor) (f : String)
    (i : Nat) (outs : FeatureResult) :
    parseLines (outputBlocks extractors f i outs) =
      outs.flatten.map (fun p => (roundTo6 p.1, roundTo6 p.2)) := by
  induction outs generalizing i with
  | nil => rfl
  | cons s rest ih =>
    simp only [outputBlocks, outputBlock, parseLines_append, ih, parseLines_map_pointLine,
      List.flatten_cons, List.map_append]
    simp [parseLines]

theorem parseLines_saveBreakpoints {fb : Store} {f : String} {outs : FeatureResult}
    (h : fb f = some outs) (extractors : String → Option FeatureExtractor)
    (name rate stamp : String) :
    ∃ lines, saveBreakpoints fb extractors name rate stamp f = some lines ∧
      parseLines lines = outs.flatten.map (fun p => (roundTo6 p.1, roundTo6 p.2)) := by
  refine ⟨_, by unfold saveBreakpoints; rw [h], ?_⟩
  rw [parseLines_append, parseLines_outputBlocks]
  simp [parseLines]

theorem abs_roundTo6_sub_le (x : ℚ) : |roundTo6 x - x| ≤ 1 / 1000000 := by
  unfold roundTo6
  have h := abs_sub_round (x * 1000000)
  have e : (round (x * 1000000) : ℚ) / 1000000 - x
      = -((x * 1000000 - (round (x * 1000000) : ℚ)) / 1000000) := by ring
  rw [e, abs_neg, abs_div]
  have : |(1000000 : ℚ)| = 1000000 := abs_of_pos (by norm_num)
  rw [this, div_le_div_iff₀ (by norm_num) (by norm_num)]
  linarith

theorem display_loadBreakpoints {fb : Store} {extractors : String → Option FeatureExtractor}
    {f : String} (outs : FeatureResult) (k : Int) (lines : List Line)
    (h : (match fb f with
      | some outputs => some outputs
      | none =>
        match extractors f with
        | some e => some (List.replicate e.kind.getNumOutputs [])
        | none => none) = some outs) :
    getBreakpointsForDisplay (loadBreakpoints fb extractors f k (some lines)) f k =
      stdSort (parseLines lines) := by
  rw [loadBreakpoints_of_created outs k lines h]
  exact getBreakpointsForDisplay_update _ _ _ _ _ (by rw [growOutputs_length]; omega)

/-- C2 (counterexample): `Amplitude` in `sampleStore` has two outputs of one point each. After
`saveBreakpoints` and `loadBreakpoints ("Amplitude", 0, file)` output 0 holds two points, the
points of both outputs, where it held one. -/
theorem C2_roundtrip_counterexample :
    (getBreakpointsForDisplay sampleStore "Amplitude" 0).length = 1 ∧
    (getBreakpointsForDisplay
      (loadBreakpoints sampleStore initializeExtractors "Amplitude" 0
        (saveBreakpoints sampleStore initializeExtractors "take" "44100" "today" "Amplitude"))
      "Amplitude" 0).length = 2 := by
  have hs : sampleStore "Amplitude" = some [[(0, 3)], [(0, 4)]] := by simp [sampleStore]
  constructor
  · simp [getBreakpointsForDisplay, hs, toSizeT]
  · obtain ⟨lines, h1, h2⟩ :=
      parseLines_saveBreakpoints hs initializeExtractors "take" "44100" "today"
    rw [h1, display_loadBreakpoints [[(0, 3)], [(0, 4)]] 0 lines (by rw [hs]), h2]
    unfold stdSort
    rw [List.length_insertionSort]
    rfl

/-- C2 (amended): for a stored feature and an output index `k` that passes the guard,
`saveBreakpoints` followed by `loadBreakpoints (feature, k, file)` leaves in output `k` a
permutation, ordered by time, of the points of all outputs of the feature, each rounded to six
decimals: their number is the total over all outputs, every one of them is within `10^-6` in
time and in value of a point that was saved, and for a feature with one output the number of
points of output `k` is unchanged. -/
theorem C2_roundtrip_collects_all_outputs (fb : Store)
    (extractors : String → Option FeatureExtractor) (name rate stamp f : String) (k : Int)
    (outs : FeatureResult) (h : fb f = some outs) (hk : toSizeT k < outs.length) :
    (getBreakpointsForDisplay
        (loadBreakpoints fb extractors f k (saveBreakpoints fb extractors name rate stamp f))
        f k).Perm (outs.flatten.map (fun p => (roundTo6 p.1, roundTo6 p.2))) ∧
    SortedByTime (getBreakpointsForDisplay
        (loadBreakpoints fb extractors f k (saveBreakpoints fb extractors name rate stamp f))
        f k) ∧
    (getBreakpointsForDisplay
        (loadBreakpoints fb extractors f k (saveBreakpoints fb extractors name rate stamp f))
        f k).length = (outs.map List.length).sum ∧
    (∀ q ∈ getBreakpointsForDisplay
        (loadBreakpoints fb extractors f k (saveBreakpoints fb extractors name rate stamp f))
        f k, ∃ s ∈ outs, ∃ p ∈ s, |q.1 - p.1| ≤ 1 / 1000000 ∧ |q.2 - p.2| ≤ 1 / 1000000) ∧
    (outs.length = 1 →
      (getBreakpointsForDisplay
        (loadBreakpoints fb extractors f k (saveBreakpoints fb extractors name rate stamp f))
        f k).length = (getBreakpointsForDisplay fb f k).length) := by
  obtain ⟨lines, h1, h2⟩ := parseLines_saveBreakpoints h extractors name rate stamp
  rw [h1, display_loadBreakpoints outs k lines (by rw [h]), h2]
  have hperm := stdSort_perm (outs.flatten.map (fun p => (roundTo6 p.1, roundTo6 p.2)))
  refine ⟨hperm, (sortedByTime_iff _).mpr (stdSort_sorted _), ?_, ?_, ?_⟩
  · rw [hperm.length_eq, List.length_map, List.length_flatten]
  · intro q hq
    rw [hperm.mem_iff, List.mem_map] at hq
    obtain ⟨p, hp, rfl⟩ := hq
    obtain ⟨s, hs, hps⟩ := List.mem_flatten.mp hp
    exact ⟨s, hs, p, hps, abs_roundTo6_sub_le _, abs_roundTo6_sub_le _⟩
  · intro hone
    rw [hperm.length_eq, List.length_map, getBreakpointsForDisplay_of_valid h hk]
    match outs, hone, hk with
    | [s], _, hk =>
      have : toSizeT k = 0 := by simpa using hk
      simp [this]

/-- Witness for C2 (amended) on `sampleStore`, feature `Amplitude`, output 1. -/
theorem C2_roundtrip_collects_all_outputs_witness :
    (getBreakpointsForDisplay
      (loadBreakpoints sampleStore initializeExtractors "Amplitude" 1
        (saveBreakpoints sampleStore initializeExtractors "take" "44100" "today" "Amplitude"))
      "Amplitude" 1).length = ([[((0 : ℚ), (3 : ℚ))], [(0, 4)]].map List.length).sum :=
  (C2_roundtrip_collects_all_outputs sampleStore initializeExtractors "take" "44100" "today"
    "Amplitude" 1 [[(0, 3)], [(0, 4)]] (by simp [sampleStore]) (by simp [toSizeT])).2.2.1

theorem loadBreakpoints_length (fb : Store) {extractors : String → Option FeatureExtractor}
    {f : String} {e : FeatureExtractor} (he : extractors f = some e) (k : Int)
    (lines : List Line) :
    ∃ outs, loadBreakpoints fb extractors f k (some lines) f = some outs ∧
      outs.length = max (outputCountBefore fb e f) (toSizeT k + 1) := by
  cases hfb : fb f with
  | some o =>
    rw [loadBreakpoints_of_created o k lines (by rw [hfb])]
    refine ⟨_, Function.update_same _ _ _, ?_⟩
    simp [growOutputs_length, outputCountBefore, hfb]
  | none =>
    rw [loadBreakpoints_of_created (List.replicate e.kind.getNumOutputs []) k lines
      (by rw [hfb, he])]
    refine ⟨_, Function.update_same _ _ _, ?_⟩
    simp [growOutputs_length, outputCountBefore, hfb]

/-- C6 (counterexample): with nothing stored, `loadBreakpoints ("Transients", 3, file)` on a file
holding the point `(1, 2)` leaves four series for `Transients`, whose extractor declares one
output: the out-of-range import changed the store. -/
theorem C6_out_of_range_import_grows_outputs :
    getNumOutputsForFeature initializeExtractors "Transients" = 1 ∧
    loadBreakpoints (fun _ => none) initializeExtractors "Transients" 3
      (some [Line.point 1 2]) "Transients" = some [[], [], [], [(1, 2)]] := by
  constructor
  · simp [getNumOutputsForFeature, initializeExtractors,
      FeatureExtractorFactory.createExtractor, ExtractorKind.getNumOutputs]
  · rw [loadBreakpoints_of_created [[]] 3 [Line.point 1 2]
      (by simp [initializeExtractors, FeatureExtractorFactory.createExtractor,
        ExtractorKind.getNumOutputs])]
    have h3 : toSizeT 3 = 3 := by simp [toSizeT]
    simp [h3, growOutputs, parseLines, stdSort]

/-- C6 (amended): for a feature name known to the registry, an output index that is not negative
and a file that opens, `loadBreakpoints` returns and leaves `max n (outputIndex + 1)` series for
the feature, where `n` is the number stored before, or the extractor's declared output count
when nothing was stored; the series at `outputIndex` holds the points of the file ordered by
time. So the count is the declared one when it was so before and `outputIndex` is below it, and
an index at or past the end extends the list up to that index. -/
theorem C6_import_output_count (fb : Store) (extractors : String → Option FeatureExtractor)
    (f : String) (e : FeatureExtractor) (k : Int) (lines : List Line)
    (he : extractors f = some e) (h0 : 0 ≤ k) (h1 : k < 2 ^ 31) :
    (∃ outs, loadBreakpoints fb extractors f k (some lines) f = some outs ∧
      outs.length = max (outputCountBefore fb e f) (k.toNat + 1)) ∧
    getBreakpointsForDisplay (loadBreakpoints fb extractors f k (some lines)) f k =
      stdSort (parseLines lines) ∧
    (outputCountBefore fb e f = e.kind.getNumOutputs → k < e.kind.getNumOutputs →
      ∃ outs, loadBreakpoints fb extractors f k (some lines) f = some outs ∧
        outs.length = e.kind.getNumOutputs) := by
  have hk := toSizeT_of_nonneg h0 h1
  obtain ⟨outs, ho, hl⟩ := loadBreakpoints_length fb he k lines
  rw [hk] at hl
  refine ⟨⟨outs, ho, hl⟩, ?_, ?_⟩
  · cases hfb : fb f with
    | some o => exact display_loadBreakpoints o k lines (by rw [hfb])
    | none =>
      exact display_loadBreakpoints (List.replicate e.kind.getNumOutputs []) k lines
        (by rw [hfb, he])
  · intro hb hlt
    refine ⟨outs, ho, ?_⟩
    rw [hl, hb]
    omega

/-- Witness for C6 (amended): importing into output 0 of `Transients` with nothing stored leaves
the one declared series. -/
theorem C6_import_output_count_witness :
    ∃ outs, loadBreakpoints (fun _ => none) initializeExtractors "Transients" 0
        (some [Line.point 1 2]) "Transients" = some outs ∧
      outs.length = (⟨ExtractorKind.transient, Settings.default⟩ : FeatureExtractor).kind.getNumOutputs :=
  (C6_import_output_count (fun _ => none) initializeExtractors "Transients"
    ⟨ExtractorKind.transient, Settings.default⟩ 0 [Line.point 1 2]
    (by simp [initializeExtractors, FeatureExtractorFactory.createExtractor])
    (by decide) (by decide)).2.2 (by simp [outputCountBefore]) (by decide)

/-- C8: `createExtractor name` returns an extractor exactly when `name` is one of the five names
of `getAvailableFeatures`; the extractor returned then has `getName() = name`; for any other
name the result is `nullptr`. -/
theorem C8_createExtractor_closed_set (name : String) :
    ((FeatureExtractorFactory.createExtractor name).isSome ↔
      name ∈ FeatureExtractorFactory.getAvailableFeatures) ∧
    (∀ e, FeatureExtractorFactory.createExtractor name = some e → e.kind.getName = name) ∧
    (name ∉ FeatureExtractorFactory.getAvailableFeatures →
      FeatureExtractorFactory.createExtractor name = none) ∧
    FeatureExtractorFactory.getAvailableFeatures =
      ["Amplitude", "Panning", "Spectral", "Pitch", "Transients"] := by
  unfold FeatureExtractorFactory.createExtractor FeatureExtractorFactory.getAvailableFeatures
  refine ⟨?_, ?_, ?_, rfl⟩
  · by_cases h1 : name = "Amplitude"
    · simp [h1]
    by_cases h2 : name = "Panning"
    · simp [h2]
    by_cases h3 : name = "Spectral"
    · simp [h3]
    by_cases h4 : name = "Pitch"
    · simp [h4]
    by_cases h5 : name = "Transients"
    · simp [h5]
    simp [h1, h2, h3, h4, h5]
  · intro e he
    by_cases h1 : name = "Amplitude"
    · subst h1; simp at he; subst he; rfl
    by_cases h2 : name = "Panning"
    · subst h2; simp at he; subst he; rfl
    by_cases h3 : name = "Spectral"
    · subst h3; simp at he; subst he; rfl
    by_cases h4 : name = "Pitch"
    · subst h4; simp at he; subst he; rfl
    by_cases h5 : name = "Transients"
    · subst h5; simp at he; subst he; rfl
    simp [h1, h2, h3, h4, h5] at he
  · intro hn
    simp only [List.mem_cons, List.mem_singleton, List.not_mem_nil, or_false, not_or] at hn
    simp [hn.1, hn.2.1, hn.2.2.1, hn.2.2.2.1, hn.2.2.2.2]

/-- Witness for C8: `createExtractor ("Pitch")` is an extractor named `Pitch`, and
`createExtractor ("Loudness")` is `nullptr`. -/
theorem C8_createExtractor_closed_set_witness :
    (⟨ExtractorKind.pitch, Settings.default⟩ : FeatureExtractor).kind.getName = "Pitch" ∧
    FeatureExtractorFactory.createExtractor "Loudness" = none :=
  ⟨(C8_createExtractor_closed_set "Pitch").2.1 _
      (by simp [FeatureExtractorFactory.createExtractor]),
    (C8_createExtractor_closed_set "Loudness").2.2.1
      (by simp [FeatureExtractorFactory.getAvailableFeatures])⟩

theorem foldlM_option_isSome {σ α : Type} (step : σ → α → Option σ) (l : List α)
    (h : ∀ x ∈ l, ∀ s, ∃ s', step s x = some s') (init : σ) :
    ∃ r, l.foldlM step init = some r := by
  induction l generalizing init with
  | nil => exact ⟨init, rfl⟩
  | cons x xs ih =>
    obtain ⟨s', hs'⟩ := h x (List.mem_cons_self _ _) init
    obtain ⟨r, hr⟩ := ih (fun y hy s => h y (List.mem_cons_of_mem _ hy) s) s'
    exact ⟨r, by simp [List.foldlM, hs', hr]⟩

theorem foldRange_isSome {σ : Type} (lo hi : Int) (step : σ → Int → Option σ)
    (h : ∀ i, lo ≤ i → i < hi → ∀ s, ∃ s', step s i = some s') (init : σ) :
    ∃ r, foldRange lo hi step init = some r := by
  unfold foldRange
  apply foldlM_option_isSome
  intro x hx s
  rw [List.mem_map] at hx
  obtain ⟨j, hj, rfl⟩ := hx
  rw [List.mem_range] at hj
  exact h _ (by omega) (by omega) s

theorem forLoop_invariant {σ : Type} (body : Int → σ → Option σ) (limit hop : Int)
    (Inv : Int → σ → Prop) (hhop : 1 ≤ hop)
    (hbody : ∀ start s, start < limit → Inv start s →
      ∃ s', body start s = some s' ∧ Inv (start + hop) s') :
    ∀ (fuel : Nat) (start : Int) (s : σ), (limit - start).toNat ≤ fuel → Inv start s →
      ∃ s' stop, forLoop body limit hop fuel start s = some s' ∧ limit ≤ stop ∧ Inv stop s' := by
  intro fuel
  induction fuel with
  | zero =>
    intro start s hf hi
    have : ¬ start < limit := by omega
    exact ⟨s, start, by simp [forLoop, this], by omega, hi⟩
  | succ n ih =>
    intro start s hf hi
    by_cases hlt : start < limit
    · obtain ⟨s', hs', hi'⟩ := hbody start s hlt hi
      obtain ⟨r, stop, hr, hstop, hinv⟩ := ih (start + hop) s' (by omega) hi'
      exact ⟨r, stop, by simp [forLoop, hlt, hs', hr], hstop, hinv⟩
    · exact ⟨s, start, by simp [forLoop, hlt], by omega, hi⟩

theorem forLoop_of_not_lt {σ : Type} (body : Int → σ → Option σ) (limit hop : Int)
    (fuel : Nat) (start : Int) (s : σ) (h : ¬ start < limit) :
    forLoop body limit hop fuel start s = some s := by
  cases fuel <;> simp [forLoop, h]

theorem getReadPointer_of_valid (buffer : AudioBuffer) (channel : Int)
    (h : 0 ≤ channel ∧ channel < buffer.numChannels) :
    ∃ data, buffer.getReadPointer channel = some data ∧
      ∀ i : Int, 0 ≤ i → i < buffer.numSamples → ∃ x, data i = some x := by
  refine ⟨_, by unfold AudioBuffer.getReadPointer; rw [if_pos h], ?_⟩
  intro i h0 h1
  exact ⟨_, if_pos ⟨h0, h1⟩⟩

theorem maxElement_isSome_of_ne_nil {l : List ℚ} (h : l ≠ []) : ∃ x, maxElement l = some x := by
  cases l with
  | nil => exact absurd rfl h
  | cons x xs => exact ⟨_, rfl⟩

theorem amplitude_frame_total (m : Numerics) (data : Int → Option ℚ) (sampleRate : ℚ)
    (windowSamples numSamples : Int) (hw : windowSamples ≠ 0)
    (hdata : ∀ i : Int, 0 ≤ i → i < numSamples → ∃ x, data i = some x)
    (start : Int) (acc : AmplitudeFrames) (h0 : 0 ≤ start) (h1 : start < numSamples) :
    ∃ acc', AmplitudeExtractor.frame m data sampleRate windowSamples numSamples start acc
        = some acc' ∧ acc'.rmsValues ≠ [] ∧ acc'.peakValues ≠ [] := by
  unfold AmplitudeExtractor.frame
  have hlen : ¬ (min (start + windowSamples) numSamples - start = 0) := by
    intro h
    rcases min_choice (start + windowSamples) numSamples with hm | hm <;> rw [hm] at h <;> omega
  simp only [hlen, if_false]
  obtain ⟨r, hr⟩ := foldRange_isSome start (min (start + windowSamples) numSamples)
    (fun (st : ℚ × ℚ) i =>
        match data i with
        | some sample =>
          let absSample := |sample|
          some (binary32 (st.1 + binary32 (sample * sample)),
            if absSample > st.2 then absSample else st.2)
        | none => none)
    (by
      intro i hi1 hi2 s
      obtain ⟨x, hx⟩ := hdata i (by omega) (lt_of_lt_of_le hi2 (min_le_right _ _))
      simp only [hx]
      exact ⟨_, rfl⟩) (0, 0)
  rw [hr]
  exact ⟨_, rfl, by simp, by simp⟩

theorem amplitude_extract_total (m : Numerics) (settings : Settings) (buffer : AudioBuffer)
    (sampleRate : ℚ) (channel : Int) (hch : 0 ≤ channel ∧ channel < buffer.numChannels)
    (hn : settings.normalizeOutput = false ∨ 0 < buffer.numSamples) :
    ∃ r, AmplitudeExtractor.extract m settings buffer sampleRate channel = some r ∧
      r.length = 2 := by
  obtain ⟨data, hd, hread⟩ := getReadPointer_of_valid buffer channel hch
  unfold AmplitudeExtractor.extract
  simp only [hd]
  generalize hw0 :
    truncToInt (binary64 (binary64 (settings.windowSizeMs * sampleRate) / 1000)) = w0
  generalize hwdef : (if w0 = 0 then (1 : Int) else w0) = w
  have hw : w ≠ 0 := by
    rw [← hwdef]; split <;> omega
  obtain ⟨frames, stop, hloop, hstop, hinv⟩ :=
    forLoop_invariant (AmplitudeExtractor.frame m data sampleRate w (buffer.numSamples : Int))
      (buffer.numSamples : Int)
      (max 1 (truncToInt (binary32 (binary32 (binary32 (w0 : ℚ) * settings.hopSizePct) / 100))))
      (fun start s => 0 ≤ start ∧ (0 < start → s.rmsValues ≠ [] ∧ s.peakValues ≠ []))
      (le_max_left _ _)
      (by
        intro start s hlt hi
        obtain ⟨acc', ha, hr, hp⟩ :=
          amplitude_frame_total m data sampleRate w _ hw hread start s hi.1 hlt
        have hhop := le_max_left (1 : Int)
          (truncToInt (binary32 (binary32 (binary32 (w0 : ℚ) * settings.hopSizePct) / 100)))
        exact ⟨acc', ha, by omega, fun _ => ⟨hr, hp⟩⟩)
      buffer.numSamples 0 ⟨[], [], []⟩ (by simp) ⟨le_refl _, fun h => absurd h (lt_irrefl _)⟩
  rw [hloop]
  cases hnorm : settings.normalizeOutput with
  | false => exact ⟨_, rfl, rfl⟩
  | true =>
    have hpos : 0 < buffer.numSamples := by
      rcases hn with h | h
      · rw [hnorm] at h; cases h
      · exact h
    obtain ⟨hr, hp⟩ := hinv.2 (by omega)
    obtain ⟨x, hx⟩ := maxElement_isSome_of_ne_nil hr
    obtain ⟨y, hy⟩ := maxElement_isSome_of_ne_nil hp
    simp only [if_true, AmplitudeExtractor.normalize, hx, hy]
    exact ⟨_, rfl, rfl⟩

theorem panning_frame_total (m : Numerics) (left right : Int → Option ℚ) (sampleRate : ℚ)
    (windowSamples numSamples : Int)
    (hl : ∀ i : Int, 0 ≤ i → i < numSamples → ∃ x, left i = some x)
    (hr : ∀ i : Int, 0 ≤ i → i < numSamples → ∃ x, right i = some x)
    (start : Int) (acc : Series × Series × Series) (h0 : 0 ≤ start) :
    ∃ acc', PanningExtractor.frame m left right sampleRate windowSamples numSamples start acc
        = some acc' := by
  unfold PanningExtractor.frame
  by_cases hlen : min (start + windowSamples) numSamples - start = 0
  · simp only [hlen, if_true]
    exact ⟨_, rfl⟩
  · simp only [hlen, if_false]
    obtain ⟨r, hrr⟩ := foldRange_isSome start (min (start + windowSamples) numSamples)
      (fun (st : PanningSums) i =>
        match left i, right i with
        | some l, some r =>
          some { leftSum := st.leftSum + |l|, rightSum := st.rightSum + |r|,
                 leftSq := st.leftSq + l * l, rightSq := st.rightSq + r * r,
                 correlation := st.correlation + l * r }
        | _, _ => none)
      (by
        intro i hi1 hi2 s
        obtain ⟨x, hx⟩ := hl i (by omega) (lt_of_lt_of_le hi2 (min_le_right _ _))
        obtain ⟨y, hy⟩ := hr i (by omega) (lt_of_lt_of_le hi2 (min_le_right _ _))
        simp only [hx, hy]
        exact ⟨_, rfl⟩) ⟨0, 0, 0, 0, 0⟩
    rw [hrr]
    exact ⟨_, rfl⟩

theorem panning_extract_total (m : Numerics) (settings : Settings) (buffer : AudioBuffer)
    (sampleRate : ℚ) (channel : Int) :
    ∃ r, PanningExtractor.extract m settings buffer sampleRate channel = some r ∧
      r.length = 3 := by
  unfold PanningExtractor.extract
  by_cases hc : buffer.numChannels < 2
  · simp only [hc, if_true]
    exact ⟨_, rfl, rfl⟩
  · simp only [hc, if_false]
    obtain ⟨left, hdl, hreadl⟩ := getReadPointer_of_valid buffer 0 ⟨le_refl _, by omega⟩
    obtain ⟨right, hdr, hreadr⟩ := getReadPointer_of_valid buffer 1 ⟨by omega, by omega⟩
    simp only [hdl, hdr]
    generalize truncToInt (binary64 (binary64 (settings.windowSizeMs * sampleRate) / 1000)) = w
    obtain ⟨res, stop, hloop, -, -⟩ :=
      forLoop_invariant
        (PanningExtractor.frame m left right sampleRate w (buffer.numSamples : Int))
        (buffer.numSamples : Int)
        (max 1 (truncToInt
          (binary32 (binary32 (binary32 (w : ℚ) * settings.hopSizePct) / 100))))
        (fun start _ => 0 ≤ start) (le_max_left _ _)
        (by
          intro start s _ hi
          obtain ⟨acc', ha⟩ :=
            panning_frame_total m left right sampleRate w _ hreadl hreadr start s hi
          have hhop := le_max_left (1 : Int) (truncToInt ((w : ℚ) * settings.hopSizePct / 100))
          exact ⟨acc', ha, by omega⟩)
        buffer.numSamples 0 ([], [], []) (by simp) (le_refl _)
    rw [hloop]
    exact ⟨_, rfl, rfl⟩

theorem transient_frame_total (m : Numerics) (data : Int → Option ℚ) (sampleRate : ℚ)
    (windowSamples numSamples : Int)
    (hdata : ∀ i : Int, 0 ≤ i → i < numSamples → ∃ x, data i = some x)
    (start : Int) (acc : Series × ℚ) (h0 : 0 ≤ start)
    (h1 : start < numSamples - windowSamples) :
    ∃ acc', TransientExtractor.frame m data sampleRate windowSamples start acc = some acc' := by
  unfold TransientExtractor.frame
  obtain ⟨r, hr⟩ := foldRange_isSome 0 windowSamples
    (fun (energy : ℚ) i =>
      match data (start + i) with
      | some sample => some (energy + sample * sample)
      | none => none)
    (by
      intro i hi1 hi2 s
      obtain ⟨x, hx⟩ := hdata (start + i) (by omega) (by omega)
      simp only [hx]
      exact ⟨_, rfl⟩) 0
  rw [hr]
  exact ⟨_, rfl⟩

theorem transient_extract_total (m : Numerics) (buffer : AudioBuffer) (sampleRate : ℚ)
    (channel : Int) (hch : 0 ≤ channel ∧ channel < buffer.numChannels) :
    ∃ r, TransientExtractor.extract m buffer sampleRate channel = some r ∧ r.length = 1 := by
  obtain ⟨data, hd, hread⟩ := getReadPointer_of_valid buffer channel hch
  unfold TransientExtractor.extract
  simp only [hd]
  obtain ⟨res, stop, hloop, -, -⟩ :=
    forLoop_invariant
      (TransientExtractor.frame m data sampleRate 1024)
      ((buffer.numSamples : Int) - 1024) 512
      (fun start _ => 0 ≤ start) (by decide)
      (by
        intro start s hlt hi
        obtain ⟨acc', ha⟩ :=
          transient_frame_total m data sampleRate 1024 _ hread start s hi hlt
        exact ⟨acc', ha, by omega⟩)
      buffer.numSamples 0 ([], 0) (by omega) (le_refl _)
  rw [hloop]
  exact ⟨_, rfl, rfl⟩

theorem calculateFlux_total (m : Numerics) (current previous : List ℚ)
    (h : current.length ≤ previous.length) :
    ∃ x, SpectralExtractor.calculateFlux m current previous = some x := by
  unfold SpectralExtractor.calculateFlux
  obtain ⟨r, hr⟩ := foldlM_option_isSome
    (fun (sum : ℚ) i =>
      match current[i]?, previous[i]? with
      | some c, some p => some (sum + (c - p) * (c - p))
      | _, _ => none)
    (List.range current.length)
    (by
      intro i hi s
      rw [List.mem_range] at hi
      have hc : current[i]? = some current[i] := List.getElem?_eq_getElem hi
      have hp : previous[i]? = some (previous[i]) :=
        List.getElem?_eq_getElem (lt_of_lt_of_le hi h)
      simp only [hc, hp]
      exact ⟨_, rfl⟩) 0
  rw [hr]
  exact ⟨_, rfl⟩

theorem spectral_frame_total (m : Numerics) (data : Int → Option ℚ) (sampleRate : ℚ)
    (numSamples : Int)
    (hdata : ∀ i : Int, 0 ≤ i → i < numSamples → ∃ x, data i = some x)
    (start : Int) (st : SpectralState) (h0 : 0 ≤ start)
    (h1 : start < numSamples - (SpectralExtractor.fftSize : Int) + 1)
    (hprev : st.previousMagnitudes = [] ∨
      st.previousMagnitudes.length = SpectralExtractor.fftSize / 2) :
    ∃ st', SpectralExtractor.frame m data sampleRate start st = some st' ∧
      st'.previousMagnitudes.length = SpectralExtractor.fftSize / 2 := by
  unfold SpectralExtractor.frame
  obtain ⟨filled, hf⟩ := foldRange_isSome 0 (SpectralExtractor.fftSize : Int)
    (fun (fd : Nat → ℚ) i =>
      match data (start + i) with
      | some x =>
        let window := (1 / 2 : ℚ) *
          (1 - m.cos (2 * m.pi * (i : ℚ) / (SpectralExtractor.fftSize : ℚ)))
        some (Function.update fd i.toNat (x * window))
      | none => none)
    (by
      intro i hi1 hi2 s
      obtain ⟨x, hx⟩ := hdata (start + i) (by omega) (by omega)
      simp only [hx]
      exact ⟨_, rfl⟩) st.fftData
  rw [hf]
  simp only
  rcases hprev with hnil | hlen
  · simp only [hnil, List.isEmpty_nil, if_true]
    exact ⟨_, rfl, by simp⟩
  · by_cases he : st.previousMagnitudes.isEmpty
    · simp only [he, if_true]
      exact ⟨_, rfl, by simp⟩
    · obtain ⟨x, hx⟩ := calculateFlux_total m
        ((List.range (SpectralExtractor.fftSize / 2)).map (fun i =>
          m.sqrt (m.frequencyOnlyForwardTransform filled (i * 2) *
              m.frequencyOnlyForwardTransform filled (i * 2) +
            m.frequencyOnlyForwardTransform filled (i * 2 + 1) *
              m.frequencyOnlyForwardTransform filled (i * 2 + 1))))
        st.previousMagnitudes (by simp [hlen])
      simp only [he, hx]
      exact ⟨_, rfl, by simp⟩

theorem spectral_extract_total (m : Numerics) (fftData : Nat → ℚ) (buffer : AudioBuffer)
    (sampleRate : ℚ) (channel : Int) (hch : 0 ≤ channel ∧ channel < buffer.numChannels) :
    ∃ r fd, SpectralExtractor.extract m fftData buffer sampleRate channel = some (r, fd) ∧
      r.length = 4 := by
  obtain ⟨data, hd, hread⟩ := getReadPointer_of_valid buffer channel hch
  unfold SpectralExtractor.extract
  simp only [hd]
  obtain ⟨res, stop, hloop, -, -⟩ :=
    forLoop_invariant
      (SpectralExtractor.frame m data sampleRate)
      ((buffer.numSamples : Int) - (SpectralExtractor.fftSize : Int) + 1)
      ((SpectralExtractor.fftSize : Int) / 2)
      (fun start st => 0 ≤ start ∧ (st.previousMagnitudes = [] ∨
        st.previousMagnitudes.length = SpectralExtractor.fftSize / 2)) (by decide)
      (by
        intro start s hlt hi
        obtain ⟨st', ha, hl⟩ :=
          spectral_frame_total m data sampleRate _ hread start s hi.1 hlt hi.2
        have : (0 : Int) ≤ (SpectralExtractor.fftSize : Int) / 2 := by decide
        exact ⟨st', ha, by omega, Or.inr hl⟩)
      buffer.numSamples 0 ⟨fftData, [], [], [], [], []⟩
      (by simp only [SpectralExtractor.fftSize]; omega) ⟨le_refl _, Or.inl rfl⟩
  rw [hloop]
  exact ⟨_, _, rfl, rfl⟩

theorem mapM_option_isSome {α β : Type} (f : α → Option β) (l : List α)
    (h : ∀ x ∈ l, ∃ y, f x = some y) :
    ∃ ys, l.mapM f = some ys ∧ ys.length = l.length := by
  induction l with
  | nil => exact ⟨[], rfl, rfl⟩
  | cons x xs ih =>
    obtain ⟨y, hy⟩ := h x (List.mem_cons_self _ _)
    obtain ⟨ys, hys, hl⟩ := ih (fun z hz => h z (List.mem_cons_of_mem _ hz))
    refine ⟨y :: ys, ?_, by simp [hl]⟩
    rw [List.mapM_cons, hy, hys]
    rfl

theorem argMaxElement_isSome_of_ne_nil {l : List ℚ} (h : l ≠ []) :
    ∃ x, argMaxElement l = some x := by
  cases l with
  | nil => exact absurd rfl h
  | cons x xs => exact ⟨_, rfl⟩

theorem truncToInt_of_nonneg {x : ℚ} (h : 0 ≤ x) : truncToInt x = ⌊x⌋ := by
  unfold truncToInt
  rw [if_pos h]

theorem pitch_lags (sampleRate : ℚ) (h : 50 ≤ sampleRate) :
    0 ≤ truncToInt (sampleRate / 1000) ∧
    truncToInt (sampleRate / 1000) + 1 ≤ truncToInt (sampleRate / 50) ∧
    2 ≤ truncToInt ((5 / 100 : ℚ) * sampleRate) := by
  rw [truncToInt_of_nonneg (by positivity), truncToInt_of_nonneg (by positivity),
    truncToInt_of_nonneg (by positivity)]
  refine ⟨Int.floor_nonneg.mpr (by positivity), ?_, ?_⟩
  · rw [Int.le_floor]
    have ha : ((⌊sampleRate / 1000⌋ : Int) : ℚ) ≤ sampleRate / 1000 := Int.floor_le _
    have hnn : (0 : ℚ) ≤ ((⌊sampleRate / 1000⌋ : Int) : ℚ) := by
      exact_mod_cast Int.floor_nonneg.mpr (by positivity : (0 : ℚ) ≤ sampleRate / 1000)
    push_cast
    rw [le_div_iff₀ (by norm_num)]
    rw [le_div_iff₀ (by norm_num)] at ha
    by_cases hz : ((⌊sampleRate / 1000⌋ : Int) : ℚ) = 0
    · rw [hz]; linarith
    · have h1 : (1 : ℚ) ≤ ((⌊sampleRate / 1000⌋ : Int) : ℚ) := by
        have hpos : (0 : Int) < ⌊sampleRate / 1000⌋ := by
          rcases lt_or_eq_of_le (Int.floor_nonneg.mpr
            (by positivity : (0 : ℚ) ≤ sampleRate / 1000)) with hlt | heq
          · exact hlt
          · exact absurd (by rw [← heq]; simp) hz
        exact_mod_cast hpos
      linarith
  · rw [Int.le_floor]
    push_cast
    linarith

theorem pitch_correlationAt_total (data : Int → Option ℚ) (numSamples lag : Int)
    (hlag : 0 ≤ lag)
    (hdata : ∀ i : Int, 0 ≤ i → i < numSamples → ∃ x, data i = some x) :
    ∃ x, PitchExtractor.correlationAt data numSamples lag = some x := by
  unfold PitchExtractor.correlationAt
  exact foldRange_isSome 0 (numSamples - lag) _
    (by
      intro i hi1 hi2 s
      obtain ⟨a, ha⟩ := hdata i hi1 (by omega)
      obtain ⟨b, hb⟩ := hdata (i + lag) (by omega) (by omega)
      simp only [ha, hb]
      exact ⟨_, rfl⟩) 0

theorem pitch_detectPitch_total (data : Int → Option ℚ) (numSamples : Int) (sampleRate : ℚ)
    (hsr : 50 ≤ sampleRate)
    (hdata : ∀ i : Int, 0 ≤ i → i < numSamples → ∃ x, data i = some x) :
    ∃ r, PitchExtractor.detectPitch data numSamples sampleRate = some r := by
  obtain ⟨hmin, hlt, -⟩ := pitch_lags sampleRate hsr
  unfold PitchExtractor.detectPitch
  have hneg : ¬ (truncToInt (sampleRate / 50) - truncToInt (sampleRate / 1000) < 0) := by omega
  simp only [hneg, if_false]
  obtain ⟨corr, hcorr, hlen⟩ := mapM_option_isSome
    (fun (j : Nat) =>
      PitchExtractor.correlationAt data numSamples (truncToInt (sampleRate / 1000) + (j : Int)))
    (List.range (truncToInt (sampleRate / 50) - truncToInt (sampleRate / 1000)).toNat)
    (fun j _ => pitch_correlationAt_total data numSamples _ (by omega) hdata)
  rw [hcorr]
  have hpos : 0 < corr.length := by
    rw [hlen, List.length_range]; omega
  have hne : corr ≠ [] := List.ne_nil_of_length_pos hpos
  obtain ⟨⟨idx, val⟩, hx⟩ := argMaxElement_isSome_of_ne_nil hne
  have h0 : corr[0]? = some corr[0] := List.getElem?_eq_getElem hpos
  simp only [hx, h0]
  exact ⟨_, rfl⟩

theorem pitch_extract_total (buffer : AudioBuffer) (sampleRate : ℚ) (channel : Int)
    (hch : 0 ≤ channel ∧ channel < buffer.numChannels) (hsr : 50 ≤ sampleRate) :
    ∃ r, PitchExtractor.extract buffer sampleRate channel = some r ∧ r.length = 2 := by
  obtain ⟨data, hd, hread⟩ := getReadPointer_of_valid buffer channel hch
  obtain ⟨-, -, hw⟩ := pitch_lags sampleRate hsr
  unfold PitchExtractor.extract
  simp only [hd]
  generalize truncToInt ((5 / 100 : ℚ) * sampleRate) = w at hw
  have hhop : 1 ≤ Int.tdiv w 2 := by
    have := Int.tdiv_add_tmod w 2
    have := Int.tmod_lt_of_pos w (by decide : (0 : Int) < 2)
    omega
  obtain ⟨res, stop, hloop, -, -⟩ :=
    forLoop_invariant
      (PitchExtractor.frame data sampleRate w)
      ((buffer.numSamples : Int) - w) (Int.tdiv w 2)
      (fun start _ => 0 ≤ start) hhop
      (by
        intro start s hlt hi
        obtain ⟨⟨freq, conf⟩, hr⟩ :=
          pitch_detectPitch_total (fun i => data (start + i)) w sampleRate hsr
            (fun i hi0 hi1 => hread (start + i) (by omega) (by omega))
        have hframe : PitchExtractor.frame data sampleRate w start s =
            some (s.1 ++ [((start : ℚ) / sampleRate, freq)],
              s.2 ++ [((start : ℚ) / sampleRate, conf)]) := by
          unfold PitchExtractor.frame
          rw [hr]
        exact ⟨_, hframe, by omega⟩)
      buffer.numSamples 0 ([], []) (by omega) (le_refl _)
  rw [hloop]
  exact ⟨_, rfl, rfl⟩

theorem amplitude_extract_empty (m : Numerics) (settings : Settings) (buffer : AudioBuffer)
    (sampleRate : ℚ) (channel : Int) (hch : 0 ≤ channel ∧ channel < buffer.numChannels)
    (hlen : buffer.numSamples = 0) :
    AmplitudeExtractor.extract m settings buffer sampleRate channel =
      if settings.normalizeOutput then none else some [[], []] := by
  obtain ⟨data, hd, -⟩ := getReadPointer_of_valid buffer channel hch
  unfold AmplitudeExtractor.extract
  simp only [hd, hlen]
  rw [forLoop_of_not_lt _ _ _ _ _ _ (by simp)]
  cases settings.normalizeOutput <;> simp [AmplitudeExtractor.normalize, maxElement]

theorem panning_extract_empty (m : Numerics) (settings : Settings) (buffer : AudioBuffer)
    (sampleRate : ℚ) (channel : Int) (hch : 2 ≤ buffer.numChannels)
    (hlen : buffer.numSamples = 0) :
    PanningExtractor.extract m settings buffer sampleRate channel = some [[], [], []] := by
  obtain ⟨left, hdl, -⟩ := getReadPointer_of_valid buffer 0 ⟨le_refl _, by omega⟩
  obtain ⟨right, hdr, -⟩ := getReadPointer_of_valid buffer 1 ⟨by omega, by omega⟩
  unfold PanningExtractor.extract
  have hc : ¬ buffer.numChannels < 2 := by omega
  simp only [hc, if_false, hdl, hdr, hlen]
  rw [forLoop_of_not_lt _ _ _ _ _ _ (by simp)]

theorem spectral_extract_empty (m : Numerics) (fftData : Nat → ℚ) (buffer : AudioBuffer)
    (sampleRate : ℚ) (channel : Int) (hch : 0 ≤ channel ∧ channel < buffer.numChannels)
    (hlen : buffer.numSamples = 0) :
    SpectralExtractor.extract m fftData buffer sampleRate channel =
      some ([[], [], [], []], fftData) := by
  obtain ⟨data, hd, -⟩ := getReadPointer_of_valid buffer channel hch
  unfold SpectralExtractor.extract
  simp only [hd, hlen]
  rw [forLoop_of_not_lt _ _ _ _ _ _ (by simp [SpectralExtractor.fftSize])]

theorem pitch_extract_empty (buffer : AudioBuffer) (sampleRate : ℚ) (channel : Int)
    (hch : 0 ≤ channel ∧ channel < buffer.numChannels) (hsr : 0 ≤ sampleRate)
    (hlen : buffer.numSamples = 0) :
    PitchExtractor.extract buffer sampleRate channel = some [[], []] := by
  obtain ⟨data, hd, -⟩ := getReadPointer_of_valid buffer channel hch
  unfold PitchExtractor.extract
  simp only [hd, hlen]
  have hw : 0 ≤ truncToInt ((5 / 100 : ℚ) * sampleRate) := by
    rw [truncToInt_of_nonneg (by positivity)]
    exact Int.floor_nonneg.mpr (by positivity)
  rw [forLoop_of_not_lt _ _ _ _ _ _ (by simp only [Nat.cast_zero]; omega)]

theorem transient_extract_empty (m : Numerics) (buffer : AudioBuffer) (sampleRate : ℚ)
    (channel : Int) (hch : 0 ≤ channel ∧ channel < buffer.numChannels)
    (hlen : buffer.numSamples = 0) :
    TransientExtractor.extract m buffer sampleRate channel = some [[]] := by
  obtain ⟨data, hd, -⟩ := getReadPointer_of_valid buffer channel hch
  unfold TransientExtractor.extract
  simp only [hd, hlen]
  rw [forLoop_of_not_lt _ _ _ _ _ _ (by simp)]

theorem extractFeature_of_no_audio (m : Numerics) (p : Processor) (featureName : String)
    (channel : Int) (hlen : p.loadedAudio.numSamples = 0) :
    p.extractFeature m featureName channel = some p := by
  unfold Processor.extractFeature
  cases p.extractors featureName with
  | none => rfl
  | some e => simp [Processor.hasLoadedAudio, hlen]

/-- C7 (counterexample): `AmplitudeExtractor::extract` with the default settings
(`normalizeOutput = true`) on a mono buffer of zero samples takes `*std::max_element` of the
empty vector `rmsValues` and returns no result, so not two series. -/
theorem C7_amplitude_empty_input_no_result :
    ¬ ∃ r, AmplitudeExtractor.extract sampleNumerics Settings.default (silentBuffer 0) 44100 0
      = some r ∧ r.length = ExtractorKind.amplitude.getNumOutputs := by
  rw [amplitude_extract_empty _ _ _ _ _ (by simp [silentBuffer]) rfl]
  simp [Settings.default]

/-- C7 (amended): for a channel index the buffer has, `extract` returns, and returns exactly
`getNumOutputs()` series: Panning 3 (on any buffer, one of fewer than two channels included),
Spectral 4 and Transients 1 for every buffer, sample rate and settings; Amplitude 2 when the
buffer has at least one sample or `normalizeOutput` is off; Pitch 2 when the sample rate is at
least 50 Hz. -/
theorem C7_extract_returns_declared_outputs (m : Numerics) (settings : Settings)
    (fftData : Nat → ℚ) (buffer : AudioBuffer) (sampleRate : ℚ) (channel : Int)
    (hch : 0 ≤ channel ∧ channel < buffer.numChannels) :
    (settings.normalizeOutput = false ∨ 0 < buffer.numSamples →
      ∃ r, AmplitudeExtractor.extract m settings buffer sampleRate channel = some r ∧
        r.length = ExtractorKind.amplitude.getNumOutputs) ∧
    (∃ r, PanningExtractor.extract m settings buffer sampleRate channel = some r ∧
        r.length = ExtractorKind.panning.getNumOutputs) ∧
    (∃ r fd, SpectralExtractor.extract m fftData buffer sampleRate channel = some (r, fd) ∧
        r.length = ExtractorKind.spectral.getNumOutputs) ∧
    (50 ≤ sampleRate →
      ∃ r, PitchExtractor.extract buffer sampleRate channel = some r ∧
        r.length = ExtractorKind.pitch.getNumOutputs) ∧
    (∃ r, TransientExtractor.extract m buffer sampleRate channel = some r ∧
        r.length = ExtractorKind.transient.getNumOutputs) :=
  ⟨fun hn => amplitude_extract_total m settings buffer sampleRate channel hch hn,
    panning_extract_total m settings buffer sampleRate channel,
    spectral_extract_total m fftData buffer sampleRate channel hch,
    fun hsr => pitch_extract_total buffer sampleRate channel hch hsr,
    transient_extract_total m buffer sampleRate channel hch⟩

/-- Witness for C7 (amended): a silent mono buffer of 4096 samples at 44100 Hz, channel 0,
default settings. -/
theorem C7_extract_returns_declared_outputs_witness :
    (∃ r, AmplitudeExtractor.extract sampleNumerics Settings.default (silentBuffer 4096)
        44100 0 = some r ∧ r.length = ExtractorKind.amplitude.getNumOutputs) ∧
    (∃ r, PitchExtractor.extract (silentBuffer 4096) 44100 0 = some r ∧
        r.length = ExtractorKind.pitch.getNumOutputs) :=
  have h := C7_extract_returns_declared_outputs sampleNumerics Settings.default (fun _ => 0)
    (silentBuffer 4096) 44100 0 (by simp [silentBuffer])
  ⟨h.1 (Or.inr (by simp [silentBuffer])), h.2.2.2.1 (by norm_num)⟩

/-- C9 (counterexample): on a stereo buffer of zero samples with `normalizeOutput = true`,
`AmplitudeExtractor::extract` takes the maximum of an empty vector (the dereference of `end()`)
and has no result. -/
theorem C9_amplitude_normalize_empty_faults :
    AmplitudeExtractor.extract sampleNumerics
      { Settings.default with normalizeOutput := true }
      { numChannels := 2, numSamples := 0, sample := fun _ _ => 0 } 48000 1 = none := by
  rw [amplitude_extract_empty _ _ _ _ _ (by simp) rfl]
  simp

/-- C9 (amended): for a buffer of zero samples and a channel index the buffer has, `extract`
returns with every series empty for Spectral and Transients under every settings value, for
Panning when the buffer has two channels or more, for Pitch when the sample rate is not
negative, and for Amplitude when `normalizeOutput` is off; `extractFeature` does not call
`extract` on a buffer of zero samples (the `hasLoadedAudio` guard) and leaves the processor as
it is. -/
theorem C9_zero_length_buffer (m : Numerics) (settings : Settings) (fftData : Nat → ℚ)
    (buffer : AudioBuffer) (sampleRate : ℚ) (channel : Int)
    (hch : 0 ≤ channel ∧ channel < buffer.numChannels) (hlen : buffer.numSamples = 0) :
    (settings.normalizeOutput = false →
      AmplitudeExtractor.extract m settings buffer sampleRate channel = some [[], []]) ∧
    (2 ≤ buffer.numChannels →
      PanningExtractor.extract m settings buffer sampleRate channel = some [[], [], []]) ∧
    SpectralExtractor.extract m fftData buffer sampleRate channel
      = some ([[], [], [], []], fftData) ∧
    (0 ≤ sampleRate → PitchExtractor.extract buffer sampleRate channel = some [[], []]) ∧
    TransientExtractor.extract m buffer sampleRate channel = some [[]] ∧
    (∀ (p : Processor) (featureName : String) (ch : Int), p.loadedAudio = buffer →
      p.extractFeature m featureName ch = some p) := by
  refine ⟨fun hn => ?_, fun h2 => panning_extract_empty m settings buffer sampleRate channel h2 hlen,
    spectral_extract_empty m fftData buffer sampleRate channel hch hlen,
    fun hsr => pitch_extract_empty buffer sampleRate channel hch hsr hlen,
    transient_extract_empty m buffer sampleRate channel hch hlen,
    fun p f ch hp => extractFeature_of_no_audio m p f ch (by rw [hp]; exact hlen)⟩
  rw [amplitude_extract_empty m settings buffer sampleRate channel hch hlen, hn]
  rfl

/-- Witness for C9 (amended): a stereo buffer of zero samples, channel 1, `normalizeOutput`
off, 48000 Hz. -/
theorem C9_zero_length_buffer_witness :
    AmplitudeExtractor.extract sampleNumerics
      { Settings.default with normalizeOutput := false }
      { numChannels := 2, numSamples := 0, sample := fun _ _ => 0 } 48000 1 = some [[], []] ∧
    PanningExtractor.extract sampleNumerics
      { Settings.default with normalizeOutput := false }
      { numChannels := 2, numSamples := 0, sample := fun _ _ => 0 } 48000 1
      = some [[], [], []] ∧
    PitchExtractor.extract
      { numChannels := 2, numSamples := 0, sample := fun _ _ => 0 } 48000 1 = some [[], []] :=
  have h := C9_zero_length_buffer sampleNumerics
    { Settings.default with normalizeOutput := false } (fun _ => 0)
    { numChannels := 2, numSamples := 0, sample := fun _ _ => 0 } 48000 1 (by simp) rfl
  ⟨h.1 rfl, h.2.1 (by simp), h.2.2.2.1 (by norm_num)⟩

theorem foldlM_option_const {α : Type} (step : ℚ → α → Option ℚ) (l : List α) (c : ℚ)
    (h : ∀ x ∈ l, step c x = some c) : l.foldlM step c = some c := by
  induction l with
  | nil => rfl
  | cons x xs ih =>
    simp only [List.foldlM, h x (List.mem_cons_self _ _)]
    exact ih (fun y hy => h y (List.mem_cons_of_mem _ hy))

theorem correlationAt_silent (data : Int → Option ℚ) (numSamples lag : Int) (hlag : 0 ≤ lag)
    (hdata : ∀ i : Int, 0 ≤ i → i < numSamples → data i = some 0) :
    PitchExtractor.correlationAt data numSamples lag = some 0 := by
  unfold PitchExtractor.correlationAt foldRange
  apply foldlM_option_const
  intro x hx
  rw [List.mem_map] at hx
  obtain ⟨j, hj, rfl⟩ := hx
  rw [List.mem_range] at hj
  rw [hdata _ (by omega) (by omega), hdata _ (by omega) (by omega)]
  simp

theorem mapM_option_const {α β : Type} (f : α → Option β) (l : List α) (c : β)
    (h : ∀ x ∈ l, f x = some c) : l.mapM f = some (List.replicate l.length c) := by
  induction l with
  | nil => rfl
  | cons x xs ih =>
    rw [List.mapM_cons, h x (List.mem_cons_self _ _),
      ih (fun z hz => h z (List.mem_cons_of_mem _ hz))]
    rfl

theorem argMaxElement_replicate (n : Nat) (c : ℚ) :
    argMaxElement (List.replicate (n + 1) c) = some (0, c) := by
  have key : ∀ (k i : Nat),
      ((List.replicate k c).foldl (fun (acc : (Nat × ℚ) × Nat) y =>
        if acc.1.2 < y then ((acc.2, y), acc.2 + 1) else (acc.1, acc.2 + 1)) ((0, c), i)).1
        = (0, c) := by
    intro k
    induction k with
    | zero => intro i; rfl
    | succ k ih =>
      intro i
      rw [List.replicate_succ, List.foldl_cons]
      simp only [lt_irrefl, if_false]
      exact ih (i + 1)
  rw [List.replicate_succ]
  simp only [argMaxElement]
  rw [key]

/-- On a frame of zeros `detectPitch` divides by `correlation[0] = 0`: the quotient is NaN, and
the clamp turns it into confidence 1. -/
theorem detectPitch_silent (data : Int → Option ℚ) (numSamples : Int) (sampleRate : ℚ)
    (hsr : 50 ≤ sampleRate)
    (hdata : ∀ i : Int, 0 ≤ i → i < numSamples → data i = some 0) :
    PitchExtractor.detectPitch data numSamples sampleRate =
      some (sampleRate / ((truncToInt (sampleRate / 1000) : Int) : ℚ), 1) := by
  obtain ⟨hmin, hlt, -⟩ := pitch_lags sampleRate hsr
  unfold PitchExtractor.detectPitch
  have hneg : ¬ (truncToInt (sampleRate / 50) - truncToInt (sampleRate / 1000) < 0) := by omega
  simp only [hneg, if_false]
  rw [mapM_option_const _ _ (0 : ℚ)
    (fun j _ => correlationAt_silent data numSamples _ (by omega) hdata)]
  obtain ⟨n, hn⟩ : ∃ n, (truncToInt (sampleRate / 50) - truncToInt (sampleRate / 1000)).toNat
      = n + 1 := ⟨(truncToInt (sampleRate / 50) - truncToInt (sampleRate / 1000)).toNat - 1,
        by omega⟩
  rw [List.length_range, hn]
  simp only [argMaxElement_replicate]
  simp [List.replicate_succ, ieeeDiv, clampUnit]

/-- C10 (the code at the failing input): for a frame of 50 zeros at 1000 Hz the correlation at
the minimum lag, the divisor of `*maxIt / correlation[0]`, is 0; the quotient `0 / 0` is NaN;
and `detectPitch` returns confidence 1, not 0. -/
theorem C10_detectPitch_silent_frame_zero_divisor :
    truncToInt ((1000 : ℚ) / 1000) = 1 ∧
    PitchExtractor.correlationAt (fun i => if 0 ≤ i ∧ i < 50 then some 0 else none) 50 1
      = some 0 ∧
    ieeeDiv 0 0 = IeeeVal.nan ∧
    PitchExtractor.detectPitch (fun i => if 0 ≤ i ∧ i < 50 then some 0 else none) 50 1000
      = some (1000, 1) := by
  have ht : truncToInt ((1000 : ℚ) / 1000) = 1 := by
    rw [truncToInt_of_nonneg (by norm_num)]
    norm_num
  have hdata : ∀ i : Int, 0 ≤ i → i < 50 →
      (fun i : Int => if 0 ≤ i ∧ i < 50 then some (0 : ℚ) else none) i = some 0 :=
    fun i h0 h1 => if_pos ⟨h0, h1⟩
  refine ⟨ht, correlationAt_silent _ 50 1 (by decide) hdata, by simp [ieeeDiv], ?_⟩
  rw [detectPitch_silent _ 50 1000 (by norm_num) hdata, ht]
  norm_num

theorem amplitude_extract_unfold (m : Numerics) (settings : Settings) (buffer : AudioBuffer)
    (sampleRate : ℚ) (channel : Int) :
    AmplitudeExtractor.extract m settings buffer sampleRate channel =
      match buffer.getReadPointer channel with
      | none => none
      | some data =>
        match forLoop (AmplitudeExtractor.frame m data sampleRate
            (AmplitudeExtractor.windowSamples settings sampleRate) (buffer.numSamples : Int))
            (buffer.numSamples : Int) (AmplitudeExtractor.hopSamples settings sampleRate)
            buffer.numSamples 0 ⟨[], [], []⟩ with
        | none => none
        | some frames =>
          match (if settings.normalizeOutput then AmplitudeExtractor.normalize frames
              else some frames) with
          | none => none
          | some final =>
            some [final.times.zip final.rmsValues, final.times.zip final.peakValues] := rfl

theorem amplitude_scenario_window_hop (settings : Settings) (h1 : settings.windowSizeMs = 15)
    (h2 : settings.hopSizePct = 50) :
    AmplitudeExtractor.windowSamples settings 44100 = 661 ∧
    AmplitudeExtractor.hopSamples settings 44100 = 330 := by
  have e1 : binary64 (settings.windowSizeMs * 44100) = 661500 := by
    have h := binary64_intCast 661500 (by norm_num)
    rw [h1]
    norm_num at h ⊢
    exact h
  have e2 : binary64 ((661500 : ℚ) / 1000) = 1323 / 2 := by
    have h := binary64_grid 1323 (-1) (by norm_num) (by norm_num)
    have e : ((1323 : Int) : ℚ) * 2 ^ (-1 : Int) = 661500 / 1000 := by norm_num
    rw [e] at h
    rw [h]
    norm_num
  have hfl : truncToInt (1323 / 2 : ℚ) = 661 := by
    rw [truncToInt_of_nonneg (by norm_num), Int.floor_eq_iff]
    norm_num
  have e3 : binary32 (((661 : Int) : ℚ)) = 661 := by
    have h := binary32_intCast 661 (by norm_num)
    simpa using h
  have e4 : binary32 ((661 : ℚ) * 50) = 33050 := by
    have h := binary32_intCast 33050 (by norm_num)
    norm_num at h ⊢
    exact h
  have e5 : binary32 ((33050 : ℚ) / 100) = 661 / 2 := by
    have h := binary32_grid 661 (-1) (by norm_num) (by norm_num)
    have e : ((661 : Int) : ℚ) * 2 ^ (-1 : Int) = 33050 / 100 := by norm_num
    rw [e] at h
    rw [h]
    norm_num
  have hfl2 : truncToInt (661 / 2 : ℚ) = 330 := by
    rw [truncToInt_of_nonneg (by norm_num), Int.floor_eq_iff]
    norm_num
  unfold AmplitudeExtractor.windowSamples AmplitudeExtractor.hopSamples
  rw [e1, e2, hfl, h2, e3, e4, e5, hfl2]
  exact ⟨by decide, by decide⟩

theorem frameCount_of_not_pos {limit hop : Int} (hhop : 1 ≤ hop) (h : limit ≤ 0) :
    frameCount limit hop = 0 := by
  unfold frameCount
  have : (limit + hop - 1) / hop ≤ 0 := by
    have h1 : limit + hop - 1 < hop := by omega
    have := Int.ediv_lt_of_lt_mul (by omega : (0 : Int) < hop)
      (by rw [one_mul]; exact h1 : limit + hop - 1 < 1 * hop)
    omega
  omega

theorem frameCount_succ {limit hop : Int} (hhop : 1 ≤ hop) (h : 0 < limit) :
    frameCount limit hop = frameCount (limit - hop) hop + 1 := by
  unfold frameCount
  have e : limit + hop - 1 = (limit - hop + hop - 1) + 1 * hop := by ring
  have h0 : 0 ≤ (limit - hop + hop - 1) / hop :=
    Int.ediv_nonneg (by omega) (by omega)
  rw [e, Int.add_mul_ediv_right _ _ (by omega : hop ≠ 0)]
  omega

theorem forLoop_eq_foldl {σ : Type} (body : Int → σ → Option σ) (step : σ → Int → σ)
    (limit hop : Int) (hhop : 1 ≤ hop)
    (hbody : ∀ start s, 0 ≤ start → start < limit → body start s = some (step s start)) :
    ∀ (fuel : Nat) (start : Int) (s : σ), 0 ≤ start → (limit - start).toNat ≤ fuel →
      forLoop body limit hop fuel start s =
        some (((List.range (frameCount (limit - start) hop)).map
          (fun (j : Nat) => start + (j : Int) * hop)).foldl step s) := by
  intro fuel
  induction fuel with
  | zero =>
    intro start s h0 hf
    have hle : limit - start ≤ 0 := by omega
    rw [forLoop_of_not_lt _ _ _ _ _ _ (by omega), frameCount_of_not_pos hhop hle]
    rfl
  | succ n ih =>
    intro start s h0 hf
    by_cases hlt : start < limit
    · rw [frameCount_succ hhop (by omega), List.range_succ_eq_map, List.map_cons, List.foldl_cons]
      simp only [forLoop, hlt, if_true, hbody start s h0 hlt]
      rw [ih (start + hop) (step s start) (by omega) (by omega)]
      have e : limit - (start + hop) = limit - start - hop := by ring
      rw [e, List.map_map]
      simp only [Nat.cast_zero, zero_mul, add_zero]
      congr 2
      apply List.map_congr_left
      intro j _
      simp only [Function.comp, Nat.cast_succ]
      ring
    · have hle : limit - start ≤ 0 := by omega
      rw [forLoop_of_not_lt _ _ _ _ _ _ hlt, frameCount_of_not_pos hhop hle]
      rfl

theorem forLoop_eq_foldl_frameStarts {σ : Type} (body : Int → σ → Option σ)
    (step : σ → Int → σ) (limit hop : Int) (hhop : 1 ≤ hop)
    (hbody : ∀ start s, 0 ≤ start → start < limit → body start s = some (step s start))
    (fuel : Nat) (s : σ) (hf : limit.toNat ≤ fuel) :
    forLoop body limit hop fuel 0 s = some ((frameStarts limit hop).foldl step s) := by
  rw [forLoop_eq_foldl body step limit hop hhop hbody fuel 0 s (le_refl _) (by simpa using hf)]
  unfold frameStarts
  simp

theorem foldlM_option_eq_foldl {σ α β : Type} (step : σ → α → Option σ) (g : σ → β → σ)
    (val : α → β) (l : List α) (h : ∀ x ∈ l, ∀ s, step s x = some (g s (val x))) (init : σ) :
    l.foldlM step init = some ((l.map val).foldl g init) := by
  induction l generalizing init with
  | nil => rfl
  | cons x xs ih =>
    simp only [List.foldlM, h x (List.mem_cons_self _ _) init, List.map_cons, List.foldl_cons]
    exact ih (fun y hy s => h y (List.mem_cons_of_mem _ hy) s) _

theorem getReadPointer_eq (buffer : AudioBuffer) (channel : Int)
    (h : 0 ≤ channel ∧ channel < buffer.numChannels) :
    buffer.getReadPointer channel = some (fun (i : Int) =>
      if 0 ≤ i ∧ i < buffer.numSamples then some (buffer.sample channel.toNat i.toNat)
      else none) := by
  unfold AudioBuffer.getReadPointer
  rw [if_pos h]

theorem foldRange_reader {σ : Type} (buffer : AudioBuffer) (channel : Nat) (g : σ → ℚ → σ)
    (lo hi : Int) (h0 : 0 ≤ lo) (h1 : hi ≤ buffer.numSamples) (init : σ) :
    foldRange lo hi (fun (st : σ) (i : Int) =>
        match (if 0 ≤ i ∧ i < (buffer.numSamples : Int) then
            some (buffer.sample channel i.toNat) else none) with
        | some sample => some (g st sample)
        | none => none) init
      = some ((buffer.frameSamples channel lo hi).foldl g init) := by
  unfold foldRange AudioBuffer.frameSamples
  rw [foldlM_option_eq_foldl _ g (fun (i : Int) => buffer.sample channel i.toNat), List.map_map]
  · rfl
  · intro x hx s
    rw [List.mem_map] at hx
    obtain ⟨j, hj, rfl⟩ := hx
    rw [List.mem_range] at hj
    rw [if_pos ⟨by omega, by omega⟩]

theorem amplitude_frame_eq (m : Numerics) (buffer : AudioBuffer) (channel : Nat)
    (sampleRate : ℚ) (windowSamples : Int) (hw : windowSamples ≠ 0) (start : Int)
    (acc : AmplitudeFrames) (h0 : 0 ≤ start) (h1 : start < buffer.numSamples) :
    AmplitudeExtractor.frame m (fun (i : Int) =>
        if 0 ≤ i ∧ i < (buffer.numSamples : Int) then some (buffer.sample channel i.toNat)
        else none) sampleRate windowSamples buffer.numSamples start acc =
      some { times := acc.times ++
               [(AmplitudeExtractor.framePoint m buffer channel sampleRate windowSamples start).1],
             rmsValues := acc.rmsValues ++
               [(AmplitudeExtractor.framePoint m buffer channel sampleRate windowSamples start).2.1],
             peakValues := acc.peakValues ++
               [(AmplitudeExtractor.framePoint m buffer channel sampleRate windowSamples start).2.2] } := by
  unfold AmplitudeExtractor.frame
  have hlen : ¬ (min (start + windowSamples) (buffer.numSamples : Int) - start = 0) := by
    intro h
    rcases min_choice (start + windowSamples) (buffer.numSamples : Int) with hm | hm <;>
      rw [hm] at h <;> omega
  simp only [hlen, if_false]
  have hfold := foldRange_reader buffer channel
    (fun (st : ℚ × ℚ) sample =>
      (binary32 (st.1 + binary32 (sample * sample)),
        if |sample| > st.2 then |sample| else st.2))
    start (min (start + windowSamples) (buffer.numSamples : Int)) h0 (min_le_right _ _) (0, 0)
  simp only at hfold
  rw [hfold]
  rfl

theorem amplitude_foldl_push (pt : Int → ℚ × ℚ × ℚ) (starts : List Int)
    (acc : AmplitudeFrames) :
    starts.foldl (fun (a : AmplitudeFrames) st =>
        { times := a.times ++ [(pt st).1], rmsValues := a.rmsValues ++ [(pt st).2.1],
          peakValues := a.peakValues ++ [(pt st).2.2] }) acc =
      { times := acc.times ++ starts.map (fun st => (pt st).1),
        rmsValues := acc.rmsValues ++ starts.map (fun st => (pt st).2.1),
        peakValues := acc.peakValues ++ starts.map (fun st => (pt st).2.2) } := by
  induction starts generalizing acc with
  | nil => simp
  | cons x xs ih => simp [ih]

theorem amplitude_windowSamples_ne_zero (settings : Settings) (sampleRate : ℚ) :
    AmplitudeExtractor.windowSamples settings sampleRate ≠ 0 := by
  unfold AmplitudeExtractor.windowSamples
  split <;> omega

theorem amplitude_hopSamples_pos (settings : Settings) (sampleRate : ℚ) :
    1 ≤ AmplitudeExtractor.hopSamples settings sampleRate :=
  le_max_left _ _

/-- The result of `AmplitudeExtractor::extract` on a channel the buffer has, in terms of the
vectors the frame loop ends with. -/
theorem amplitude_extract_eq (m : Numerics) (settings : Settings) (buffer : AudioBuffer)
    (sampleRate : ℚ) (channel : Int) (hch : 0 ≤ channel ∧ channel < buffer.numChannels) :
    AmplitudeExtractor.extract m settings buffer sampleRate channel =
      match (if settings.normalizeOutput then
          AmplitudeExtractor.normalize
            (AmplitudeExtractor.loopResult m settings buffer sampleRate channel.toNat)
        else some (AmplitudeExtractor.loopResult m settings buffer sampleRate channel.toNat))
        with
      | none => none
      | some final =>
        some [final.times.zip final.rmsValues, final.times.zip final.peakValues] := by
  rw [amplitude_extract_unfold, getReadPointer_eq buffer channel hch]
  simp only
  rw [forLoop_eq_foldl_frameStarts _
    (fun (a : AmplitudeFrames) st =>
      { times := a.times ++ [(AmplitudeExtractor.framePoint m buffer channel.toNat sampleRate
          (AmplitudeExtractor.windowSamples settings sampleRate) st).1],
        rmsValues := a.rmsValues ++ [(AmplitudeExtractor.framePoint m buffer channel.toNat
          sampleRate (AmplitudeExtractor.windowSamples settings sampleRate) st).2.1],
        peakValues := a.peakValues ++ [(AmplitudeExtractor.framePoint m buffer channel.toNat
          sampleRate (AmplitudeExtractor.windowSamples settings sampleRate) st).2.2] })
    _ _ (amplitude_hopSamples_pos settings sampleRate)
    (fun start s h0 h1 => amplitude_frame_eq m buffer channel.toNat sampleRate _
      (amplitude_windowSamples_ne_zero settings sampleRate) start s h0 h1)
    buffer.numSamples _ (by simp)]
  rw [amplitude_foldl_push]
  simp only [List.nil_append]
  rfl

theorem frameCount_pos {limit hop : Int} (hhop : 1 ≤ hop) (h : 0 < limit) :
    0 < frameCount limit hop := by
  rw [frameCount_succ hhop h]
  omega

theorem length_frameStarts (limit hop : Int) :
    (frameStarts limit hop).length = frameCount limit hop := by
  simp [frameStarts]

theorem maxElement_isSome_of_length_pos {l : List ℚ} (h : 0 < l.length) :
    ∃ x, maxElement l = some x :=
  maxElement_isSome_of_ne_nil (List.ne_nil_of_length_pos h)

theorem amplitude_normalize_eq {acc : AmplitudeFrames} {maxRms maxPeak : ℚ}
    (h1 : maxElement acc.rmsValues = some maxRms)
    (h2 : maxElement acc.peakValues = some maxPeak) :
    AmplitudeExtractor.normalize acc =
      some { times := acc.times,
             rmsValues := if maxRms > 0 then acc.rmsValues.map (fun v => binary32 (v / maxRms))
               else acc.rmsValues,
             peakValues := if maxPeak > 0 then
                 acc.peakValues.map (fun v => binary32 (v / maxPeak))
               else acc.peakValues } := by
  unfold AmplitudeExtractor.normalize
  rw [h1, h2]

/-- On a channel the buffer has, with normalisation off or at least one sample, `extract`
returns two series over the same times, one entry for each frame start. -/
theorem amplitude_extract_shape (m : Numerics) (settings : Settings) (buffer : AudioBuffer)
    (sampleRate : ℚ) (channel : Int) (hch : 0 ≤ channel ∧ channel < buffer.numChannels)
    (hn : settings.normalizeOutput = false ∨ 0 < buffer.numSamples) :
    ∃ rmsValues peakValues : List ℚ,
      AmplitudeExtractor.extract m settings buffer sampleRate channel =
        some [(AmplitudeExtractor.loopResult m settings buffer sampleRate channel.toNat).times.zip
            rmsValues,
          (AmplitudeExtractor.loopResult m settings buffer sampleRate channel.toNat).times.zip
            peakValues] ∧
      rmsValues.length = frameCount buffer.numSamples
        (AmplitudeExtractor.hopSamples settings sampleRate) ∧
      peakValues.length = frameCount buffer.numSamples
        (AmplitudeExtractor.hopSamples settings sampleRate) := by
  rw [amplitude_extract_eq m settings buffer sampleRate channel hch]
  have hlr : (AmplitudeExtractor.loopResult m settings buffer sampleRate
      channel.toNat).rmsValues.length = frameCount buffer.numSamples
        (AmplitudeExtractor.hopSamples settings sampleRate) := by
    simp [AmplitudeExtractor.loopResult, length_frameStarts]
  have hlp : (AmplitudeExtractor.loopResult m settings buffer sampleRate
      channel.toNat).peakValues.length = frameCount buffer.numSamples
        (AmplitudeExtractor.hopSamples settings sampleRate) := by
    simp [AmplitudeExtractor.loopResult, length_frameStarts]
  cases hnorm : settings.normalizeOutput with
  | false => exact ⟨_, _, rfl, hlr, hlp⟩
  | true =>
    have hpos : 0 < buffer.numSamples := by
      rcases hn with h | h
      · rw [hnorm] at h; cases h
      · exact h
    have hc := frameCount_pos (amplitude_hopSamples_pos settings sampleRate)
      (by exact_mod_cast hpos : (0 : Int) < (buffer.numSamples : Int))
    obtain ⟨x, hx⟩ := maxElement_isSome_of_length_pos (by rw [hlr]; exact hc)
    obtain ⟨y, hy⟩ := maxElement_isSome_of_length_pos (by rw [hlp]; exact hc)
    simp only [if_true, amplitude_normalize_eq hx hy]
    refine ⟨_, _, rfl, ?_, ?_⟩
    · split <;> simp [hlr]
    · split <;> simp [hlp]

theorem frameSums_zeros (l : List ℚ) (h : ∀ x ∈ l, x = 0) :
    AmplitudeExtractor.frameSums l = (0, 0) := by
  unfold AmplitudeExtractor.frameSums
  induction l with
  | nil => rfl
  | cons x xs ih =>
    have hx : x = 0 := h x (List.mem_cons_self _ _)
    subst hx
    simp only [List.foldl_cons, mul_zero, add_zero, abs_zero, gt_iff_lt, lt_irrefl, if_false,
      binary32_zero]
    exact ih (fun y hy => h y (List.mem_cons_of_mem _ hy))

theorem framePoint_silent (m : Numerics) (hsqrt : m.sqrt 0 = 0) (n : Nat) (sampleRate : ℚ)
    (windowSamples start : Int) :
    (AmplitudeExtractor.framePoint m (silentBuffer n) 0 sampleRate windowSamples start).2
      = (0, 0) := by
  unfold AmplitudeExtractor.framePoint
  simp only
  rw [frameSums_zeros _ (by
    intro x hx
    simp only [AudioBuffer.frameSamples, silentBuffer, List.mem_map] at hx
    obtain ⟨_, _, rfl⟩ := hx
    rfl)]
  simp [hsqrt, binary32_zero]

theorem amplitude_scenario (m : Numerics) (settings : Settings)
    (h1 : settings.windowSizeMs = 15) (h2 : settings.hopSizePct = 50)
    (h3 : settings.normalizeOutput = false) (hsqrt : m.sqrt 0 = 0) :
    ∃ rms peak : Series,
      AmplitudeExtractor.extract m settings (silentBuffer 44100) 44100 0 = some [rms, peak] ∧
      rms.length = 134 ∧ peak.length = 134 ∧
      (∀ p ∈ rms, p.2 = 0) ∧ (∀ p ∈ peak, p.2 = 0) := by
  rw [amplitude_extract_eq m settings (silentBuffer 44100) 44100 0 (by simp [silentBuffer]), h3]
  simp only [Bool.false_eq_true, if_false]
  have hhop := (amplitude_scenario_window_hop settings h1 h2).2
  have hcount : frameCount ((silentBuffer 44100).numSamples : Int)
      (AmplitudeExtractor.hopSamples settings 44100) = 134 := by
    rw [hhop]
    decide
  refine ⟨_, _, rfl, ?_, ?_, ?_, ?_⟩
  · simp [AmplitudeExtractor.loopResult, length_frameStarts, hcount]
  · simp [AmplitudeExtractor.loopResult, length_frameStarts, hcount]
  · intro p hp
    obtain ⟨a, b⟩ := p
    have hb := (List.of_mem_zip hp).2
    simp only [AmplitudeExtractor.loopResult, List.mem_map] at hb
    obtain ⟨st, _, rfl⟩ := hb
    have := framePoint_silent m hsqrt 44100 44100
      (AmplitudeExtractor.windowSamples settings 44100) st
    simp only [Int.toNat_zero]
    rw [this]
  · intro p hp
    obtain ⟨a, b⟩ := p
    have hb := (List.of_mem_zip hp).2
    simp only [AmplitudeExtractor.loopResult, List.mem_map] at hb
    obtain ⟨st, _, rfl⟩ := hb
    have := framePoint_silent m hsqrt 44100 44100
      (AmplitudeExtractor.windowSamples settings 44100) st
    simp only [Int.toNat_zero]
    rw [this]

/-- C15 (counterexample): on one second of silence at 44100 Hz with `windowSizeMs = 15`,
`hopSizePct = 50` and `normalizeOutput = false` the Amplitude extractor does not produce 132
frames. -/
theorem C15_scenario_not_132_frames :
    ¬ ∃ rms peak : Series,
      AmplitudeExtractor.extract sampleNumerics
        { Settings.default with normalizeOutput := false } (silentBuffer 44100) 44100 0
        = some [rms, peak] ∧ rms.length = 132 := by
  rintro ⟨rms, peak, he, hlen⟩
  obtain ⟨rms2, peak2, he2, hlen2, -⟩ := amplitude_scenario sampleNumerics
    { Settings.default with normalizeOutput := false } rfl rfl rfl rfl
  rw [he2] at he
  simp only [Option.some.injEq, List.cons.injEq, and_true] at he
  rw [← he.1] at hlen
  omega

/-- C15 (amended): for a mono buffer of 44100 zero samples at 44100 Hz, Amplitude extraction
with `windowSizeMs = 15`, `hopSizePct = 50`, `normalizeOutput = false` uses
`windowSamples = 661` and `hop = 330` and produces exactly 134 frames (the frame starts `0`,
`330`, ..., `43890` below 44100, the last two frames being partial), and every RMS and Peak
value is 0 (the square root of 0 being 0). -/
theorem C15_scenario_134_silent_frames (m : Numerics) (settings : Settings)
    (h1 : settings.windowSizeMs = 15) (h2 : settings.hopSizePct = 50)
    (h3 : settings.normalizeOutput = false) (hsqrt : m.sqrt 0 = 0) :
    AmplitudeExtractor.windowSamples settings 44100 = 661 ∧
    AmplitudeExtractor.hopSamples settings 44100 = 330 ∧
    ∃ rms peak : Series,
      AmplitudeExtractor.extract m settings (silentBuffer 44100) 44100 0 = some [rms, peak] ∧
      rms.length = 134 ∧ peak.length = 134 ∧
      (∀ p ∈ rms, p.2 = 0) ∧ (∀ p ∈ peak, p.2 = 0) :=
  ⟨(amplitude_scenario_window_hop settings h1 h2).1,
    (amplitude_scenario_window_hop settings h1 h2).2,
    amplitude_scenario m settings h1 h2 h3 hsqrt⟩

/-- Witness for C15 (amended): the default settings with normalisation off. -/
theorem C15_scenario_134_silent_frames_witness :
    AmplitudeExtractor.windowSamples { Settings.default with normalizeOutput := false } 44100
      = 661 ∧
    AmplitudeExtractor.hopSamples { Settings.default with normalizeOutput := false } 44100
      = 330 ∧
    ∃ rms peak : Series,
      AmplitudeExtractor.extract sampleNumerics
        { Settings.default with normalizeOutput := false } (silentBuffer 44100) 44100 0
        = some [rms, peak] ∧
      rms.length = 134 ∧ peak.length = 134 ∧
      (∀ p ∈ rms, p.2 = 0) ∧ (∀ p ∈ peak, p.2 = 0) :=
  C15_scenario_134_silent_frames sampleNumerics
    { Settings.default with normalizeOutput := false } rfl rfl rfl rfl

/-- C14 (the code at the failing input): a buffer of exactly 1024 samples holds one full window
of the Transient extractor, and `⌊(1024 - 1024) / 512⌋ + 1 = 1`; the guard
`start < numSamples - windowSamples` is `0 < 0` and the extractor returns no point. Likewise
the Pitch extractor at 1000 Hz (window 50) returns no point on a buffer of exactly 50
samples. -/
theorem C14_exact_fit_window_is_dropped :
    (1024 - 1024) / 512 + 1 = (1 : Int) ∧
    TransientExtractor.extract sampleNumerics (silentBuffer 1024) 44100 0 = some [[]] ∧
    truncToInt ((5 / 100 : ℚ) * 1000) = 50 ∧
    PitchExtractor.extract (silentBuffer 50) 1000 0 = some [[], []] := by
  have hw : truncToInt ((5 / 100 : ℚ) * 1000) = 50 := by
    have e : (5 / 100 : ℚ) * 1000 = ((50 : Int) : ℚ) := by norm_num
    rw [e, truncToInt_of_nonneg (by norm_num), Int.floor_intCast]
  refine ⟨by decide, ?_, hw, ?_⟩
  · obtain ⟨data, hd, -⟩ := getReadPointer_of_valid (silentBuffer 1024) 0
      (by simp [silentBuffer])
    unfold TransientExtractor.extract
    simp only [hd]
    rw [forLoop_of_not_lt _ _ _ _ _ _ (by simp [silentBuffer])]
  · obtain ⟨data, hd, -⟩ := getReadPointer_of_valid (silentBuffer 50) 0
      (by simp [silentBuffer])
    unfold PitchExtractor.extract
    simp only [hd, hw]
    rw [forLoop_of_not_lt _ _ _ _ _ _ (by simp [silentBuffer])]

/-- C19: on a buffer with fewer than two channels, of any length and under any settings,
`PanningExtractor::extract` returns exactly three series, each holding the one point
`(0, 0)`. -/
theorem C19_panning_mono_input (m : Numerics) (settings : Settings) (buffer : AudioBuffer)
    (sampleRate : ℚ) (channel : Int) (h : buffer.numChannels < 2) :
    PanningExtractor.extract m settings buffer sampleRate channel =
      some [[(0, 0)], [(0, 0)], [(0, 0)]] := by
  unfold PanningExtractor.extract
  rw [if_pos h]

/-- Witness for C19: a silent mono buffer of 100 samples. -/
theorem C19_panning_mono_input_witness :
    PanningExtractor.extract sampleNumerics Settings.default (silentBuffer 100) 44100 0 =
      some [[(0, 0)], [(0, 0)], [(0, 0)]] :=
  C19_panning_mono_input sampleNumerics Settings.default (silentBuffer 100) 44100 0
    (by simp [silentBuffer])

theorem foldl_keep {σ α : Type} (l : List α) (s : σ) : l.foldl (fun (acc : σ) _ => acc) s = s := by
  induction l with
  | nil => rfl
  | cons x xs ih => rw [List.foldl_cons]; exact ih

/-- With a window of 0 samples every frame of `PanningExtractor::extract` has length 0 and is
skipped by `if (length == 0) continue;`. -/
theorem panning_extract_zero_window (m : Numerics) (settings : Settings) (buffer : AudioBuffer)
    (sampleRate : ℚ) (channel : Int) (hch : 2 ≤ buffer.numChannels)
    (hw : PanningExtractor.windowSamples settings sampleRate = 0) :
    PanningExtractor.extract m settings buffer sampleRate channel = some [[], [], []] := by
  unfold PanningExtractor.windowSamples at hw
  obtain ⟨left, hdl, -⟩ := getReadPointer_of_valid buffer 0 ⟨le_refl _, by omega⟩
  obtain ⟨right, hdr, -⟩ := getReadPointer_of_valid buffer 1 ⟨by omega, by omega⟩
  unfold PanningExtractor.extract
  have hc : ¬ buffer.numChannels < 2 := by omega
  simp only [hc, if_false, hdl, hdr, hw]
  rw [forLoop_eq_foldl_frameStarts _ (fun (acc : Series × Series × Series) _ => acc) _ _
    (le_max_left _ _)
    (by
      intro start s h0 h1
      unfold PanningExtractor.frame
      have : min (start + 0) (buffer.numSamples : Int) - start = 0 := by
        rw [add_zero, min_eq_left (le_of_lt h1)]
        omega
      simp only [this, if_true])
    buffer.numSamples _ (by simp), foldl_keep]

/-- C13 (the code at the failing input): with `windowSizeMs = 1` at 800 Hz the product 0.8 is
truncated to a window of 0 samples. `AmplitudeExtractor::extract` resets the window to 1 and
returns 3 frames for a stereo buffer of 3 samples; `PanningExtractor::extract` has no such
statement, skips every frame, and returns no frame at all. -/
theorem C13_panning_misses_window_clamp :
    truncToInt (({ Settings.default with windowSizeMs := 1 } : Settings).windowSizeMs
      * 800 / 1000) = 0 ∧
    (∃ rms peak : Series,
      AmplitudeExtractor.extract sampleNumerics { Settings.default with windowSizeMs := 1 }
        (constantBuffer 2 3 1) 800 0 = some [rms, peak] ∧
      rms.length = 3 ∧ peak.length = 3) ∧
    PanningExtractor.extract sampleNumerics { Settings.default with windowSizeMs := 1 }
      (constantBuffer 2 3 1) 800 0 = some [[], [], []] := by
  have hw0 : truncToInt (({ Settings.default with windowSizeMs := 1 } : Settings).windowSizeMs
      * 800 / 1000) = 0 := by
    rw [truncToInt_of_nonneg (by norm_num), Int.floor_eq_iff]
    norm_num
  have hw1 : truncToInt (binary64 (binary64
      (({ Settings.default with windowSizeMs := 1 } : Settings).windowSizeMs * 800) / 1000))
      = 0 := by
    have e1 : binary64 (({ Settings.default with windowSizeMs := 1 } : Settings).windowSizeMs
        * 800) = 800 := by
      have h := binary64_intCast 800 (by norm_num)
      norm_num at h ⊢
      exact h
    have e2 : binary64 ((7 : ℚ) / 8) = 7 / 8 := by
      have h := binary64_grid 7 (-3) (by norm_num) (by norm_num)
      have e : ((7 : Int) : ℚ) * 2 ^ (-3 : Int) = 7 / 8 := by norm_num
      rw [e] at h
      exact h
    rw [e1]
    apply truncToInt_eq_zero (binary64_nonneg (by norm_num))
    have h := binary64_mono (by norm_num : (0 : ℚ) ≤ 800 / 1000)
      (by norm_num : (800 : ℚ) / 1000 ≤ 7 / 8)
    rw [e2] at h
    exact lt_of_le_of_lt h (by norm_num)
  have hh : AmplitudeExtractor.hopSamples { Settings.default with windowSizeMs := 1 } 800
      = 1 := by
    unfold AmplitudeExtractor.hopSamples
    rw [hw1]
    simp only [Int.cast_zero, binary32_zero, zero_mul, zero_div]
    rw [truncToInt_of_nonneg (le_refl _), Int.floor_zero]
    decide
  refine ⟨hw0, ?_, panning_extract_zero_window _ _ _ _ _ (by simp [constantBuffer]) hw1⟩
  obtain ⟨rv, pv, he, hr, hp⟩ := amplitude_extract_shape sampleNumerics
    { Settings.default with windowSizeMs := 1 } (constantBuffer 2 3 1) 800 0
    (by simp [constantBuffer]) (Or.inr (by simp [constantBuffer]))
  have hcount : frameCount ((constantBuffer 2 3 1).numSamples : Int) 1 = 3 := by decide
  have htl : (AmplitudeExtractor.loopResult sampleNumerics
      { Settings.default with windowSizeMs := 1 } (constantBuffer 2 3 1) 800
      (0 : Int).toNat).times.length = 3 := by
    simp only [AmplitudeExtractor.loopResult, List.length_map, length_frameStarts, hh, hcount]
  rw [hh, hcount] at hr hp
  exact ⟨_, _, he, by rw [List.length_zip, htl, hr]; rfl, by rw [List.length_zip, htl, hp]; rfl⟩

/-- C25: after `clearLoadedAudio`, and after a `loadAudioFile` that returns `true` (which it
does whenever a reader was created for the file), no feature name is extracted and every
(name, output index) displays the empty series, whatever the store held before. -/
theorem C25_clear_and_load_empty_the_store (p : Processor) (reader : Option AudioFormatReader)
    (fileName name : String) (k : Int) :
    (isFeatureExtracted p.clearLoadedAudio.featureBreakpoints name = false ∧
      getBreakpointsForDisplay p.clearLoadedAudio.featureBreakpoints name k = []) ∧
    ((p.loadAudioFile reader fileName).2 = true →
      isFeatureExtracted (p.loadAudioFile reader fileName).1.featureBreakpoints name = false ∧
      getBreakpointsForDisplay (p.loadAudioFile reader fileName).1.featureBreakpoints name k
        = []) ∧
    (reader.isSome = true → (p.loadAudioFile reader fileName).2 = true) := by
  refine ⟨⟨rfl, rfl⟩, ?_, ?_⟩
  · intro h
    cases reader with
    | none => exact absurd h (by simp [Processor.loadAudioFile])
    | some r => exact ⟨rfl, rfl⟩
  · intro h
    cases reader with
    | none => exact absurd h (by simp)
    | some r => rfl

/-- Witness for C25: `sampleProcessor` holds two points for `Transients`; after loading a file
of eight samples the name is no longer extracted and its output 0 displays nothing. -/
theorem C25_clear_and_load_empty_the_store_witness :
    getBreakpointsForDisplay sampleProcessor.featureBreakpoints "Transients" 0
      = [(0, 1), (1, 2)] ∧
    isFeatureExtracted (sampleProcessor.loadAudioFile
      (some { sampleRate := 44100, numChannels := 2, lengthInSamples := 8,
              sample := fun _ _ => 0 }) "b").1.featureBreakpoints "Transients" = false ∧
    getBreakpointsForDisplay (sampleProcessor.loadAudioFile
      (some { sampleRate := 44100, numChannels := 2, lengthInSamples := 8,
              sample := fun _ _ => 0 }) "b").1.featureBreakpoints "Transients" 0 = [] :=
  ⟨by simp [sampleProcessor, sampleStore, getBreakpointsForDisplay, toSizeT],
    ((C25_clear_and_load_empty_the_store sampleProcessor
      (some { sampleRate := 44100, numChannels := 2, lengthInSamples := 8,
              sample := fun _ _ => 0 }) "b" "Transients" 0).2.1 rfl).1,
    ((C25_clear_and_load_empty_the_store sampleProcessor
      (some { sampleRate := 44100, numChannels := 2, lengthInSamples := 8,
              sample := fun _ _ => 0 }) "b" "Transients" 0).2.1 rfl).2⟩

theorem update_set_frame (fb : Store) (f : String) (i : Nat) (outs : FeatureResult)
    (s : Series) (h1 : fb f = some outs) :
    (∀ g, g ≠ f → Function.update fb f (some (outs.set i s)) g = fb g) ∧
    (∀ g, isFeatureExtracted (Function.update fb f (some (outs.set i s))) g
      = isFeatureExtracted fb g) ∧
    (∃ outs', Function.update fb f (some (outs.set i s)) f = some outs' ∧
      outs'.length = outs.length ∧ ∀ j, j ≠ i → outs'[j]? = outs[j]?) := by
  refine ⟨fun g hg => Function.update_noteq hg _ _, ?_, ⟨outs.set i s, ?_, ?_, ?_⟩⟩
  · intro g
    unfold isFeatureExtracted
    by_cases hg : g = f
    · subst hg
      rw [Function.update_same, h1]
      rfl
    · rw [Function.update_noteq hg]
  · exact Function.update_same _ _ _
  · exact List.length_set _ _ _
  · intro j hj
    exact List.getElem?_set_ne (Ne.symm hj)

theorem addBreakpoint_cases (fb : Store) (f : String) (k : Int) (t v : ℚ) :
    addBreakpoint fb f k t v = fb ∨
    ∃ outs s, fb f = some outs ∧
      addBreakpoint fb f k t v = Function.update fb f (some (outs.set (toSizeT k) s)) := by
  by_cases hv : ValidOutput fb f k
  · obtain ⟨outs, h1, h2⟩ := hv
    exact Or.inr ⟨outs, _, h1, addBreakpoint_of_valid h1 h2 t v⟩
  · exact Or.inl (addBreakpoint_of_not_valid hv t v)

theorem updateBreakpoint_cases (fb : Store) (f : String) (k : Int) (p : Nat) (t v : ℚ) :
    updateBreakpoint fb f k p t v = fb ∨
    ∃ outs s, fb f = some outs ∧
      updateBreakpoint fb f k p t v = Function.update fb f (some (outs.set (toSizeT k) s)) := by
  by_cases hv : ValidOutput fb f k
  · obtain ⟨outs, h1, h2⟩ := hv
    by_cases h3 : p < (outs.get ⟨toSizeT k, h2⟩).length
    · exact Or.inr ⟨outs, _, h1, updateBreakpoint_of_valid h1 h2 p h3 t v⟩
    · refine Or.inl (updateBreakpoint_of_point_out_of_range fb f k p t v ?_)
      rw [getBreakpointsForDisplay_of_valid h1 h2]
      exact Nat.le_of_not_lt h3
  · exact Or.inl (updateBreakpoint_of_not_valid hv p t v)

theorem removeBreakpoint_cases (fb : Store) (f : String) (k : Int) (p : Nat) :
    removeBreakpoint fb f k p = fb ∨
    ∃ outs s, fb f = some outs ∧
      removeBreakpoint fb f k p = Function.update fb f (some (outs.set (toSizeT k) s)) := by
  by_cases hv : ValidOutput fb f k
  · obtain ⟨outs, h1, h2⟩ := hv
    by_cases h3 : p < (outs.get ⟨toSizeT k, h2⟩).length
    · exact Or.inr ⟨outs, _, h1, removeBreakpoint_of_valid h1 h2 p h3⟩
    · refine Or.inl (removeBreakpoint_of_point_out_of_range fb f k p ?_)
      rw [getBreakpointsForDisplay_of_valid h1 h2]
      exact Nat.le_of_not_lt h3
  · exact Or.inl (removeBreakpoint_of_not_valid hv p)

/-- An edit of output `k` of feature `f` either leaves the store as it is or replaces element
`toSizeT k` of the vector stored under `f`: every other entry of the map, the set of names, the
number of outputs of `f` and its other outputs are unchanged. -/
theorem edit_frame (fb fb' : Store) (f : String) (k : Int)
    (h : fb' = fb ∨ ∃ outs s, fb f = some outs ∧
      fb' = Function.update fb f (some (outs.set (toSizeT k) s))) :
    (∀ g, g ≠ f → fb' g = fb g) ∧
    (∀ g, isFeatureExtracted fb' g = isFeatureExtracted fb g) ∧
    (∀ outs, fb f = some outs → ∃ outs', fb' f = some outs' ∧
      outs'.length = outs.length ∧ ∀ j, j ≠ toSizeT k → outs'[j]? = outs[j]?) := by
  rcases h with h | ⟨outs, s, h1, h⟩
  · subst h
    exact ⟨fun _ _ => rfl, fun _ => rfl, fun outs ho => ⟨outs, ho, rfl, fun _ _ => rfl⟩⟩
  · subst h
    obtain ⟨a, b, c⟩ := update_set_frame fb f (toSizeT k) outs s h1
    refine ⟨a, b, ?_⟩
    intro outs2 ho
    rw [h1] at ho
    cases ho
    exact c

/-- C29: `addBreakpoint`, `updateBreakpoint` and `removeBreakpoint` on (feature `f`, output
`k`) leave every other feature's entry identical, keep the set of stored feature names
(`isFeatureExtracted` is the same for every name), and keep, for `f` itself, the number of
outputs and every output at an index other than `k`. -/
theorem C29_edits_leave_other_series_unchanged (fb fb' : Store) (f : String) (k : Int)
    (pointIndex : Nat) (time value : ℚ)
    (hedit : fb' = addBreakpoint fb f k time value ∨
      fb' = updateBreakpoint fb f k pointIndex time value ∨
      fb' = removeBreakpoint fb f k pointIndex) :
    (∀ g, g ≠ f → fb' g = fb g) ∧
    (∀ g, isFeatureExtracted fb' g = isFeatureExtracted fb g) ∧
    (∀ outs, fb f = some outs → ∃ outs', fb' f = some outs' ∧
      outs'.length = outs.length ∧ ∀ j, j ≠ toSizeT k → outs'[j]? = outs[j]?) := by
  apply edit_frame
  rcases hedit with h | h | h
  · rw [h]; exact addBreakpoint_cases fb f k time value
  · rw [h]; exact updateBreakpoint_cases fb f k pointIndex time value
  · rw [h]; exact removeBreakpoint_cases fb f k pointIndex

/-- Witness for C29: adding the point `(5, 9)` to output 0 of `Amplitude` in `sampleStore`
leaves `Transients` and output 1 of `Amplitude` as they were. -/
theorem C29_edits_leave_other_series_unchanged_witness :
    addBreakpoint sampleStore "Amplitude" 0 5 9 "Transients" = sampleStore "Transients" ∧
    ∃ outs', addBreakpoint sampleStore "Amplitude" 0 5 9 "Amplitude" = some outs' ∧
      outs'.length = 2 ∧ outs'[1]? = some [(0, 4)] :=
  have h := C29_edits_leave_other_series_unchanged sampleStore
    (addBreakpoint sampleStore "Amplitude" 0 5 9) "Amplitude" 0 0 5 9 (Or.inl rfl)
  ⟨h.1 "Transients" (by decide),
    (h.2.2 [[(0, 3)], [(0, 4)]] (by simp [sampleStore])).imp
      (fun _ hx => ⟨hx.1, hx.2.1, hx.2.2 1 (by simp [toSizeT])⟩)⟩

theorem sum_nonneg_of_nonneg {l : List ℚ} (h : ∀ x ∈ l, (0 : ℚ) ≤ x) : 0 ≤ l.sum :=
  List.sum_nonneg h

/-- The value `calculateRolloff` returns is the frequency of the bin at which its loop returns,
and `sampleRate / 2` when the loop runs to its end. -/
theorem rolloffFrom_eq_bin (sampleRate threshold : ℚ) (l : List ℚ) (i : Nat) (c : ℚ) :
    SpectralExtractor.rolloffFrom sampleRate threshold i c l =
      match SpectralExtractor.rolloffBinFrom threshold i c l with
      | some b => (b : ℚ) * sampleRate / ((SpectralExtractor.fftSize : ℚ) * 2)
      | none => sampleRate / 2 := by
  induction l generalizing i c with
  | nil => rfl
  | cons x xs ih =>
    unfold SpectralExtractor.rolloffFrom SpectralExtractor.rolloffBinFrom
    by_cases h : binary32 (c + x) ≥ threshold
    · simp only [h, if_true]
    · simp only [h, if_false]
      exact ih (i + 1) (binary32 (c + x))

theorem calculateRolloff_eq_bin (magnitudes : List ℚ) (sampleRate : ℚ) :
    SpectralExtractor.calculateRolloff magnitudes sampleRate =
      match SpectralExtractor.rolloffBin magnitudes with
      | some b => (b : ℚ) * sampleRate / ((SpectralExtractor.fftSize : ℚ) * 2)
      | none => sampleRate / 2 := by
  unfold SpectralExtractor.calculateRolloff SpectralExtractor.rolloffBin
  exact rolloffFrom_eq_bin _ _ _ _ _

theorem rolloffBinFrom_bounds (threshold : ℚ) (l : List ℚ) (i : Nat) (c : ℚ) (b : Nat)
    (h : SpectralExtractor.rolloffBinFrom threshold i c l = some b) :
    i ≤ b ∧ b < i + l.length := by
  induction l generalizing i c with
  | nil => simp [SpectralExtractor.rolloffBinFrom] at h
  | cons x xs ih =>
    unfold SpectralExtractor.rolloffBinFrom at h
    by_cases hx : binary32 (c + x) ≥ threshold
    · simp only [hx, if_true, Option.some.injEq] at h
      subst h
      simp
    · simp only [hx, if_false] at h
      have := ih (i + 1) (binary32 (c + x)) h
      rw [List.length_cons]
      omega

theorem floatSum_replicate_zero (n : Nat) (c : ℚ) (hc : binary32 c = c) :
    (List.replicate n (0 : ℚ)).foldl (fun t mag => binary32 (t + mag)) c = c := by
  induction n with
  | zero => rfl
  | succ k ih =>
    rw [List.replicate_succ, List.foldl_cons, add_zero, hc]
    exact ih

/-- The loop of `calculateRolloff` returns at bin 0 exactly when the first magnitude alone, as
the `float` `cumulativeEnergy`, reaches the `float` threshold. -/
theorem rolloffBin_eq_zero_iff (magnitudes : List ℚ) :
    SpectralExtractor.rolloffBin magnitudes = some 0 ↔
      ∃ m0, magnitudes[0]? = some m0 ∧
        SpectralExtractor.rolloffThreshold magnitudes ≤ binary32 m0 := by
  unfold SpectralExtractor.rolloffBin SpectralExtractor.rolloffThreshold
  cases magnitudes with
  | nil => simp [SpectralExtractor.rolloffBinFrom]
  | cons x xs =>
    simp only [List.getElem?_cons_zero, Option.some.injEq, exists_eq_left']
    unfold SpectralExtractor.rolloffBinFrom
    by_cases hx : binary32 (0 + x) ≥
        binary32 ((x :: xs).foldl (fun t mag => binary32 (t + mag)) 0 * binary32 (85 / 100))
    · simp only [hx, if_true, true_iff]
      simpa using hx
    · simp only [hx, if_false]
      constructor
      · intro h
        have := (rolloffBinFrom_bounds _ _ _ _ _ h).1
        omega
      · intro h
        exact absurd (by simpa using h) hx

/-- The magnitudes `8467251 / 2 ^ 19` (16.1499996), `1494221 / 2 ^ 19` (2.8500004) and 1022
zeros: the `float` sum is 19, the `float` threshold `19 * 0.85f` rounds to the first magnitude,
and `calculateRolloff` returns 0, although the first magnitude is below 85 % of the sum. -/
theorem rolloff_float_threshold_example :
    SpectralExtractor.rolloffThreshold
      ((8467251 / 524288 : ℚ) :: 1494221 / 524288 :: List.replicate 1022 0)
      = 8467251 / 524288 ∧
    SpectralExtractor.calculateRolloff
      ((8467251 / 524288 : ℚ) :: 1494221 / 524288 :: List.replicate 1022 0) 44100 = 0 ∧
    (8467251 / 524288 : ℚ) < (8467251 / 524288 + 1494221 / 524288) * (85 / 100) := by
  have ha : binary32 (8467251 / 524288 : ℚ) = 8467251 / 524288 := by
    have h := binary32_grid 8467251 (-19) (by norm_num) (by norm_num)
    have e : ((8467251 : Int) : ℚ) * 2 ^ (-19 : Int) = 8467251 / 524288 := by norm_num
    rw [e] at h
    exact h
  have hsum : binary32 ((8467251 / 524288 : ℚ) + 1494221 / 524288) = 19 := by
    have h := binary32_intCast 19 (by norm_num)
    norm_num at h ⊢
    exact h
  have hc : binary32 (85 / 100 : ℚ) = 7130317 / 8388608 := by
    rw [binary32_eval (-1) 14260634 _ (by norm_num) (Or.inl (by norm_num [abs_of_pos]))
      (by norm_num [abs_of_pos]) (by norm_num [abs_lt])]
    norm_num
  have hth : binary32 ((19 : ℚ) * (7130317 / 8388608)) = 8467251 / 524288 := by
    rw [binary32_eval 4 8467251 _ (by norm_num) (Or.inl (by norm_num [abs_of_pos]))
      (by norm_num [abs_of_pos]) (by norm_num [abs_lt])]
    norm_num
  have h19 : binary32 (19 : ℚ) = 19 := by
    have h := binary32_intCast 19 (by norm_num)
    simpa using h
  have hthr : SpectralExtractor.rolloffThreshold
      ((8467251 / 524288 : ℚ) :: 1494221 / 524288 :: List.replicate 1022 0)
      = 8467251 / 524288 := by
    unfold SpectralExtractor.rolloffThreshold
    rw [List.foldl_cons, List.foldl_cons, zero_add, ha, hsum,
      floatSum_replicate_zero _ _ h19, hc, hth]
  refine ⟨hthr, ?_, by norm_num⟩
  rw [calculateRolloff_eq_bin,
    (rolloffBin_eq_zero_iff _).mpr ⟨_, List.getElem?_cons_zero, by rw [hthr, ha]⟩]
  norm_num

theorem roundHalfEven_tie (n : Int) :
    roundHalfEven ((n : ℚ) + 1 / 2) = if n % 2 = 0 then n else n + 1 := by
  have hfl : ⌊(n : ℚ) + 1 / 2⌋ = n := by
    rw [Int.floor_eq_iff]
    constructor <;> norm_num
  have hfr : Int.fract ((n : ℚ) + 1 / 2) = 1 / 2 := by
    rw [Int.fract, hfl]
    ring
  unfold roundHalfEven
  rw [hfr, hfl]
  norm_num

/-- Evaluation of a rounding at a tie: `x` lies half way between the neighbours `n` and `n + 1`
of its binade, and goes to the even one. -/
theorem roundBinary_eval_tie (p : Nat) (emin e n : Int) (x : ℚ) (he : emin ≤ e)
    (h1 : (2 : ℚ) ^ e ≤ |x| ∨ e = emin) (h2 : |x| < (2 : ℚ) ^ (e + 1))
    (h3 : x / 2 ^ (e - ((p : Int) - 1)) = (n : ℚ) + 1 / 2) :
    roundBinary p emin x
      = ((if n % 2 = 0 then n else n + 1 : Int) : ℚ) * 2 ^ (e - ((p : Int) - 1)) := by
  unfold roundBinary
  rw [binaryExponent_eq emin e x he h1 h2, h3, roundHalfEven_tie]

/-- A window of 6 ms at the `double` sample rate `333.3333333333333`
(`5864062014805333 / 2 ^ 44`): the `double` product is a tie and rounds to 2000, the quotient
is 2 and the window is 2 samples, where the product and quotient without rounding,
`1.9999999999999998`, would be truncated to 1. -/
theorem amplitude_window_binary64_example :
    AmplitudeExtractor.windowSamples { Settings.default with windowSizeMs := 6 }
      (5864062014805333 / 17592186044416) = 2 ∧
    ⌊(6 : ℚ) * (5864062014805333 / 17592186044416) / 1000⌋ = 1 := by
  have e1 : binary64 ((6 : ℚ) * (5864062014805333 / 17592186044416)) = 2000 := by
    have h := roundBinary_eval_tie 53 (-1022) 10 8796093022207999
      ((6 : ℚ) * (5864062014805333 / 17592186044416)) (by norm_num)
      (Or.inl (by norm_num [abs_of_pos])) (by norm_num [abs_of_pos]) (by norm_num)
    have hodd : ¬ ((8796093022207999 : Int) % 2 = 0) := by decide
    rw [if_neg hodd] at h
    unfold binary64
    rw [h]
    norm_num
  have e2 : binary64 ((2000 : ℚ) / 1000) = 2 := by
    have h := binary64_intCast 2 (by norm_num)
    norm_num at h ⊢
    exact h
  have hfl : truncToInt (2 : ℚ) = 2 := by
    rw [truncToInt_of_nonneg (by norm_num), Int.floor_eq_iff]
    norm_num
  refine ⟨?_, by rw [Int.floor_eq_iff]; norm_num⟩
  unfold AmplitudeExtractor.windowSamples
  simp only [e1, e2, hfl]
  decide


end AudioDeconstructor
